import Mathlib

/-! gopls session cache: overlay store, view selection and session.

A shallow embedding of `gopls/internal/lsp/cache/session.go`, with the
parameter names and `lastSection` of `gopls/internal/golang/stubmethods` and
the producer table and `fixedByImportFix` of `gopls/internal/golang/codeaction.go`.

* `overlayFS.updateOverlays` becomes a pure function on an overlay map
  (`DocumentURI → Option Overlay`) that returns the map it leaves behind together
  with the error it returned, if any.
* `bestViewDefForURI` and `selectViews` become pure functions on lists of view
  definitions. Where a caller looks the returned `*viewDefinition` up in a map
  (`viewLookup` in `DidModifyFiles` and `viewOfLocked`), the same loop is run on
  pointers, a pointer being the index of the view that holds it.
* The methods of `Session` (`NewView`, `RemoveView`, `dropView`,
  `updateViewLocked`, `DidModifyFiles`, `viewOfLocked`, `ResetView`,
  `SnapshotOf`) become functions on a record of the
  fields they touch; a `nil` entry of `s.views` is `none`, and a dereference of
  `nil` is the outcome `panic`. The calls `shutdown` and `Invalidate` made on
  views are recorded in the session.

Functions and types that `session.go` uses but that live in other files
(`file.HashOf`, `file.KindForLang`, the delegate file source, `DocumentURI.Dir`,
`DocumentURI.Encloses`, `findRootPattern`, `defineView`, `viewDefinitionsEqual`,
`isGoMod`, `isGoWork`, `os.Stat`, `View.Invalidate`, the metadata of a
snapshot) are parameters of the model, and so are `unicode.IsUpper`,
`strings.ToLower`, the escapes of `%q`, the type checker of the stubs and the
results of the code action producers. A Go string is the text it holds.
-/

namespace protocol

/-- A `protocol.DocumentURI` is a Go string. -/
abbrev DocumentURI := String

end protocol

namespace file

/-- The `file.Action` of a modification (`UnknownAction` is the zero value). -/
inductive Action where
  | UnknownAction
  | Open
  | Change
  | Close
  | Save
  | Create
  | Delete
  deriving DecidableEq, Repr

/-- A `file.Kind` is a small integer tag. -/
abbrev Kind := Nat

/-- A `file.Hash` is a fixed-size digest; only equality of digests is observed. -/
abbrev Hash := Nat

/-- A `file.Modification`: the fields of a change notification that
`updateOverlays` reads. `Text = none` is Go's `nil` slice. -/
structure Modification where
  URI : protocol.DocumentURI
  Action : file.Action
  OnDisk : Bool
  Version : Int
  Text : Option (List UInt8)
  LanguageID : String
  deriving DecidableEq, Repr

/-- What `updateOverlays` observes of the `file.Handle` returned by
`mustReadFile(ctx, fs.delegate, uri)`: whether `Content()` fails and the
`Identity().Hash`. -/
structure Handle where
  readErr : Bool
  identityHash : file.Hash
  deriving DecidableEq, Repr

end file

namespace cache

open protocol

deriving instance DecidableEq for Except

/-- An `Overlay`: in-memory content of an open file. `content = none` is a `nil` slice. -/
structure Overlay where
  uri : DocumentURI
  version : Int
  content : Option (List UInt8)
  kind : file.Kind
  hash : file.Hash
  saved : Bool
  deriving DecidableEq, Repr

/-- The `overlays` map of an `overlayFS`. -/
abbrev Overlays := DocumentURI → Option Overlay

/-- The map with no overlay. -/
def Overlays.empty : Overlays := fun _ => none

/-- The Go statement `fs.overlays[uri] = o`. -/
def Overlays.set (m : Overlays) (uri : DocumentURI) (o : Overlay) : Overlays :=
  fun u => if u = uri then some o else m u

/-- The Go statement `delete(fs.overlays, uri)`. -/
def Overlays.delete (m : Overlays) (uri : DocumentURI) : Overlays :=
  fun u => if u = uri then none else m u

/-- The collaborators of `updateOverlays` that are defined outside `session.go`. -/
structure OverlayEnv where
  /-- The digest `file.HashOf` of a byte slice. -/
  HashOf : List UInt8 → file.Hash
  /-- The kind `file.KindForLang` of a language identifier. -/
  KindForLang : String → file.Kind
  /-- The handle `mustReadFile(ctx, fs.delegate, uri)` of the file on disk. -/
  delegate : DocumentURI → file.Handle

/-- The ways one iteration of `updateOverlays` stops the whole call: the three
`fmt.Errorf` returns, and a dereference of the `nil` overlay. -/
inductive UpdateError where
  | modifyingUnopened (uri : DocumentURI)
  | noKnownContent (action : file.Action)
  | changedOnSave (uri : DocumentURI)
  | nilDereference
  deriving DecidableEq, Repr

/-- The kind chosen by the first `switch c.Action` of the loop body. -/
def overlayKind (env : OverlayEnv) (o : Option Overlay) (c : file.Modification) :
    Except UpdateError file.Kind :=
  match c.Action with
  | .Open => .ok (env.KindForLang c.LanguageID)
  | _ =>
    match o with
    | none => .error (.modifyingUnopened c.URI)
    | some o => .ok o.kind

/-- The `text` of the new overlay: saves and on-disk changes without a body
keep the stored content. -/
def overlayText (o : Option Overlay) (c : file.Modification) :
    Except UpdateError (Option (List UInt8)) :=
  if c.Text = none ∧ (c.Action = .Save ∨ c.OnDisk = true) then
    match o with
    | none => .error (.noKnownContent c.Action)
    | some o => .ok o.content
  else .ok c.Text

/-- The `version` of the new overlay: on-disk changes and saves keep the stored version. -/
def overlayVersion (o : Option Overlay) (c : file.Modification) : Except UpdateError Int :=
  if c.OnDisk = true ∨ c.Action = .Save then
    match o with
    | none => .error .nilDereference
    | some o => .ok o.version
  else .ok c.Version

/-- The `sameContentOnDisk` flag computed by the second `switch c.Action`. -/
def overlaySaved (env : OverlayEnv) (o : Option Overlay) (c : file.Modification)
    (hash : file.Hash) : Except UpdateError Bool :=
  match c.Action with
  | .Delete => .ok false
  | .Save =>
    match o with
    | none => .error .nilDereference
    | some o =>
      if c.Text ≠ none ∧ o.hash ≠ hash then .error (.changedOnSave c.URI)
      else .ok true
  | _ =>
    let fh := env.delegate c.URI
    .ok (decide (fh.readErr = false ∧ fh.identityHash = hash))

/-- One iteration of the loop of `overlayFS.updateOverlays`: the overlay map
after the change `c`, or the error that the call returns at `c`. -/
def updateOverlay (env : OverlayEnv) (overlays : Overlays) (c : file.Modification) :
    Except UpdateError Overlays :=
  let o := overlays c.URI
  if o = none ∧ c.OnDisk = true then .ok overlays
  else
    match overlayKind env o c with
    | .error e => .error e
    | .ok kind =>
      if c.Action = .Close then .ok (overlays.delete c.URI)
      else
        match overlayText o c with
        | .error e => .error e
        | .ok text =>
          match overlayVersion o c with
          | .error e => .error e
          | .ok version =>
            let hash := env.HashOf (text.getD [])
            match overlaySaved env o c hash with
            | .error e => .error e
            | .ok sameContentOnDisk =>
              .ok (overlays.set c.URI
                { uri := c.URI, version := version, content := text, kind := kind,
                  hash := hash, saved := sameContentOnDisk })

/-- The function `overlayFS.updateOverlays`: the overlay map it leaves behind and
the error it returns (`none` for a `nil` error). An error stops the loop and
keeps the changes already applied. -/
def updateOverlays (env : OverlayEnv) : Overlays → List file.Modification →
    Overlays × Option UpdateError
  | overlays, [] => (overlays, none)
  | overlays, c :: cs =>
    match updateOverlay env overlays c with
    | .error e => (overlays, some e)
    | .ok overlays' => updateOverlays env overlays' cs

/-- The `ViewType` of a view definition, in the order of the Go constants. -/
inductive ViewType where
  | GoPackagesDriverView
  | GOPATHView
  | GoModView
  | GoWorkView
  | AdHocView
  deriving DecidableEq, Repr

/-- The fields of a `viewDefinition` that `bestViewDefForURI` reads. `typ` is
what the method `Type()` returns; `workspaceModFiles` lists the keys of the Go map. -/
structure viewDefinition where
  typ : ViewType
  root : DocumentURI
  gomod : DocumentURI
  gowork : DocumentURI
  workspaceModFiles : List DocumentURI
  deriving DecidableEq, Repr

/-- The collaborators of `bestViewDefForURI` that are defined outside `session.go`. -/
structure ViewEnv where
  /-- The method `DocumentURI.Dir`. -/
  Dir : DocumentURI → DocumentURI
  /-- The method `DocumentURI.Encloses`: `Encloses parent child`. -/
  Encloses : DocumentURI → DocumentURI → Bool
  /-- The call `findRootPattern(ctx, dir, basename, fs)`: the nearest enclosing
  file of that name (the empty URI when there is none), or an error. -/
  findRootPattern : DocumentURI → String → Except String DocumentURI

/-- The four local variables of `bestViewDefForURI`; `none` is `nil`. -/
structure BestViews where
  goPackagesView : Option viewDefinition
  gopathView : Option viewDefinition
  adHocView : Option viewDefinition
  modView : Option viewDefinition
  deriving DecidableEq, Repr

/-- The Go length `len(s)` of a string: its number of bytes. -/
def len (s : String) : Nat := s.utf8ByteSize

/-- The guard `cur != nil && len(cur.root) > len(view.root)` that skips a view
shorter than the current candidate. -/
def longerThan (cur : Option viewDefinition) (view : viewDefinition) : Prop :=
  match cur with
  | none => False
  | some g => len g.root > len view.root

instance (cur : Option viewDefinition) (view : viewDefinition) :
    Decidable (longerThan cur view) := by
  unfold longerThan
  cases cur <;> infer_instance

/-- The sequence of `if` statements after the loop: mod, then GOPATH, then
go/packages driver, then ad hoc. -/
def BestViews.result (b : BestViews) : Option viewDefinition :=
  match b.modView with
  | some v => some v
  | none =>
    match b.gopathView with
    | some v => some v
    | none =>
      match b.goPackagesView with
      | some v => some v
      | none => b.adHocView

/-- The loop `for _, view := range views` of `bestViewDefForURI` followed by the
final selection; a matching go.work view returns at once. -/
def bestViewLoop (env : ViewEnv) (uri dir modURI : DocumentURI) :
    List viewDefinition → BestViews → Option viewDefinition
  | [], b => b.result
  | view :: views, b =>
    match view.typ with
    | .GoPackagesDriverView =>
      if longerThan b.goPackagesView view then bestViewLoop env uri dir modURI views b
      else if env.Encloses view.root dir = true then
        bestViewLoop env uri dir modURI views { b with goPackagesView := some view }
      else bestViewLoop env uri dir modURI views b
    | .GoWorkView =>
      if uri = view.gowork then some view
      else if modURI ∈ view.workspaceModFiles then some view
      else bestViewLoop env uri dir modURI views b
    | .GoModView =>
      if modURI = view.gomod then
        bestViewLoop env uri dir modURI views { b with modView := some view }
      else bestViewLoop env uri dir modURI views b
    | .GOPATHView =>
      if longerThan b.gopathView view then bestViewLoop env uri dir modURI views b
      else if env.Encloses view.root dir = true then
        bestViewLoop env uri dir modURI views { b with gopathView := some view }
      else bestViewLoop env uri dir modURI views b
    | .AdHocView =>
      if view.root = dir then
        bestViewLoop env uri dir modURI views { b with adHocView := some view }
      else bestViewLoop env uri dir modURI views b

/-- The function `bestViewDefForURI`: `.ok none` is `(nil, nil)`, `.ok (some v)` is
`(v, nil)` and `.error err` is `(nil, err)`. -/
def bestViewDefForURI (env : ViewEnv) (uri : DocumentURI) (views : List viewDefinition) :
    Except String (Option viewDefinition) :=
  if views.length = 0 then .ok none
  else
    let dir := env.Dir uri
    match env.findRootPattern dir "go.mod" with
    | .error err => .error err
    | .ok modURI =>
      .ok (bestViewLoop env uri dir modURI views
        { goPackagesView := none, gopathView := none, adHocView := none, modView := none })

/-- The matching rule of each kind of view for a file `uri` whose nearest
enclosing go.mod file is `modURI`. -/
def viewMatches (env : ViewEnv) (uri modURI : DocumentURI) (v : viewDefinition) : Prop :=
  match v.typ with
  | .GoWorkView => uri = v.gowork ∨ modURI ∈ v.workspaceModFiles
  | .GoModView => modURI = v.gomod
  | .GOPATHView => env.Encloses v.root (env.Dir uri) = true
  | .GoPackagesDriverView => env.Encloses v.root (env.Dir uri) = true
  | .AdHocView => v.root = env.Dir uri

instance (env : ViewEnv) (uri modURI : DocumentURI) (v : viewDefinition) :
    Decidable (viewMatches env uri modURI v) := by
  unfold viewMatches
  cases v.typ <;> infer_instance

/-- The position of a kind in the order GoWork > GoMod > GOPATH >
GoPackagesDriver > AdHoc: a smaller rank is a higher precedence. -/
def ViewType.rank : ViewType → Nat
  | .GoWorkView => 0
  | .GoModView => 1
  | .GOPATHView => 2
  | .GoPackagesDriverView => 3
  | .AdHocView => 4

/-- The kind of the view that `bestViewDefForURI` returned, if it returned one. -/
def resultKind (r : Except String (Option viewDefinition)) : Except String (Option ViewType) :=
  match r with
  | .error e => .error e
  | .ok none => .ok none
  | .ok (some v) => .ok (some v.typ)

/-! ## Loop invariant of the view selection -/

/-- The candidate that the loop keeps for each kind; a go.work match is
returned at once and never kept. -/
def BestViews.slot (b : BestViews) : ViewType → Option viewDefinition
  | .GoWorkView => none
  | .GoModView => b.modView
  | .GOPATHView => b.gopathView
  | .GoPackagesDriverView => b.goPackagesView
  | .AdHocView => b.adHocView

/-- The loop invariant of `bestViewDefForURI` after the views `seen`. -/
structure LoopInv (env : ViewEnv) (uri modURI : DocumentURI) (seen : List viewDefinition)
    (b : BestViews) : Prop where
  sound : ∀ K v, b.slot K = some v → v ∈ seen ∧ v.typ = K ∧ viewMatches env uri modURI v
  complete : ∀ w ∈ seen, viewMatches env uri modURI w → b.slot w.typ ≠ none
  longest : ∀ K g, (K = .GOPATHView ∨ K = .GoPackagesDriverView) → b.slot K = some g →
    ∀ w ∈ seen, w.typ = K → viewMatches env uri modURI w → len w.root ≤ len g.root

/-- What the loop guarantees about its result on the list `views`. -/
structure LoopPost (env : ViewEnv) (uri modURI : DocumentURI) (views : List viewDefinition)
    (r : Option viewDefinition) : Prop where
  sound : ∀ v, r = some v → v ∈ views ∧ viewMatches env uri modURI v
  best : ∀ v, r = some v → ∀ w ∈ views, viewMatches env uri modURI w →
    v.typ.rank ≤ w.typ.rank
  complete : r = none → ∀ w ∈ views, ¬ viewMatches env uri modURI w
  longest : ∀ v, r = some v → (v.typ = .GOPATHView ∨ v.typ = .GoPackagesDriverView) →
    ∀ w ∈ views, w.typ = v.typ → viewMatches env uri modURI w → len w.root ≤ len v.root

/-! ## selectViews -/

/-- A workspace `Folder`: the fields that `session.go` reads. -/
structure Folder where
  Dir : DocumentURI
  Name : String
  deriving DecidableEq, Repr

/-- The collaborators of `selectViews`: those of `bestViewDefForURI` together
with `defineView(ctx, fs, folder, forURI)` and `viewDefinitionsEqual`, both
defined outside `session.go`. -/
structure SelectEnv extends ViewEnv where
  /-- The call `defineView(ctx, fs, folder, forURI)`. -/
  defineView : Folder → DocumentURI → Except String viewDefinition
  /-- The comparison `viewDefinitionsEqual(x, y)`. -/
  viewDefinitionsEqual : viewDefinition → viewDefinition → Bool

/-- The guard `longest == nil || len(folder.Dir) > len(longest.Dir)` of `folderForFile`. -/
def longerFolder (longest : Option Folder) (folder : Folder) : Prop :=
  match longest with
  | none => True
  | some l => len folder.Dir > len l.Dir

instance (longest : Option Folder) (folder : Folder) : Decidable (longerFolder longest folder) := by
  unfold longerFolder
  cases longest <;> infer_instance

/-- The closure `folderForFile` of `selectViews`: the first longest folder that
encloses `uri`, or `none` for `nil`. -/
def folderForFile (env : ViewEnv) (folders : List Folder) (uri : DocumentURI) : Option Folder :=
  folders.foldl
    (fun longest folder =>
      if longerFolder longest folder ∧ env.Encloses folder.Dir uri = true then some folder
      else longest)
    none

/-- The first loop of `selectViews`: one `defineView(ctx, fs, folder, "")` per
folder, appended to `views`; the first error is returned. -/
def defineFolderViews (env : SelectEnv) :
    List Folder → List viewDefinition → Except String (List viewDefinition)
  | [], views => .ok views
  | folder :: folders, views =>
    match env.defineView folder "" with
    | .error err => .error err
    | .ok view => defineFolderViews env folders (views ++ [view])

/-- The loop labelled `checkFiles` of `selectViews` over the open files. -/
def checkFiles (env : SelectEnv) (folders : List Folder) :
    List DocumentURI → List viewDefinition → Except String (List viewDefinition)
  | [], views => .ok views
  | uri :: openFiles, views =>
    match folderForFile env.toViewEnv folders uri with
    | none => checkFiles env folders openFiles views
    | some folder =>
      match bestViewDefForURI env.toViewEnv uri views with
      | .error err => .error err
      | .ok (some _) => checkFiles env folders openFiles views
      | .ok none =>
        match env.defineView folder uri with
        | .error err => .error err
        | .ok view =>
          if views.any (fun alt => env.viewDefinitionsEqual alt view) = true then
            checkFiles env folders openFiles views
          else checkFiles env folders openFiles (views ++ [view])

/-- The function `selectViews`: the view definitions, or the error it returns. -/
def selectViews (env : SelectEnv) (folders : List Folder) (openFiles : List DocumentURI) :
    Except String (List viewDefinition) :=
  match defineFolderViews env folders [] with
  | .error err => .error err
  | .ok views => checkFiles env folders openFiles views

/-! ## Session -/

/-- A `View`, as far as the session observes it. A `*View` is identified with
this record: `createView` gives every view a fresh `id` from the counter
`viewIndex`. The view's own state (its snapshot, whether it is shut down) is
not part of the record; the calls that change it are recorded in the session. -/
structure View where
  id : Nat
  folder : Folder
  viewDefinition : cache.viewDefinition
  deriving DecidableEq, Repr

/-- The `Files` map of a `StateChange`: the handle of each changed URI. -/
abbrev Files := DocumentURI → Option file.Handle

/-- The map `viewsToDiagnose` returned by `DidModifyFiles`, keyed by `*View`
(`none` is the `nil` pointer); the value `none` means that the key is absent. -/
abbrev ViewsToDiagnose := Option View → Option (List DocumentURI)

/-- The state that the operations of `Session` read and write.
* `views` is `s.views`; a `none` entry is a `nil` pointer.
* `viewMap` is `s.viewMap`: `none` is the `nil` map, and in a map the value
  `some none` is a key bound to the `nil` view.
* `overlays` is the overlay map of the embedded `overlayFS`.
* `viewIndex` is the package-level counter that `createView` increments.
* `shutdowns` and `invalidations` record, in order, the calls `v.shutdown()`
  and `v.Invalidate(ctx, StateChange{Files: files})` made so far. -/
structure Session where
  views : List (Option View)
  viewMap : Option (DocumentURI → Option (Option View))
  overlays : Overlays
  viewIndex : Nat
  shutdowns : List View
  invalidations : List (View × Files)

/-- The result of an operation that can dereference a `nil` pointer or index
out of range: `panic` is the Go run-time panic. -/
inductive Outcome (α : Type) where
  | ok (a : α)
  | panic

/-- The collaborators of the `Session` operations that are defined outside
`session.go`. The functions that read files (`defineView`, `findRootPattern`,
`ReadFile`) describe the file source as the operation sees it when it calls
them; in `DidModifyFiles` that is after the overlays have been updated. -/
structure SessionEnv extends SelectEnv, OverlayEnv where
  /-- The predicate `isGoWork(uri)`. -/
  isGoWork : DocumentURI → Bool
  /-- The predicate `isGoMod(uri)`. -/
  isGoMod : DocumentURI → Bool
  /-- The call `os.Stat(filepath.FromSlash(dir.Path()))`: the file's identity,
  or `none` when it fails. -/
  Stat : DocumentURI → Option Nat
  /-- The call `os.SameFile(inode1, inode2)`. -/
  SameFile : Nat → Nat → Bool
  /-- The call `mustReadFile(ctx, s, uri)` on the session's overlays. -/
  ReadFile : Overlays → DocumentURI → file.Handle
  /-- The third result of `v.Invalidate(ctx, StateChange{Files: files})`. -/
  needsDiagnosis : View → Files → Bool

/-- The value `make(map[protocol.DocumentURI]*View)`. -/
def emptyViewMap : Option (DocumentURI → Option (Option View)) := some (fun _ => none)

/-- The function `createView`: the new view takes the next value of `viewIndex`
as its id. -/
def createView (s : Session) (d : viewDefinition) (folder : Folder) : Session × View :=
  let index := s.viewIndex + 1
  ({ s with viewIndex := index }, { id := index, folder := folder, viewDefinition := d })

/-- The first index `i` with `v == s.views[i]`, if there is one. -/
def indexOfView (v : View) : List (Option View) → Option Nat
  | [] => none
  | x :: xs => if x = some v then some 0 else (indexOfView v xs).map (· + 1)

/-- The function `removeElement`: the element at `index` is replaced by the last
one and the slice loses its last element. -/
def removeElement (slice : List (Option View)) (index : Nat) : Outcome (List (Option View)) :=
  match slice[slice.length - 1]? with
  | none => .panic
  | some lastView =>
    if index < slice.length then .ok ((slice.set index lastView).take (slice.length - 1))
    else .panic

/-- The method `Session.dropView`: the map is replaced by an empty one; when `v`
is found its slot becomes `nil`, `v` is shut down and its index is returned;
otherwise the result is `none`, for `-1`. -/
def dropView (s : Session) (v : View) : Session × Option Nat :=
  let s₁ := { s with viewMap := emptyViewMap }
  match indexOfView v s₁.views with
  | some i =>
    ({ s₁ with views := s₁.views.set i none, shutdowns := s₁.shutdowns ++ [v] }, some i)
  | none => (s₁, none)

/-- The method `Session.updateViewLocked`: the view is dropped and a new view
with definition `d` takes its slot. -/
def updateViewLocked (s : Session) (view : View) (d : viewDefinition) (folder : Folder) :
    Session × Except String View :=
  match dropView s view with
  | (s₁, none) => (s₁, .error "view not found")
  | (s₁, some i) =>
    match createView s₁ d folder with
    | (s₂, view') =>
      ({ s₂ with views := s₂.views.set i (some view'), viewMap := emptyViewMap }, .ok view')

/-- The errors that `NewView` returns. -/
inductive NewViewError where
  | ErrViewExists
  | defineView (err : String)
  deriving DecidableEq, Repr

/-- The loop of `NewView` over the existing views: whether one of them has a
folder that denotes the same file as `inode1`. -/
def viewExists (env : SessionEnv) (inode1 : Nat) : List (Option View) → Outcome Bool
  | [] => .ok false
  | none :: _ => .panic
  | some view :: views =>
    match env.Stat view.folder.Dir with
    | some inode2 =>
      if env.SameFile inode1 inode2 = true then .ok true else viewExists env inode1 views
    | none => viewExists env inode1 views

/-- The part of `NewView` after the check for an existing view. -/
def NewView.create (env : SessionEnv) (s : Session) (folder : Folder) :
    Session × Except NewViewError View :=
  match env.defineView folder "" with
  | .error err => (s, .error (.defineView err))
  | .ok d =>
    match createView s d folder with
    | (s₁, view) =>
      ({ s₁ with views := s₁.views ++ [some view], viewMap := emptyViewMap }, .ok view)

/-- The method `Session.NewView`. -/
def NewView (env : SessionEnv) (s : Session) (folder : Folder) :
    Outcome (Session × Except NewViewError View) :=
  match env.Stat folder.Dir with
  | some inode1 =>
    match viewExists env inode1 s.views with
    | .panic => .panic
    | .ok true => .ok (s, .error .ErrViewExists)
    | .ok false => .ok (NewView.create env s folder)
  | none => .ok (NewView.create env s folder)

/-- The loop of `RemoveView`: the first view whose folder is `dir`. -/
def findViewByDir (dir : DocumentURI) : List (Option View) → Outcome (Option View)
  | [] => .ok none
  | none :: _ => .panic
  | some view :: views =>
    if view.folder.Dir = dir then .ok (some view) else findViewByDir dir views

/-- The method `Session.RemoveView`. -/
def RemoveView (s : Session) (dir : DocumentURI) : Outcome (Session × Bool) :=
  match findViewByDir dir s.views with
  | .panic => .panic
  | .ok none => .ok (s, false)
  | .ok (some view) =>
    match dropView s view with
    | (s₁, none) => .ok (s₁, false)
    | (s₁, some i) =>
      match removeElement s₁.views i with
      | .panic => .panic
      | .ok views => .ok ({ s₁ with views := views }, true)

/-- The flag `checkViews` that the first loop of `DidModifyFiles` computes. -/
def checkViews (env : SessionEnv) (changes : List file.Modification) : Bool :=
  changes.foldl
    (fun checkViews c =>
      let checkViews₁ :=
        if env.isGoWork c.URI = true ∧ (c.Action = .Save ∨ c.OnDisk = true) then true
        else checkViews
      if env.isGoMod c.URI = true ∧ c.Action ≠ .Change ∧ c.Action ≠ .Save then true
      else checkViews₁)
    false

/-- The map `changed` that the first loop of `DidModifyFiles` fills. -/
def changedFiles (env : SessionEnv) (overlays : Overlays) (changes : List file.Modification) :
    Files :=
  changes.foldl
    (fun changed c => fun u => if u = c.URI then some (env.ReadFile overlays c.URI) else changed u)
    (fun _ => none)

/-- The loop `for _, view := range s.views` under `if checkViews`, over the
indices that remain: the view at index `k` is read from the current `s.views`. -/
def recreateViews (env : SessionEnv) : List Nat → Session → Outcome Session
  | [], s => .ok s
  | k :: ks, s =>
    match s.views[k]? with
    | none => .panic
    | some none => .panic
    | some (some view) =>
      match env.defineView view.folder "" with
      | .error _ => recreateViews env ks s
      | .ok info =>
        if env.viewDefinitionsEqual view.viewDefinition info = false then
          recreateViews env ks (updateViewLocked s view info view.folder).1
        else recreateViews env ks s

/-- The slice `viewDefinitions` collected from `s.views`. -/
def collectDefinitions : List (Option View) → Outcome (List viewDefinition)
  | [] => .ok []
  | none :: _ => .panic
  | some view :: views =>
    match collectDefinitions views with
    | .panic => .panic
    | .ok defs => .ok (view.viewDefinition :: defs)

/-- A `*viewDefinition` of the slice `viewDefinitions` that `DidModifyFiles`
and `viewOfLocked` collect from `s.views`. Every view holds a pointer to a
definition of its own: `defineView` allocates the definition that it returns,
and `ResetView` hands the pointer of the view that it drops to the view that
takes its place. A pointer is therefore known by the index of its view in
`s.views`, and two views whose definitions are equal still have two pointers;
`target` is the definition that the pointer refers to. -/
structure viewDefinitionPtr where
  index : Nat
  target : viewDefinition
  deriving DecidableEq, Repr

/-- The slice `viewDefinitions` as pointers: the element at index `i` is the
pointer `view.viewDefinition` of the view at index `i`, counted from `i₀`. -/
def pointersFrom (i₀ : Nat) : List viewDefinition → List viewDefinitionPtr
  | [] => []
  | d :: defs => { index := i₀, target := d } :: pointersFrom (i₀ + 1) defs

/-- The four local variables of `bestViewDefForURI`, as the pointers that they
are; `none` is `nil`. -/
structure BestViewPtrs where
  goPackagesView : Option viewDefinitionPtr
  gopathView : Option viewDefinitionPtr
  adHocView : Option viewDefinitionPtr
  modView : Option viewDefinitionPtr
  deriving DecidableEq, Repr

/-- The sequence of `if` statements after the loop of `bestViewDefForURI`, on pointers. -/
def BestViewPtrs.result (b : BestViewPtrs) : Option viewDefinitionPtr :=
  match b.modView with
  | some v => some v
  | none =>
    match b.gopathView with
    | some v => some v
    | none =>
      match b.goPackagesView with
      | some v => some v
      | none => b.adHocView

/-- The loop of `bestViewDefForURI` with the identity of the pointers kept:
the statements are those of `bestViewLoop`, and the result is the element of
the slice that is returned, not only the definition that it points to. -/
def bestViewPtrLoop (env : ViewEnv) (uri dir modURI : DocumentURI) :
    List viewDefinitionPtr → BestViewPtrs → Option viewDefinitionPtr
  | [], b => b.result
  | view :: views, b =>
    match view.target.typ with
    | .GoPackagesDriverView =>
      if longerThan (b.goPackagesView.map (·.target)) view.target then
        bestViewPtrLoop env uri dir modURI views b
      else if env.Encloses view.target.root dir = true then
        bestViewPtrLoop env uri dir modURI views { b with goPackagesView := some view }
      else bestViewPtrLoop env uri dir modURI views b
    | .GoWorkView =>
      if uri = view.target.gowork then some view
      else if modURI ∈ view.target.workspaceModFiles then some view
      else bestViewPtrLoop env uri dir modURI views b
    | .GoModView =>
      if modURI = view.target.gomod then
        bestViewPtrLoop env uri dir modURI views { b with modView := some view }
      else bestViewPtrLoop env uri dir modURI views b
    | .GOPATHView =>
      if longerThan (b.gopathView.map (·.target)) view.target then
        bestViewPtrLoop env uri dir modURI views b
      else if env.Encloses view.target.root dir = true then
        bestViewPtrLoop env uri dir modURI views { b with gopathView := some view }
      else bestViewPtrLoop env uri dir modURI views b
    | .AdHocView =>
      if view.target.root = dir then
        bestViewPtrLoop env uri dir modURI views { b with adHocView := some view }
      else bestViewPtrLoop env uri dir modURI views b

/-- The function `bestViewDefForURI` with the identity of the pointers kept, as
its callers in `Session` need it for the lookup in `viewLookup`. -/
def bestViewDefPtrForURI (env : ViewEnv) (uri : DocumentURI) (views : List viewDefinitionPtr) :
    Except String (Option viewDefinitionPtr) :=
  if views.length = 0 then .ok none
  else
    let dir := env.Dir uri
    match env.findRootPattern dir "go.mod" with
    | .error err => .error err
    | .ok modURI =>
      .ok (bestViewPtrLoop env uri dir modURI views
        { goPackagesView := none, gopathView := none, adHocView := none, modView := none })

/-- The definitions that the four pointers refer to. -/
def BestViewPtrs.targets (b : BestViewPtrs) : BestViews :=
  { goPackagesView := b.goPackagesView.map (·.target),
    gopathView := b.gopathView.map (·.target),
    adHocView := b.adHocView.map (·.target),
    modView := b.modView.map (·.target) }

/-- The map `viewLookup` collected from `s.views`, applied to a pointer of the
slice `viewDefinitions`: the view that holds the pointer, which is the view at
the index of the pointer. -/
def viewLookup (views : List (Option View)) (p : viewDefinitionPtr) : Option View :=
  views.getD p.index none

/-- The statement `viewsToDiagnose[v] = append(viewsToDiagnose[v], uri)`. -/
def ViewsToDiagnose.append (m : ViewsToDiagnose) (v : Option View) (uri : DocumentURI) :
    ViewsToDiagnose :=
  fun key => if key = v then some ((m v).getD [] ++ [uri]) else m key

/-- The key of `viewsToDiagnose` that a changed file is collected under: `none`
when `bestViewDefForURI` fails or finds no view. -/
def bestViewKey (env : SessionEnv) (views : List (Option View)) (defs : List viewDefinition)
    (uri : DocumentURI) : Option (Option View) :=
  match bestViewDefPtrForURI env.toViewEnv uri (pointersFrom 0 defs) with
  | .error _ => none
  | .ok none => none
  | .ok (some d) => some (viewLookup views d)

/-- The loop of `DidModifyFiles` that collects the changed files into their best views. -/
def collectBestViews (env : SessionEnv) (views : List (Option View))
    (defs : List viewDefinition) : List file.Modification → ViewsToDiagnose → ViewsToDiagnose
  | [], m => m
  | c :: changes, m =>
    match bestViewKey env views defs c.URI with
    | none => collectBestViews env views defs changes m
    | some v => collectBestViews env views defs changes (m.append v c.URI)

/-- The last loop of `DidModifyFiles`: every view is invalidated, and a view
that needs diagnosis gets a key in `viewsToDiagnose`. -/
def invalidateViews (env : SessionEnv) (changed : Files) (check : Bool) :
    List (Option View) → Session → ViewsToDiagnose → Outcome (Session × ViewsToDiagnose)
  | [], s, m => .ok (s, m)
  | none :: _, _, _ => .panic
  | some v :: views, s, m =>
    let s₁ := { s with invalidations := s.invalidations ++ [(v, changed)] }
    let m₁ : ViewsToDiagnose :=
      if env.needsDiagnosis v changed = true ∨ check = true then
        fun key => if key = some v then some ((m (some v)).getD []) else m key
      else m
    invalidateViews env changed check views s₁ m₁

/-- The method `Session.DidModifyFiles`: the session it leaves behind, with the
map it returns or the error it returns. -/
def DidModifyFiles (env : SessionEnv) (s : Session) (changes : List file.Modification) :
    Outcome (Session × Except UpdateError ViewsToDiagnose) :=
  match updateOverlays env.toOverlayEnv s.overlays changes with
  | (overlays, some err) => .ok ({ s with overlays := overlays }, .error err)
  | (overlays, none) =>
    let s₁ := { s with overlays := overlays }
    let check := checkViews env changes
    let changed := changedFiles env overlays changes
    match (if check = true then recreateViews env (List.range s₁.views.length) s₁
           else .ok s₁) with
    | .panic => .panic
    | .ok s₂ =>
      match collectDefinitions s₂.views with
      | .panic => .panic
      | .ok viewDefinitions =>
        let viewsToDiagnose :=
          collectBestViews env s₂.views viewDefinitions changes (fun _ => none)
        match invalidateViews env changed check s₂.views s₂ viewsToDiagnose with
        | .panic => .panic
        | .ok (s₃, m) => .ok (s₃, .ok m)

/-- A well-formed session: no view of `s.views` is `nil`, every view has an id
that `viewIndex` has already issued, and no view is listed twice. The sessions
that `NewView` and `DidModifyFiles` build from the empty session are of this form. -/
def Session.WF (s : Session) : Prop :=
  (∀ e ∈ s.views, ∃ v, e = some v ∧ v.id ≤ s.viewIndex) ∧ s.views.Nodup

/-- What the re-evaluation of `DidModifyFiles` leaves in the slot of the view
`v`: `v` itself when `defineView` fails or returns a definition equal to that
of `v`, and otherwise a view with the new definition, the folder of `v` and an
id issued after `bound`. -/
def recreated (env : SessionEnv) (bound : Nat) (v : View) (e : Option View) : Prop :=
  match env.defineView v.folder "" with
  | .error _ => e = some v
  | .ok info =>
    if env.viewDefinitionsEqual v.viewDefinition info = true then e = some v
    else ∃ v', e = some v' ∧ v'.viewDefinition = info ∧ v'.folder = v.folder ∧ bound < v'.id

/-- The invariant of the re-evaluation loop of `DidModifyFiles`, started in the
session `s₀`, before the view at index `k` is visited. -/
structure RecreateInv (env : SessionEnv) (s₀ : Session) (k : Nat) (cur : Session) : Prop where
  wf : cur.WF
  length : cur.views.length = s₀.views.length
  rest : ∀ i, k ≤ i → cur.views[i]? = s₀.views[i]?
  done : ∀ i v, i < k → s₀.views[i]? = some (some v) →
    ∃ e, cur.views[i]? = some e ∧ recreated env s₀.viewIndex v e
  index : s₀.viewIndex ≤ cur.viewIndex
  overlays : cur.overlays = s₀.overlays
  invalidations : cur.invalidations = s₀.invalidations

/-- No entry of the view map refers to a view that is not in `s.views`. -/
def viewMapValid (s : Session) : Prop :=
  ∀ m uri v, s.viewMap = some m → m uri = some (some v) → some v ∈ s.views

/-- The condition on one change under which the first loop of `DidModifyFiles`
sets `checkViews`. -/
def triggersCheckViews (env : SessionEnv) (c : file.Modification) : Prop :=
  (env.isGoWork c.URI = true ∧ (c.Action = .Save ∨ c.OnDisk = true)) ∨
  (env.isGoMod c.URI = true ∧ c.Action ≠ .Change ∧ c.Action ≠ .Save)

instance (env : SessionEnv) (c : file.Modification) : Decidable (triggersCheckViews env c) := by
  unfold triggersCheckViews
  infer_instance

/-! ## SnapshotOf and ResetView -/

/-- The method `Session.viewOfLocked`: the memoized view of `uri`, or on a miss
the view of the definition that `bestViewDefForURI` selects, which is then
stored in `viewMap`. The result `.ok none` is `(nil, nil)`. -/
def viewOfLocked (env : SessionEnv) (s : Session) (uri : DocumentURI) :
    Outcome (Session × Except String (Option View)) :=
  match (match s.viewMap with
         | some m => m uri
         | none => none) with
  | some v => .ok (s, .ok v)
  | none =>
    match collectDefinitions s.views with
    | .panic => .panic
    | .ok defs =>
      match bestViewDefPtrForURI env.toViewEnv uri (pointersFrom 0 defs) with
      | .error err => .ok (s, .error err)
      | .ok d =>
        let v : Option View :=
          match d with
          | some d => viewLookup s.views d
          | none => none
        match s.viewMap with
        | none => .ok (s, .error "session is shut down")
        | some m =>
          .ok ({ s with viewMap := some (fun u => if u = uri then some v else m u) }, .ok v)

/-- The method `Session.ResetView`: with a `nil` view from `viewOfLocked`, the
arguments `v.viewDefinition` and `v.folder` of `updateViewLocked` dereference `nil`. -/
def ResetView (env : SessionEnv) (s : Session) (uri : DocumentURI) :
    Outcome (Session × Except String View) :=
  match viewOfLocked env s uri with
  | .panic => .panic
  | .ok (s₁, .error err) => .ok (s₁, .error err)
  | .ok (_, .ok none) => .panic
  | .ok (s₁, .ok (some v)) => .ok (updateViewLocked s₁ v v.viewDefinition v.folder)

/-- The errors that `SnapshotOf` returns: `errNoViews`, or the error of
`viewOfLocked` or of the context. -/
inductive SnapshotError where
  | errNoViews
  | other (err : String)
  deriving DecidableEq, Repr

/-- The collaborators of `SnapshotOf`, besides those of the other operations:
the context and the metadata that the views have loaded. -/
structure SnapshotEnv extends SessionEnv where
  /-- The value `ctx.Err()`; `none` when the context is not cancelled. -/
  ctxErr : Option String
  /-- The call `snapshot.IsBuiltin(uri)` on the current snapshot of a view. -/
  IsBuiltin : View → DocumentURI → Bool
  /-- The package ids `g.IDs[uri]` of the metadata graph of a view's current
  snapshot, once `awaitLoaded` has returned. -/
  packageIDs : View → DocumentURI → List String
  /-- The predicate `metadata.IsCommandLineArguments(id)`. -/
  IsCommandLineArguments : String → Bool
  /-- The field `g.Packages[id].Standalone` in the metadata graph of a view. -/
  Standalone : View → String → Bool

/-- Whether `v.Snapshot()` fails: the view has been shut down. -/
def Session.isShutDown (s : Session) (v : View) : Prop := v ∈ s.shutdowns

instance (s : Session) (v : View) : Decidable (s.isShutDown v) := by
  unfold Session.isShutDown
  infer_instance

/-- The inner loop of `SnapshotOf` over `g.IDs[uri]`: some package of the file
in the view is not a command-line-arguments package, or is standalone. -/
def loadedRealPackage (env : SnapshotEnv) (v : View) (uri : DocumentURI) : Bool :=
  (env.packageIDs v uri).any
    (fun id => !env.IsCommandLineArguments id || env.Standalone v id)

/-- The first loop of the fall-back of `SnapshotOf`: the snapshot of the first
view, not shut down, for which the file is the builtin file or has a real
package; `none` when the loop ends without a `return`. A snapshot is
represented by its view. -/
def firstLoadedView (env : SnapshotEnv) (s : Session) (uri : DocumentURI) :
    List (Option View) → Outcome (Option (Except SnapshotError View))
  | [] => .ok none
  | none :: _ => .panic
  | some v :: views =>
    if s.isShutDown v then firstLoadedView env s uri views
    else
      match env.ctxErr with
      | some err => .ok (some (.error (.other err)))
      | none =>
        if env.IsBuiltin v uri = true then .ok (some (.ok v))
        else if loadedRealPackage env v uri = true then .ok (some (.ok v))
        else firstLoadedView env s uri views

/-- The second loop of the fall-back of `SnapshotOf`: the first view that is
not shut down. -/
def firstValidView (s : Session) : List (Option View) → Outcome (Option View)
  | [] => .ok none
  | none :: _ => .panic
  | some v :: views => if s.isShutDown v then firstValidView s views else .ok (some v)

/-- The statement `if s.viewMap[uri] == v { delete(s.viewMap, uri) }`. -/
def forgetView (s : Session) (uri : DocumentURI) (v : View) : Session :=
  match s.viewMap with
  | none => s
  | some m =>
    if m uri = some (some v) then
      { s with viewMap := some (fun u => if u = uri then none else m u) }
    else s

/-- The fall-back of `SnapshotOf` over `s.Views()`. -/
def SnapshotOf.fallback (env : SnapshotEnv) (s : Session) (uri : DocumentURI) :
    Outcome (Session × Except SnapshotError View) :=
  match firstLoadedView env s uri s.views with
  | .panic => .panic
  | .ok (some (.error err)) => .ok (s, .error err)
  | .ok (some (.ok v)) => .ok (s, .ok v)
  | .ok none =>
    match firstValidView s s.views with
    | .panic => .panic
    | .ok (some v) => .ok (s, .ok v)
    | .ok none => .ok (s, .error .errNoViews)

/-- The method `Session.SnapshotOf`: the session it leaves behind and the view
whose current snapshot it returns, or the error it returns. -/
def SnapshotOf (env : SnapshotEnv) (s : Session) (uri : DocumentURI) :
    Outcome (Session × Except SnapshotError View) :=
  match viewOfLocked env.toSessionEnv s uri with
  | .panic => .panic
  | .ok (s₁, .error err) => .ok (s₁, .error (.other err))
  | .ok (s₁, .ok none) => SnapshotOf.fallback env s₁ uri
  | .ok (s₁, .ok (some v)) =>
    if s₁.isShutDown v then SnapshotOf.fallback env (forgetView s₁ uri v) uri
    else .ok (s₁, .ok v)

/-! ## Example data -/

/-- An example environment: a toy digest, Go files of kind 1, and a disk on
which no file can be read. -/
def exampleOverlayEnv : OverlayEnv where
  HashOf := fun b => b.foldl (fun h x => 31 * h + x.toNat) 7
  KindForLang := fun l => if l = "go" then 1 else 0
  delegate := fun _ => { readErr := true, identityHash := 0 }

/-- An example overlay map: `file:///w/a.go` opened at version 1 and then
changed at version 2. -/
def exampleOverlays : Overlays :=
  (updateOverlays exampleOverlayEnv Overlays.empty
    [{ URI := "file:///w/a.go", Action := .Open, OnDisk := false, Version := 1,
       Text := some [112, 49], LanguageID := "go" },
     { URI := "file:///w/a.go", Action := .Change, OnDisk := false, Version := 2,
       Text := some [112, 50], LanguageID := "" }]).1

/-- An example change of `file:///w/a.go` with the given action, flag, version and text. -/
def exampleChange (action : file.Action) (onDisk : Bool) (version : Int)
    (text : Option (List UInt8)) : file.Modification :=
  { URI := "file:///w/a.go", Action := action, OnDisk := onDisk, Version := version,
    Text := text, LanguageID := "go" }

/-- An example file system: `file:///w/a/x.go` lies in `file:///w/a` and
`file:///w/b/y.go` in `file:///w/b`, a directory encloses the URIs it is a
prefix of, and only `file:///w/a` has a go.mod file, `file:///w/a/go.mod`. -/
def exampleViewEnv : ViewEnv where
  Dir := fun u =>
    if u = "file:///w/a/x.go" then "file:///w/a"
    else if u = "file:///w/b/y.go" then "file:///w/b"
    else u
  Encloses := fun parent child => parent.data.isPrefixOf child.data
  findRootPattern := fun dir _ =>
    if dir = "file:///w/a" then .ok "file:///w/a/go.mod" else .ok ""

/-- The example file system seen through a cancelled context: every lookup fails. -/
def exampleCanceledEnv : ViewEnv :=
  { exampleViewEnv with findRootPattern := fun _ _ => .error "context canceled" }

/-- An example go.mod view of the module in `file:///w/a`. -/
def exampleGoModView : viewDefinition :=
  { typ := .GoModView, root := "file:///w/a", gomod := "file:///w/a/go.mod", gowork := "",
    workspaceModFiles := ["file:///w/a/go.mod"] }

/-- An example GOPATH view rooted at the given directory. -/
def exampleGOPATHView (root : DocumentURI) : viewDefinition :=
  { typ := .GOPATHView, root := root, gomod := "", gowork := "", workspaceModFiles := [] }

/-- An example ad hoc view of the directory `file:///w/a`. -/
def exampleAdHocView : viewDefinition :=
  { typ := .AdHocView, root := "file:///w/a", gomod := "", gowork := "",
    workspaceModFiles := [] }

/-- The example workspace folder with the given directory. -/
def exampleFolder (dir : DocumentURI) : Folder := { Dir := dir, Name := "" }

/-- A go.mod view of the module in the given directory. -/
def exampleModuleView (dir : DocumentURI) : viewDefinition :=
  { typ := .GoModView, root := dir, gomod := dir ++ "/go.mod", gowork := "",
    workspaceModFiles := [dir ++ "/go.mod"] }

/-- An ad hoc view of the given directory. -/
def exampleDirView (dir : DocumentURI) : viewDefinition :=
  { typ := .AdHocView, root := dir, gomod := "", gowork := "", workspaceModFiles := [] }

/-- An example workspace for `selectViews`: the folders `file:///a` and
`file:///b` each hold a go.mod file and the folder `file:///c` holds none;
`file:///a/sub/x` lies in `file:///a/sub`, whose nearest go.mod file is
`file:///a/go.mod`, `file:///c/d/y` lies in `file:///c/d` and `file:///c/y` in
`file:///c`; a folder without
go.mod file, and a file without enclosing go.mod file, get an ad hoc view of
their directory; two definitions are equal when all their fields are. -/
def exampleSelectEnv : SelectEnv where
  Dir := fun u =>
    if u = "file:///a/sub/x" then "file:///a/sub"
    else if u = "file:///c/d/y" then "file:///c/d"
    else if u = "file:///c/y" then "file:///c"
    else u
  Encloses := fun parent child => parent.data.isPrefixOf child.data
  findRootPattern := fun dir _ =>
    if dir = "file:///a/sub" then .ok "file:///a/go.mod" else .ok ""
  defineView := fun folder forURI =>
    if forURI = "file:///c/d/y" then .ok (exampleDirView "file:///c/d")
    else if folder.Dir = "file:///c" then .ok (exampleDirView "file:///c")
    else .ok (exampleModuleView folder.Dir)
  viewDefinitionsEqual := fun x y => decide (x = y)

/-- An example environment for the session: the workspace of `exampleSelectEnv`
on the disk of `exampleOverlayEnv`; `file:///a/go.mod` is a go.mod file and
`file:///a/go.work` a go.work file; the directories `file:///a`, `file:///b`
and `file:///c` exist, and `file:///a-link` is another name of `file:///a`;
reading a file gives its overlay when it has one and the file on disk
otherwise; no view asks for a diagnosis. -/
def exampleSessionEnv : SessionEnv :=
  { exampleSelectEnv, exampleOverlayEnv with
    isGoWork := fun u => decide (u = "file:///a/go.work")
    isGoMod := fun u => decide (u = "file:///a/go.mod")
    Stat := fun dir =>
      if dir = "file:///a" then some 1
      else if dir = "file:///a-link" then some 1
      else if dir = "file:///b" then some 2
      else if dir = "file:///c" then some 3
      else none
    SameFile := fun x y => decide (x = y)
    ReadFile := fun overlays u =>
      match overlays u with
      | some o => { readErr := false, identityHash := o.hash }
      | none => exampleOverlayEnv.delegate u
    needsDiagnosis := fun _ _ => false }

/-- An example view: the view of the folder `file:///a` made before the folder
had a go.mod file. -/
def exampleViewA : View :=
  { id := 1, folder := exampleFolder "file:///a", viewDefinition := exampleDirView "file:///a" }

/-- An example view: the ad hoc view of the folder `file:///c`. -/
def exampleViewC : View :=
  { id := 2, folder := exampleFolder "file:///c", viewDefinition := exampleDirView "file:///c" }

/-- An example session with the views `exampleViewA` and `exampleViewC`, no
overlay and an empty view map. -/
def exampleSession : Session :=
  { views := [some exampleViewA, some exampleViewC], viewMap := emptyViewMap,
    overlays := Overlays.empty, viewIndex := 2, shutdowns := [], invalidations := [] }

/-- An example change of the given URI that carries no text. -/
def exampleChangeOf (uri : DocumentURI) (action : file.Action) (onDisk : Bool) :
    file.Modification :=
  { URI := uri, Action := action, OnDisk := onDisk, Version := 0, Text := none,
    LanguageID := "" }

/-- An example environment for `SnapshotOf`: the context is not cancelled, no
file is the builtin file, and the view `exampleViewC` has loaded the standalone
command-line-arguments package of `file:///x/main.go`. -/
def exampleSnapshotEnv : SnapshotEnv :=
  { exampleSessionEnv with
    ctxErr := none
    IsBuiltin := fun _ _ => false
    packageIDs := fun v uri =>
      if v = exampleViewC ∧ uri = "file:///x/main.go" then ["command-line-arguments"] else []
    IsCommandLineArguments := fun id => decide (id = "command-line-arguments")
    Standalone := fun _ _ => true }

/-- The example session without views. -/
def exampleEmptySession : Session :=
  { views := [], viewMap := emptyViewMap, overlays := Overlays.empty, viewIndex := 0,
    shutdowns := [], invalidations := [] }

/-- An example go.work view of the workspace `file:///w`, which two folders of
the workspace can both be given. -/
def exampleWorkView : viewDefinition :=
  { typ := .GoWorkView, root := "file:///w", gomod := "", gowork := "file:///w/go.work",
    workspaceModFiles := ["file:///w/a/go.mod", "file:///w/b/go.mod"] }

end cache

/-! ## The Go string functions used by the code actions -/

namespace strings

/-- The function `strings.HasPrefix`. -/
def HasPrefix (s pre : String) : Bool := pre.data.isPrefixOf s.data

/-- The function `strings.TrimPrefix`: `s` without the leading `pre`, or `s`
itself when it does not start with `pre`. -/
def TrimPrefix (s pre : String) : String :=
  if HasPrefix s pre = true then ⟨s.data.drop pre.data.length⟩ else s

/-- The search of `strings.Index` in the rest `l` of the string, which starts
at position `i`: the position of the first instance of `substr`, or `-1`. -/
def indexFrom (substr : List Char) : List Char → Nat → Int
  | [], i => if substr.isPrefixOf [] = true then (i : Int) else -1
  | c :: cs, i =>
    if substr.isPrefixOf (c :: cs) = true then (i : Int) else indexFrom substr cs (i + 1)

/-- The function `strings.Index`: the position of the first instance of
`substr` in `s`, or `-1` if `substr` is not present in `s`. -/
def Index (s substr : String) : Int := indexFrom substr.data s.data 0

/-- The function `strings.Contains`. -/
def Contains (s substr : String) : Bool := decide (0 ≤ Index s substr)

end strings

/-! ## Method stubs for missing methods (stubcalledfunc.go) -/

namespace stubmethods

/-- The value of `si.info.TypeOf(arg)` as the type switch of `collectParams`
sees it: a tuple of types, or any other type, possibly `nil`. -/
inductive ArgType (Typ : Type) where
  | tuple (ts : List Typ)
  | other (t : Option Typ)

/-- The collaborators of `collectParams`: the type checker and `paramName`. -/
structure ParamEnv (Expr Typ : Type) where
  /-- The call `si.info.TypeOf(arg)`. -/
  TypeOf : Expr → ArgType Typ
  /-- The function `containsInvalid`. -/
  containsInvalid : Typ → Bool
  /-- The function `types.Default`. -/
  Default : Typ → Typ
  /-- The function `paramName`. -/
  paramName : Expr → Typ → String
  /-- The variable `anyType`. -/
  anyType : Typ

/-- The struct `param`. -/
structure param (Typ : Type) where
  name : String
  typ : Typ

/-- The closure `appendParam` of `collectParams`. -/
def appendParam {Expr Typ : Type} (env : ParamEnv Expr Typ) (params : List (param Typ))
    (e : Expr) (t : Option Typ) : List (param Typ) :=
  match t with
  | some t =>
    if env.containsInvalid t = false then
      params ++ [{ name := env.paramName e (env.Default t), typ := env.Default t }]
    else params ++ [{ name := "param", typ := env.anyType }]
  | none => params ++ [{ name := "param", typ := env.anyType }]

/-- The method `CallStubInfo.collectParams` on the arguments of the call. -/
def collectParams {Expr Typ : Type} (env : ParamEnv Expr Typ) (args : List Expr) :
    List (param Typ) :=
  args.foldl
    (fun params arg =>
      match env.TypeOf arg with
      | .tuple ts => ts.foldl (fun ps t => appendParam env ps arg (some t)) params
      | .other t => appendParam env params arg t)
    []

/-- The loop of `CallStubInfo.Emit` under "Emit parameters, avoiding name
conflicts": the names written for the parameters from index `i` on, where
`seen` is the map of the names used so far. -/
def emitParams {Typ : Type} (seen : String → Bool) (i : Nat) :
    List (param Typ) → List String
  | [] => []
  | p :: params =>
    let name := if seen p.name = true then "param" ++ toString (i + 1) else p.name
    name :: emitParams (fun n => if n = name then true else seen n) (i + 1) params

/-- The parameter names that `CallStubInfo.Emit` writes into the signature of
the method, for the receiver name `recvName` that it has chosen. -/
def Emit.paramNames {Expr Typ : Type} (env : ParamEnv Expr Typ) (recvName : String)
    (args : List Expr) : List String :=
  emitParams (fun n => decide (n = recvName)) 0 (collectParams env args)

/-- The loop of `lastSection` over the runes of the identifier from position
`i` on: the position of the last rune for which `unicode.IsUpper` holds, or
the value `last` found before. Positions count runes. -/
def lastUpperIndex (IsUpper : Char → Bool) : List Char → Nat → Int → Int
  | [], _, last => last
  | r :: rest, i, last => lastUpperIndex IsUpper rest (i + 1) (if IsUpper r = true then i else last)

/-- The function `lastSection`, over `unicode.IsUpper` and `strings.ToLower`. -/
def lastSection (IsUpper : Char → Bool) (ToLower : String → String) (identName : String) :
    String :=
  let idx := lastUpperIndex IsUpper identName.data 0 (-1)
  if idx ≠ -1 then ToLower ⟨identName.data.drop idx.toNat⟩ else identName

/-- An example of `strings.ToLower` on ASCII text. -/
def exampleToLower (s : String) : String := ⟨s.data.map Char.toLower⟩

/-- An example type checker for calls whose arguments are identifiers of type
`int`: the name of a parameter is the name of the identifier. -/
def exampleParamEnv : ParamEnv String Unit where
  TypeOf := fun _ => .other (some ())
  containsInvalid := fun _ => false
  Default := fun t => t
  paramName := fun e _ => e
  anyType := ()

end stubmethods

/-! ## Code actions (codeaction.go) -/

namespace golang

/-- The code action kinds of the table `codeActionProducers`. -/
inductive CodeActionKind where
  | QuickFix | SourceOrganizeImports | GoAssembly | GoDoc | GoFreeSymbols | GoTest
  | GoplsDocFeatures | RefactorExtractFunction | RefactorExtractMethod
  | RefactorExtractToNewFile | RefactorExtractVariable | RefactorInlineCall
  | RefactorRewriteChangeQuote | RefactorRewriteFillStruct | RefactorRewriteFillSwitch
  | RefactorRewriteInvertIf | RefactorRewriteJoinLines | RefactorRewriteRemoveUnusedParam
  | RefactorRewriteSplitLines
  deriving DecidableEq, Repr

/-- The producer functions of the table `codeActionProducers`. -/
inductive ProducerFn where
  | quickFix | sourceOrganizeImports | goAssembly | goDoc | goFreeSymbols | goTest
  | goplsDocFeatures | refactorExtractFunction | refactorExtractMethod
  | refactorExtractToNewFile | refactorExtractVariable | refactorInlineCall
  | refactorRewriteChangeQuote | refactorRewriteFillStruct | refactorRewriteFillSwitch
  | refactorRewriteInvertIf | refactorRewriteJoinLines | refactorRewriteRemoveUnusedParam
  | refactorRewriteSplitLines
  deriving DecidableEq, Repr

/-- The struct `codeActionProducer`; `needPkg` is `false` where the table
does not set it. -/
structure codeActionProducer where
  kind : CodeActionKind
  fn : ProducerFn
  needPkg : Bool
  deriving DecidableEq, Repr

/-- The table `codeActionProducers`. -/
def codeActionProducers : List codeActionProducer :=
  [ { kind := .QuickFix, fn := .quickFix, needPkg := false },
    { kind := .SourceOrganizeImports, fn := .sourceOrganizeImports, needPkg := false },
    { kind := .GoAssembly, fn := .goAssembly, needPkg := true },
    { kind := .GoDoc, fn := .goDoc, needPkg := true },
    { kind := .GoFreeSymbols, fn := .goFreeSymbols, needPkg := false },
    { kind := .GoTest, fn := .goTest, needPkg := false },
    { kind := .GoplsDocFeatures, fn := .goplsDocFeatures, needPkg := false },
    { kind := .RefactorExtractFunction, fn := .refactorExtractFunction, needPkg := false },
    { kind := .RefactorExtractMethod, fn := .refactorExtractMethod, needPkg := false },
    { kind := .RefactorExtractToNewFile, fn := .refactorExtractToNewFile, needPkg := false },
    { kind := .RefactorExtractVariable, fn := .refactorExtractVariable, needPkg := false },
    { kind := .RefactorInlineCall, fn := .refactorInlineCall, needPkg := true },
    { kind := .RefactorRewriteChangeQuote, fn := .refactorRewriteChangeQuote, needPkg := false },
    { kind := .RefactorRewriteFillStruct, fn := .refactorRewriteFillStruct, needPkg := true },
    { kind := .RefactorRewriteFillSwitch, fn := .refactorRewriteFillSwitch, needPkg := true },
    { kind := .RefactorRewriteInvertIf, fn := .refactorRewriteInvertIf, needPkg := false },
    { kind := .RefactorRewriteJoinLines, fn := .refactorRewriteJoinLines, needPkg := true },
    { kind := .RefactorRewriteRemoveUnusedParam, fn := .refactorRewriteRemoveUnusedParam,
      needPkg := true },
    { kind := .RefactorRewriteSplitLines, fn := .refactorRewriteSplitLines, needPkg := true } ]

/-- Whether the body of the producer function evaluates `req.pkg`: `goDoc`,
`refactorRewriteRemoveUnusedParam`, `refactorRewriteSplitLines`,
`refactorRewriteJoinLines`, `refactorRewriteFillStruct`,
`refactorRewriteFillSwitch`, `refactorInlineCall`, `goTest` and `goAssembly` do. -/
def readsPkg : ProducerFn → Bool
  | .goDoc | .refactorRewriteRemoveUnusedParam | .refactorRewriteSplitLines
  | .refactorRewriteJoinLines | .refactorRewriteFillStruct | .refactorRewriteFillSwitch
  | .refactorInlineCall | .goTest | .goAssembly => true
  | _ => false

/-- The collaborators of `CodeActions`. -/
structure CodeActionsEnv (Package : Type) where
  /-- The error of `snapshot.ParseGo` or of the first `pgf.RangePos`, if any. -/
  parseErr : Option String
  /-- The package of `NarrowestPackageForFile`, or the error of that call or
  of the second `pgf.RangePos`. -/
  NarrowestPackageForFile : Except String Package
  /-- The error that a producer function returns for a request with the given
  `kind` and `pkg`, if any. -/
  produce : ProducerFn → CodeActionKind → Option Package → Option String

/-- A call `p.fn(ctx, req)`: the function with the fields `kind` and `pkg` of `req`. -/
structure Call (Package : Type) where
  fn : ProducerFn
  kind : CodeActionKind
  pkg : Option Package
  deriving DecidableEq, Repr

/-- The first loop of `CodeActions`: the array `enabledMemo` and the flag `needTypes`. -/
def scanProducers (enabled : CodeActionKind → Bool) :
    List codeActionProducer → List Bool × Bool
  | [] => ([], false)
  | p :: ps =>
    let (memo, needTypes) := scanProducers enabled ps
    if enabled p.kind = true then (true :: memo, p.needPkg || needTypes)
    else (false :: memo, needTypes)

/-- The second loop of `CodeActions`: the calls of the producer functions, up to
the first that returns an error. -/
def runProducers {Package : Type} (env : CodeActionsEnv Package) (pkg : Option Package) :
    List codeActionProducer → List Bool → List (Call Package) × Option String
  | p :: ps, memo :: memos =>
    if memo = false then runProducers env pkg ps memos
    else
      let reqPkg := if p.needPkg = true then pkg else none
      let call : Call Package := { fn := p.fn, kind := p.kind, pkg := reqPkg }
      match env.produce p.fn p.kind reqPkg with
      | some err => ([call], some err)
      | none =>
        let (calls, err) := runProducers env pkg ps memos
        (call :: calls, err)
  | _, _ => ([], none)

/-- The function `CodeActions`: the calls of producer functions that it makes
and the error that it returns, if any. -/
def CodeActions {Package : Type} (env : CodeActionsEnv Package)
    (enabled : CodeActionKind → Bool) : List (Call Package) × Option String :=
  match env.parseErr with
  | some err => ([], some err)
  | none =>
    let (enabledMemo, needTypes) := scanProducers enabled codeActionProducers
    if needTypes = true then
      match env.NarrowestPackageForFile with
      | .error err => ([], some err)
      | .ok pkg => runProducers env (some pkg) codeActionProducers enabledMemo
    else runProducers env none codeActionProducers enabledMemo

/-- The fields of `protocol.Diagnostic` that the code actions read, and its range. -/
structure Diagnostic where
  Range : Nat × Nat
  Message : String
  deriving DecidableEq, Repr

/-- The fields of `imports.ImportFix` that `fixedByImportFix` reads;
`ImportPath` is `fix.StmtInfo.ImportPath`. -/
structure ImportFix where
  IdentName : String
  ImportPath : String
  deriving DecidableEq, Repr

/-- The call `fmt.Sprintf("%q", path)`: the text of `path` with its escapes,
which `escape` gives, between double quotes. -/
def quoted (escape : String → String) (path : String) : String :=
  "\"" ++ escape path ++ "\""

/-- The `switch` of `fixedByImportFix`: whether the diagnostic is appended to
`results`. -/
def fixedBy (escape : String → String) (fix : ImportFix) (diagnostic : Diagnostic) : Bool :=
  if strings.HasPrefix diagnostic.Message "undeclared name: " = true then
    decide (strings.TrimPrefix diagnostic.Message "undeclared name: " = fix.IdentName)
  else if strings.HasPrefix diagnostic.Message "undefined: " = true then
    decide (strings.TrimPrefix diagnostic.Message "undefined: " = fix.IdentName)
  else if strings.HasPrefix diagnostic.Message "could not import: " = true then
    decide (strings.TrimPrefix diagnostic.Message "could not import: " = fix.IdentName)
  else if strings.Contains diagnostic.Message " imported but not used" = true then
    let idx := strings.Index diagnostic.Message " imported but not used"
    let importPath : String := ⟨diagnostic.Message.data.take idx.toNat⟩
    decide (importPath = quoted escape fix.ImportPath)
  else false

/-- The function `fixedByImportFix`. -/
def fixedByImportFix (escape : String → String) (fix : ImportFix)
    (diagnostics : List Diagnostic) : List Diagnostic :=
  diagnostics.foldl
    (fun results diagnostic =>
      if fixedBy escape fix diagnostic = true then results ++ [diagnostic] else results)
    []

/-- The text `sub` occurs in `msg` and `pre` is the text before its first occurrence. -/
def TextBeforeFirst (msg pre sub : String) : Prop :=
  (∃ post : List Char, msg.data = pre.data ++ sub.data ++ post) ∧
  ∀ pre' post' : List Char, msg.data = pre' ++ sub.data ++ post' →
    pre.data.length ≤ pre'.length

/-- The diagnostics that an import fix fixes, in the words of the
specification: the message is "undeclared name: X", "undefined: X" or
"could not import: X" with X the identifier of the fix, or the quoted import
path of the fix is the text before the first " imported but not used". -/
def FixedByImport (escape : String → String) (fix : ImportFix) (msg : String) : Prop :=
  msg = "undeclared name: " ++ fix.IdentName ∨
  msg = "undefined: " ++ fix.IdentName ∨
  msg = "could not import: " ++ fix.IdentName ∨
  TextBeforeFirst msg (quoted escape fix.ImportPath) " imported but not used"

/-- An example environment: the file parses, its package is package 7 and no
producer function returns an error. -/
def exampleCodeActionsEnv : CodeActionsEnv Nat where
  parseErr := none
  NarrowestPackageForFile := .ok 7
  produce := fun _ _ _ => none

end golang

namespace cache

open protocol

/-! ## The overlay map -/

@[simp] theorem Overlays.set_self (m : Overlays) (uri : DocumentURI) (o : Overlay) :
    m.set uri o uri = some o := by
  simp [Overlays.set]

theorem Overlays.set_other (m : Overlays) (uri u : DocumentURI) (o : Overlay) (h : u ≠ uri) :
    m.set uri o u = m u := by
  simp [Overlays.set, h]

@[simp] theorem Overlays.delete_self (m : Overlays) (uri : DocumentURI) :
    m.delete uri uri = none := by
  simp [Overlays.delete]

theorem Overlays.delete_other (m : Overlays) (uri u : DocumentURI) (h : u ≠ uri) :
    m.delete uri u = m u := by
  simp [Overlays.delete, h]

/-- No iteration dereferences the `nil` overlay, and the "no known content"
return is never taken: both are guarded by the earlier checks of the loop body. -/
theorem updateOverlay_error_kinds (env : OverlayEnv) (overlays : Overlays)
    (c : file.Modification) (e : UpdateError) (h : updateOverlay env overlays c = .error e) :
    e = .modifyingUnopened c.URI ∨ e = .changedOnSave c.URI := by
  cases ho : overlays c.URI <;> cases hA : c.Action <;> cases hD : c.OnDisk <;>
    cases hT : c.Text <;>
    simp [updateOverlay, overlayKind, overlayText, overlayVersion, overlaySaved,
      ho, hA, hD, hT] at h <;>
    first
    | (left; exact h.symm)
    | (split_ifs at h; simp at h; right; exact h.symm)

/-- C1: a Save without text on an existing overlay succeeds and keeps the stored
content and the stored version, whatever version the Save declares. -/
theorem updateOverlays_save_without_text (env : OverlayEnv) (overlays : Overlays)
    (c : file.Modification) (o : Overlay) (ho : overlays c.URI = some o)
    (hA : c.Action = .Save) (hT : c.Text = none) :
    (updateOverlays env overlays [c]).2 = none ∧
    ∃ o', (updateOverlays env overlays [c]).1 c.URI = some o' ∧
      o'.content = o.content ∧ o'.version = o.version := by
  simp [updateOverlays, updateOverlay, overlayKind, overlayText, overlayVersion, overlaySaved,
    ho, hA, hT]

theorem updateOverlays_save_without_text_witness :
    exampleOverlays "file:///w/a.go" =
      some { uri := "file:///w/a.go", version := 2, content := some [112, 50], kind := 1,
             hash := exampleOverlayEnv.HashOf [112, 50], saved := false } ∧
    (updateOverlays exampleOverlayEnv exampleOverlays [exampleChange .Save false 1 none]).2 = none ∧
    ∃ o', (updateOverlays exampleOverlayEnv exampleOverlays
        [exampleChange .Save false 1 none]).1 "file:///w/a.go" = some o' ∧
      o'.content = some [112, 50] ∧ o'.version = 2 :=
  ⟨by decide,
   updateOverlays_save_without_text exampleOverlayEnv exampleOverlays
    (exampleChange .Save false 1 none)
    { uri := "file:///w/a.go", version := 2, content := some [112, 50], kind := 1,
      hash := exampleOverlayEnv.HashOf [112, 50], saved := false } (by decide) rfl rfl⟩

/-- C2: a Save that declares content whose hash differs from the stored overlay's
hash makes `updateOverlays` return an error, and the overlay map is left as it was. -/
theorem updateOverlays_save_hash_mismatch (env : OverlayEnv) (overlays : Overlays)
    (c : file.Modification) (cs : List file.Modification) (o : Overlay) (t : List UInt8)
    (ho : overlays c.URI = some o) (hA : c.Action = .Save) (hT : c.Text = some t)
    (hH : env.HashOf t ≠ o.hash) :
    updateOverlays env overlays (c :: cs) = (overlays, some (.changedOnSave c.URI)) := by
  have hH' : o.hash ≠ env.HashOf t := fun h => hH h.symm
  simp [updateOverlays, updateOverlay, overlayKind, overlayText, overlayVersion, overlaySaved,
    ho, hA, hT, hH']

theorem updateOverlays_save_hash_mismatch_witness :
    exampleOverlays (exampleChange .Save false 2 (some [112, 49])).URI =
      some { uri := "file:///w/a.go", version := 2, content := some [112, 50], kind := 1,
             hash := exampleOverlayEnv.HashOf [112, 50], saved := false } ∧
    exampleOverlayEnv.HashOf [112, 49] ≠ exampleOverlayEnv.HashOf [112, 50] ∧
    updateOverlays exampleOverlayEnv exampleOverlays
        [exampleChange .Save false 2 (some [112, 49])]
      = (exampleOverlays, some (.changedOnSave "file:///w/a.go")) :=
  ⟨by decide, by decide,
   updateOverlays_save_hash_mismatch exampleOverlayEnv exampleOverlays
    (exampleChange .Save false 2 (some [112, 49])) []
    { uri := "file:///w/a.go", version := 2, content := some [112, 50], kind := 1,
      hash := exampleOverlayEnv.HashOf [112, 50], saved := false } [112, 49]
    (by decide) rfl rfl (by decide)⟩

/-- C3 fails for on-disk changes: a Change flagged on-disk for a URI without an
overlay is skipped and `updateOverlays` returns no error. -/
theorem updateOverlays_unopened_on_disk_no_error :
    Overlays.empty (exampleChange .Change true 0 none).URI = none ∧
    (exampleChange .Change true 0 none).Action ≠ .Open ∧
    (updateOverlays exampleOverlayEnv Overlays.empty [exampleChange .Change true 0 none]).2
      = none := by
  decide

/-- C3 (amended): for a URI without an overlay and an action other than Open, a
change that is not flagged on-disk makes `updateOverlays` return the error
"modifying unopened overlay" and leaves the map as it was, and a change that is
flagged on-disk is skipped without an error. -/
theorem updateOverlays_unopened (env : OverlayEnv) (overlays : Overlays)
    (c : file.Modification) (cs : List file.Modification)
    (ho : overlays c.URI = none) (hA : c.Action ≠ .Open) :
    (c.OnDisk = false →
      updateOverlays env overlays (c :: cs) = (overlays, some (.modifyingUnopened c.URI))) ∧
    (c.OnDisk = true →
      updateOverlays env overlays (c :: cs) = updateOverlays env overlays cs) := by
  constructor
  · intro hD
    cases hAct : c.Action <;>
      simp_all [updateOverlays, updateOverlay, overlayKind]
  · intro hD
    simp [updateOverlays, updateOverlay, ho, hD]

theorem updateOverlays_unopened_witness :
    Overlays.empty (exampleChange .Save false 3 none).URI = none ∧
    (exampleChange .Save false 3 none).Action ≠ .Open ∧
    ((exampleChange .Save false 3 none).OnDisk = false →
      updateOverlays exampleOverlayEnv Overlays.empty [exampleChange .Save false 3 none]
        = (Overlays.empty, some (.modifyingUnopened "file:///w/a.go"))) ∧
    ((exampleChange .Save false 3 none).OnDisk = true →
      updateOverlays exampleOverlayEnv Overlays.empty [exampleChange .Save false 3 none]
        = updateOverlays exampleOverlayEnv Overlays.empty []) :=
  ⟨rfl, by decide,
   updateOverlays_unopened exampleOverlayEnv Overlays.empty (exampleChange .Save false 3 none) []
    rfl (by decide)⟩

/-- C4: a Close of a URI that has an overlay succeeds, removes that overlay and
leaves the overlay of every other URI as it was. -/
theorem updateOverlays_close (env : OverlayEnv) (overlays : Overlays)
    (c : file.Modification) (o : Overlay) (ho : overlays c.URI = some o)
    (hA : c.Action = .Close) :
    (updateOverlays env overlays [c]).2 = none ∧
    (updateOverlays env overlays [c]).1 c.URI = none ∧
    ∀ u, u ≠ c.URI → (updateOverlays env overlays [c]).1 u = overlays u := by
  simp [updateOverlays, updateOverlay, overlayKind, ho, hA]
  intro u hu
  exact Overlays.delete_other overlays c.URI u hu

theorem updateOverlays_close_witness :
    exampleOverlays (exampleChange .Close false 0 none).URI =
      some { uri := "file:///w/a.go", version := 2, content := some [112, 50], kind := 1,
             hash := exampleOverlayEnv.HashOf [112, 50], saved := false } ∧
    (updateOverlays exampleOverlayEnv exampleOverlays [exampleChange .Close false 0 none]).2
      = none ∧
    (updateOverlays exampleOverlayEnv exampleOverlays [exampleChange .Close false 0 none]).1
      "file:///w/a.go" = none ∧
    ∀ u, u ≠ "file:///w/a.go" →
      (updateOverlays exampleOverlayEnv exampleOverlays [exampleChange .Close false 0 none]).1 u
        = exampleOverlays u :=
  ⟨by decide,
   updateOverlays_close exampleOverlayEnv exampleOverlays (exampleChange .Close false 0 none)
    { uri := "file:///w/a.go", version := 2, content := some [112, 50], kind := 1,
      hash := exampleOverlayEnv.HashOf [112, 50], saved := false } (by decide) rfl⟩

/-- C5: an Open or Change that is not on-disk and carries text `t` succeeds exactly
when it is an Open or the URI has an overlay; when it succeeds the URI has an
overlay with content `t`, the declared version and hash `HashOf t`, whose kind is
`KindForLang` of the language for an Open and the previous overlay's kind for a
Change. -/
theorem updateOverlays_open_or_change_text (env : OverlayEnv) (overlays : Overlays)
    (c : file.Modification) (t : List UInt8)
    (hA : c.Action = .Open ∨ c.Action = .Change) (hD : c.OnDisk = false)
    (hT : c.Text = some t) :
    ((updateOverlays env overlays [c]).2 = none ↔
      (c.Action = .Open ∨ overlays c.URI ≠ none)) ∧
    ((updateOverlays env overlays [c]).2 = none →
      ∃ o', (updateOverlays env overlays [c]).1 c.URI = some o' ∧
        o'.content = some t ∧ o'.version = c.Version ∧ o'.hash = env.HashOf t ∧
        (c.Action = .Open → o'.kind = env.KindForLang c.LanguageID) ∧
        (c.Action = .Change → ∃ o, overlays c.URI = some o ∧ o'.kind = o.kind)) := by
  rcases hA with hA | hA
  · simp [updateOverlays, updateOverlay, overlayKind, overlayText, overlayVersion,
      overlaySaved, hA, hD, hT]
  · cases ho : overlays c.URI <;>
      simp [updateOverlays, updateOverlay, overlayKind, overlayText, overlayVersion,
        overlaySaved, hA, hD, hT, ho]

theorem updateOverlays_open_or_change_text_witness :
    ((exampleChange .Change false 3 (some [112, 51])).Action = .Open ∨
      (exampleChange .Change false 3 (some [112, 51])).Action = .Change) ∧
    ((updateOverlays exampleOverlayEnv exampleOverlays
        [exampleChange .Change false 3 (some [112, 51])]).2 = none ↔
      ((exampleChange .Change false 3 (some [112, 51])).Action = .Open ∨
        exampleOverlays "file:///w/a.go" ≠ none)) ∧
    ((updateOverlays exampleOverlayEnv exampleOverlays
        [exampleChange .Change false 3 (some [112, 51])]).2 = none →
      ∃ o', (updateOverlays exampleOverlayEnv exampleOverlays
          [exampleChange .Change false 3 (some [112, 51])]).1 "file:///w/a.go" = some o' ∧
        o'.content = some [112, 51] ∧ o'.version = 3 ∧
        o'.hash = exampleOverlayEnv.HashOf [112, 51] ∧
        ((exampleChange .Change false 3 (some [112, 51])).Action = .Open →
          o'.kind = exampleOverlayEnv.KindForLang "go") ∧
        ((exampleChange .Change false 3 (some [112, 51])).Action = .Change →
          ∃ o, exampleOverlays "file:///w/a.go" = some o ∧ o'.kind = o.kind)) :=
  ⟨Or.inr rfl,
   updateOverlays_open_or_change_text exampleOverlayEnv exampleOverlays
    (exampleChange .Change false 3 (some [112, 51])) [112, 51] (Or.inr rfl) rfl rfl⟩

/-- C6 fails for a Save: the saved flag is set without reading the disk. Saving
`file:///w/a.go` while the file on disk cannot be read leaves an overlay whose
saved flag is true. -/
theorem updateOverlays_save_sets_saved_unreadable :
    (exampleOverlayEnv.delegate "file:///w/a.go").readErr = true ∧
    (updateOverlays exampleOverlayEnv exampleOverlays [exampleChange .Save false 2 none]).2
      = none ∧
    (updateOverlays exampleOverlayEnv exampleOverlays [exampleChange .Save false 2 none]).1
      "file:///w/a.go" =
      some { uri := "file:///w/a.go", version := 2, content := some [112, 50], kind := 1,
             hash := exampleOverlayEnv.HashOf [112, 50], saved := true } := by
  decide

/-- C6 (amended): after a successful step that leaves an overlay for the URI, the
saved flag is false for a Delete, true for a Save, and for every other action
true exactly when the file on disk is readable and its hash equals the overlay's. -/
theorem updateOverlays_saved_flag (env : OverlayEnv) (overlays : Overlays)
    (c : file.Modification) (o' : Overlay)
    (hOk : (updateOverlays env overlays [c]).2 = none)
    (hO : (updateOverlays env overlays [c]).1 c.URI = some o') :
    (c.Action = .Delete → o'.saved = false) ∧
    (c.Action = .Save → o'.saved = true) ∧
    (c.Action ≠ .Delete → c.Action ≠ .Save →
      (o'.saved = true ↔
        (env.delegate c.URI).readErr = false ∧ (env.delegate c.URI).identityHash = o'.hash)) := by
  cases ho : overlays c.URI <;> cases hA : c.Action <;> cases hD : c.OnDisk <;>
    cases hT : c.Text <;>
    simp [updateOverlays, updateOverlay, overlayKind, overlayText, overlayVersion,
      overlaySaved, ho, hA, hD, hT] at hOk hO ⊢ <;>
    first
    | (subst hO; simp)
    | (split_ifs at hOk hO; simp at hOk hO; subst hO; simp)

theorem updateOverlays_saved_flag_witness :
    (updateOverlays exampleOverlayEnv exampleOverlays
        [exampleChange .Change false 3 (some [112, 51])]).2 = none ∧
    (updateOverlays exampleOverlayEnv exampleOverlays
        [exampleChange .Change false 3 (some [112, 51])]).1 "file:///w/a.go" =
      some { uri := "file:///w/a.go", version := 3, content := some [112, 51], kind := 1,
             hash := exampleOverlayEnv.HashOf [112, 51], saved := false } ∧
    ((exampleChange .Change false 3 (some [112, 51])).Action = .Delete → false = false) ∧
    ((exampleChange .Change false 3 (some [112, 51])).Action = .Save → false = true) ∧
    ((exampleChange .Change false 3 (some [112, 51])).Action ≠ .Delete →
      (exampleChange .Change false 3 (some [112, 51])).Action ≠ .Save →
      (false = true ↔
        (exampleOverlayEnv.delegate "file:///w/a.go").readErr = false ∧
        (exampleOverlayEnv.delegate "file:///w/a.go").identityHash =
          exampleOverlayEnv.HashOf [112, 51])) :=
  ⟨by decide, by decide,
   updateOverlays_saved_flag exampleOverlayEnv exampleOverlays
    (exampleChange .Change false 3 (some [112, 51]))
    { uri := "file:///w/a.go", version := 3, content := some [112, 51], kind := 1,
      hash := exampleOverlayEnv.HashOf [112, 51], saved := false } (by decide) (by decide)⟩

/-! ## View selection -/

theorem LoopInv.result_post {env : ViewEnv} {uri modURI : DocumentURI}
    {seen : List viewDefinition} {b : BestViews} (h : LoopInv env uri modURI seen b) :
    LoopPost env uri modURI seen b.result := by
  obtain ⟨hs, hc, hl⟩ := h
  rcases b with ⟨p, g, a, m⟩
  have hc' : ∀ w ∈ seen, viewMatches env uri modURI w →
      (w.typ = .GoModView ∧ m ≠ none) ∨ (w.typ = .GOPATHView ∧ g ≠ none) ∨
      (w.typ = .GoPackagesDriverView ∧ p ≠ none) ∨ (w.typ = .AdHocView ∧ a ≠ none) := by
    intro w hw hM
    have h := hc w hw hM
    clear hs hl hc hM
    cases hK : w.typ <;> rw [hK] at h <;> simp [BestViews.slot] at h <;> simp [h]
  have hm := hs .GoModView
  have hg := hs .GOPATHView
  have hp := hs .GoPackagesDriverView
  have ha := hs .AdHocView
  have hlg := hl .GOPATHView
  have hlp := hl .GoPackagesDriverView
  simp only [BestViews.slot] at hm hg hp ha hlg hlp
  clear hc hs hl
  cases m with
  | some v =>
    refine ⟨?_, ?_, ?_, ?_⟩
    · intro v' hv'
      simp [BestViews.result] at hv'
      subst hv'
      exact ⟨(hm v rfl).1, (hm v rfl).2.2⟩
    · intro v' hv' w hw hM
      simp [BestViews.result] at hv'
      subst hv'
      rw [(hm v rfl).2.1]
      rcases hc' w hw hM with h | h | h | h <;> simp [h.1, ViewType.rank]
    · intro hr
      simp [BestViews.result] at hr
    · intro v' hv' hK
      simp [BestViews.result] at hv'
      subst hv'
      rw [(hm v rfl).2.1] at hK
      simp at hK
  | none =>
    cases g with
    | some v =>
      refine ⟨?_, ?_, ?_, ?_⟩
      · intro v' hv'
        simp [BestViews.result] at hv'
        subst hv'
        exact ⟨(hg v rfl).1, (hg v rfl).2.2⟩
      · intro v' hv' w hw hM
        simp [BestViews.result] at hv'
        subst hv'
        rw [(hg v rfl).2.1]
        rcases hc' w hw hM with h | h | h | h <;> simp_all [ViewType.rank]
      · intro hr
        simp [BestViews.result] at hr
      · intro v' hv' _ w hw hK hM
        simp [BestViews.result] at hv'
        subst hv'
        rw [(hg v rfl).2.1] at hK
        exact hlg v (Or.inl trivial) rfl w hw hK hM
    | none =>
      cases p with
      | some v =>
        refine ⟨?_, ?_, ?_, ?_⟩
        · intro v' hv'
          simp [BestViews.result] at hv'
          subst hv'
          exact ⟨(hp v rfl).1, (hp v rfl).2.2⟩
        · intro v' hv' w hw hM
          simp [BestViews.result] at hv'
          subst hv'
          rw [(hp v rfl).2.1]
          rcases hc' w hw hM with h | h | h | h <;> simp_all [ViewType.rank]
        · intro hr
          simp [BestViews.result] at hr
        · intro v' hv' _ w hw hK hM
          simp [BestViews.result] at hv'
          subst hv'
          rw [(hp v rfl).2.1] at hK
          exact hlp v (Or.inr trivial) rfl w hw hK hM
      | none =>
        cases a with
        | some v =>
          refine ⟨?_, ?_, ?_, ?_⟩
          · intro v' hv'
            simp [BestViews.result] at hv'
            subst hv'
            exact ⟨(ha v rfl).1, (ha v rfl).2.2⟩
          · intro v' hv' w hw hM
            simp [BestViews.result] at hv'
            subst hv'
            rw [(ha v rfl).2.1]
            rcases hc' w hw hM with h | h | h | h <;> simp_all [ViewType.rank]
          · intro hr
            simp [BestViews.result] at hr
          · intro v' hv' hK
            simp [BestViews.result] at hv'
            subst hv'
            rw [(ha v rfl).2.1] at hK
            simp at hK
        | none =>
          refine ⟨?_, ?_, ?_, ?_⟩
          · intro v' hv'
            simp [BestViews.result] at hv'
          · intro v' hv'
            simp [BestViews.result] at hv'
          · intro _ w hw hM
            rcases hc' w hw hM with h | h | h | h <;> simp_all
          · intro v' hv'
            simp [BestViews.result] at hv'

theorem LoopInv.initial (env : ViewEnv) (uri modURI : DocumentURI) :
    LoopInv env uri modURI []
      { goPackagesView := none, gopathView := none, adHocView := none, modView := none } := by
  refine ⟨?_, ?_, ?_⟩
  · intro K v h
    cases K <;> simp [BestViews.slot] at h
  · intro w hw
    simp at hw
  · intro K g _ h
    cases K <;> simp [BestViews.slot] at h

theorem LoopInv.skip {env : ViewEnv} {uri modURI : DocumentURI}
    {seen : List viewDefinition} {b : BestViews} (h : LoopInv env uri modURI seen b)
    (view : viewDefinition) (hM : ¬ viewMatches env uri modURI view) :
    LoopInv env uri modURI (seen ++ [view]) b := by
  obtain ⟨hs, hc, hl⟩ := h
  refine ⟨?_, ?_, ?_⟩
  · intro K v hv
    obtain ⟨h1, h2, h3⟩ := hs K v hv
    exact ⟨List.mem_append_left _ h1, h2, h3⟩
  · intro w hw hMw
    rcases List.mem_append.1 hw with hw | hw
    · exact hc w hw hMw
    · rw [List.mem_singleton.1 hw] at hMw
      exact absurd hMw hM
  · intro K g hK hg w hw hwK hMw
    rcases List.mem_append.1 hw with hw | hw
    · exact hl K g hK hg w hw hwK hMw
    · rw [List.mem_singleton.1 hw] at hMw
      exact absurd hMw hM

theorem LoopInv.skip_longer {env : ViewEnv} {uri modURI : DocumentURI}
    {seen : List viewDefinition} {b : BestViews} (h : LoopInv env uri modURI seen b)
    (view : viewDefinition) (hlong : longerThan (b.slot view.typ) view) :
    LoopInv env uri modURI (seen ++ [view]) b := by
  obtain ⟨hs, hc, hl⟩ := h
  refine ⟨?_, ?_, ?_⟩
  · intro K v hv
    obtain ⟨h1, h2, h3⟩ := hs K v hv
    exact ⟨List.mem_append_left _ h1, h2, h3⟩
  · intro w hw hMw
    rcases List.mem_append.1 hw with hw | hw
    · exact hc w hw hMw
    · rw [List.mem_singleton.1 hw]
      intro hnone
      rw [hnone] at hlong
      exact hlong
  · intro K g hK hg w hw hwK hMw
    rcases List.mem_append.1 hw with hw | hw
    · exact hl K g hK hg w hw hwK hMw
    · rw [List.mem_singleton.1 hw] at hwK ⊢
      rw [hwK, hg] at hlong
      exact Nat.le_of_lt hlong

theorem LoopInv.update {env : ViewEnv} {uri modURI : DocumentURI}
    {seen : List viewDefinition} {b : BestViews} (h : LoopInv env uri modURI seen b)
    (view : viewDefinition) (b' : BestViews)
    (hM : viewMatches env uri modURI view)
    (hb' : ∀ K, b'.slot K = if K = view.typ then some view else b.slot K)
    (hlong : view.typ = .GOPATHView ∨ view.typ = .GoPackagesDriverView →
      ¬ longerThan (b.slot view.typ) view) :
    LoopInv env uri modURI (seen ++ [view]) b' := by
  obtain ⟨hs, hc, hl⟩ := h
  refine ⟨?_, ?_, ?_⟩
  · intro K v hv
    rw [hb' K] at hv
    by_cases hK : K = view.typ
    · rw [if_pos hK] at hv
      cases hv
      exact ⟨List.mem_append_right _ (List.mem_singleton.2 rfl), hK.symm, hM⟩
    · rw [if_neg hK] at hv
      obtain ⟨h1, h2, h3⟩ := hs K v hv
      exact ⟨List.mem_append_left _ h1, h2, h3⟩
  · intro w hw hMw
    rw [hb' w.typ]
    by_cases hK : w.typ = view.typ
    · rw [if_pos hK]
      simp
    · rw [if_neg hK]
      rcases List.mem_append.1 hw with hw | hw
      · exact hc w hw hMw
      · rw [List.mem_singleton.1 hw] at hK
        exact absurd rfl hK
  · intro K g hK hg w hw hwK hMw
    rw [hb' K] at hg
    by_cases hKv : K = view.typ
    · rw [if_pos hKv] at hg
      cases hg
      rcases List.mem_append.1 hw with hw | hw
      · cases hcur : b.slot view.typ with
        | none =>
          have := hc w hw hMw
          rw [hwK, hKv] at this
          exact absurd hcur this
        | some g0 =>
          have h1 := hl K g0 hK (hKv ▸ hcur) w hw hwK hMw
          have h2 : ¬ len g0.root > len view.root := by
            have h3 := hlong (hKv ▸ hK)
            rw [hcur] at h3
            exact h3
          omega
      · rw [List.mem_singleton.1 hw]
    · rw [if_neg hKv] at hg
      rcases List.mem_append.1 hw with hw | hw
      · exact hl K g hK hg w hw hwK hMw
      · rw [List.mem_singleton.1 hw] at hwK
        exact absurd hwK.symm hKv

theorem LoopPost.of_gowork {env : ViewEnv} {uri modURI : DocumentURI}
    {views : List viewDefinition} {view : viewDefinition} (hmem : view ∈ views)
    (hK : view.typ = .GoWorkView) (hM : viewMatches env uri modURI view) :
    LoopPost env uri modURI views (some view) := by
  refine ⟨?_, ?_, ?_, ?_⟩
  · intro v hv
    cases hv
    exact ⟨hmem, hM⟩
  · intro v hv w _ _
    cases hv
    simp [hK, ViewType.rank]
  · intro hr
    cases hr
  · intro v hv hKv
    cases hv
    simp [hK] at hKv

theorem bestViewLoop_post (env : ViewEnv) (uri modURI : DocumentURI) :
    ∀ (rest seen : List viewDefinition) (b : BestViews), LoopInv env uri modURI seen b →
      LoopPost env uri modURI (seen ++ rest)
        (bestViewLoop env uri (env.Dir uri) modURI rest b)
  | [], seen, b, h => by
    simpa [bestViewLoop] using h.result_post
  | view :: rest, seen, b, h => by
    have happ : seen ++ view :: rest = (seen ++ [view]) ++ rest := by simp
    have hmem : view ∈ seen ++ view :: rest := by simp
    rw [bestViewLoop]
    cases hK : view.typ with
    | GoPackagesDriverView =>
      simp only []
      by_cases hlong : longerThan b.goPackagesView view
      · rw [if_pos hlong, happ]
        exact bestViewLoop_post env uri modURI rest _ b
          (h.skip_longer view (by rw [hK]; exact hlong))
      · rw [if_neg hlong]
        by_cases hE : env.Encloses view.root (env.Dir uri) = true
        · rw [if_pos hE, happ]
          refine bestViewLoop_post env uri modURI rest _ _ (h.update view _ ?_ ?_ ?_)
          · simp [viewMatches, hK, hE]
          · intro K
            cases K <;> simp [BestViews.slot, hK]
          · intro _
            rw [hK]
            exact hlong
        · rw [if_neg hE, happ]
          exact bestViewLoop_post env uri modURI rest _ b
            (h.skip view (by simp [viewMatches, hK, hE]))
    | GOPATHView =>
      simp only []
      by_cases hlong : longerThan b.gopathView view
      · rw [if_pos hlong, happ]
        exact bestViewLoop_post env uri modURI rest _ b
          (h.skip_longer view (by rw [hK]; exact hlong))
      · rw [if_neg hlong]
        by_cases hE : env.Encloses view.root (env.Dir uri) = true
        · rw [if_pos hE, happ]
          refine bestViewLoop_post env uri modURI rest _ _ (h.update view _ ?_ ?_ ?_)
          · simp [viewMatches, hK, hE]
          · intro K
            cases K <;> simp [BestViews.slot, hK]
          · intro _
            rw [hK]
            exact hlong
        · rw [if_neg hE, happ]
          exact bestViewLoop_post env uri modURI rest _ b
            (h.skip view (by simp [viewMatches, hK, hE]))
    | GoModView =>
      simp only []
      by_cases hE : modURI = view.gomod
      · rw [if_pos hE, happ]
        refine bestViewLoop_post env uri modURI rest _ _ (h.update view _ ?_ ?_ ?_)
        · simp [viewMatches, hK, hE]
        · intro K
          cases K <;> simp [BestViews.slot, hK]
        · intro hc
          simp [hK] at hc
      · rw [if_neg hE, happ]
        exact bestViewLoop_post env uri modURI rest _ b
          (h.skip view (by simp [viewMatches, hK, hE]))
    | AdHocView =>
      simp only []
      by_cases hE : view.root = env.Dir uri
      · rw [if_pos hE, happ]
        refine bestViewLoop_post env uri modURI rest _ _ (h.update view _ ?_ ?_ ?_)
        · simp [viewMatches, hK, hE]
        · intro K
          cases K <;> simp [BestViews.slot, hK]
        · intro hc
          simp [hK] at hc
      · rw [if_neg hE, happ]
        exact bestViewLoop_post env uri modURI rest _ b
          (h.skip view (by simp [viewMatches, hK, hE]))
    | GoWorkView =>
      simp only []
      by_cases h1 : uri = view.gowork
      · rw [if_pos h1]
        exact LoopPost.of_gowork hmem hK (by simp [viewMatches, hK, h1])
      · rw [if_neg h1]
        by_cases h2 : modURI ∈ view.workspaceModFiles
        · rw [if_pos h2]
          exact LoopPost.of_gowork hmem hK (by simp [viewMatches, hK, h2])
        · rw [if_neg h2, happ]
          exact bestViewLoop_post env uri modURI rest _ b
            (h.skip view (by simp [viewMatches, hK, h1, h2]))

theorem ViewType.rank_injective (a b : ViewType) (h : a.rank = b.rank) : a = b := by
  cases a <;> cases b <;> simp [ViewType.rank] at h <;> rfl

theorem LoopPost.nil (env : ViewEnv) (uri modURI : DocumentURI) :
    LoopPost env uri modURI [] none := by
  refine ⟨?_, ?_, ?_, ?_⟩
  · intro v hv
    cases hv
  · intro v hv
    cases hv
  · intro _ w hw
    simp at hw
  · intro v hv
    cases hv

/-- When the go.mod lookup succeeds, `bestViewDefForURI` returns without an error
and its result satisfies the guarantees of the loop on the whole list. -/
theorem bestViewDefForURI_post (env : ViewEnv) (uri modURI : DocumentURI)
    (views : List viewDefinition)
    (hmod : env.findRootPattern (env.Dir uri) "go.mod" = .ok modURI) :
    ∃ r, bestViewDefForURI env uri views = .ok r ∧ LoopPost env uri modURI views r := by
  cases views with
  | nil => exact ⟨none, by simp [bestViewDefForURI], LoopPost.nil env uri modURI⟩
  | cons view rest =>
    refine ⟨bestViewLoop env uri (env.Dir uri) modURI (view :: rest)
      { goPackagesView := none, gopathView := none, adHocView := none, modView := none },
      ?_, ?_⟩
    · simp [bestViewDefForURI, hmod]
    · simpa using bestViewLoop_post env uri modURI (view :: rest) [] _
        (LoopInv.initial env uri modURI)

/-- A result `.ok (some v)` can only come from a successful go.mod lookup. -/
theorem bestViewDefForURI_some_lookup (env : ViewEnv) (uri : DocumentURI)
    (views : List viewDefinition) (v : viewDefinition)
    (h : bestViewDefForURI env uri views = .ok (some v)) :
    ∃ modURI, env.findRootPattern (env.Dir uri) "go.mod" = .ok modURI := by
  cases hmod : env.findRootPattern (env.Dir uri) "go.mod" with
  | ok modURI => exact ⟨modURI, rfl⟩
  | error e =>
    cases views with
    | nil => simp [bestViewDefForURI] at h
    | cons view rest => simp [bestViewDefForURI, hmod] at h

/-- The kind of the result is determined by the set of views of the list. -/
theorem LoopPost.kind_unique {env : ViewEnv} {uri modURI : DocumentURI}
    {views views' : List viewDefinition} {r r' : Option viewDefinition}
    (h : LoopPost env uri modURI views r) (h' : LoopPost env uri modURI views' r')
    (hmem : ∀ w, w ∈ views ↔ w ∈ views') :
    r.map (fun v => v.typ) = r'.map (fun v => v.typ) := by
  cases r with
  | none =>
    cases r' with
    | none => rfl
    | some v' =>
      obtain ⟨h1, h2⟩ := h'.sound v' rfl
      exact absurd h2 (h.complete rfl v' ((hmem v').2 h1))
  | some v =>
    obtain ⟨h1, h2⟩ := h.sound v rfl
    cases r' with
    | none => exact absurd h2 (h'.complete rfl v ((hmem v).1 h1))
    | some v' =>
      obtain ⟨h1', h2'⟩ := h'.sound v' rfl
      have hle := h.best v rfl v' ((hmem v').2 h1') h2'
      have hle' := h'.best v' rfl v ((hmem v).1 h1) h2
      have : v.typ = v'.typ := ViewType.rank_injective _ _ (Nat.le_antisymm hle hle')
      simp [this]

theorem LoopPost.kind_iff {env : ViewEnv} {uri modURI : DocumentURI}
    {views : List viewDefinition} {r : Option viewDefinition}
    (h : LoopPost env uri modURI views r) (K : ViewType) :
    (∃ v, r = some v ∧ v.typ = K) ↔
      ((∃ v ∈ views, v.typ = K ∧ viewMatches env uri modURI v) ∧
        ∀ w ∈ views, w.typ.rank < K.rank → ¬ viewMatches env uri modURI w) := by
  constructor
  · rintro ⟨v, hv, hK⟩
    obtain ⟨h1, h2⟩ := h.sound v hv
    refine ⟨⟨v, h1, hK, h2⟩, ?_⟩
    intro w hw hlt hM
    have := h.best v hv w hw hM
    rw [hK] at this
    omega
  · rintro ⟨⟨v, hv, hK, hM⟩, hno⟩
    cases hr : r with
    | none => exact absurd hM (h.complete hr v hv)
    | some v' =>
      refine ⟨v', rfl, ?_⟩
      obtain ⟨h1, h2⟩ := h.sound v' hr
      have hle := h.best v' hr v hv hM
      rw [hK] at hle
      have hge : ¬ v'.typ.rank < K.rank := fun hlt => hno v' h1 hlt h2
      exact ViewType.rank_injective _ _ (by omega)

/-- C7 fails when the go.mod lookup fails: the list holds one ad hoc view whose
root is the file's directory and no view of another kind, yet `bestViewDefForURI`
returns the lookup's error and no view. -/
theorem bestViewDefForURI_lookup_error_returns_no_view :
    (∃ v ∈ [exampleAdHocView], v.typ = .AdHocView ∧
      v.root = exampleCanceledEnv.Dir "file:///w/a/x.go") ∧
    (∀ w ∈ [exampleAdHocView], ¬ w.typ.rank < ViewType.AdHocView.rank) ∧
    bestViewDefForURI exampleCanceledEnv "file:///w/a/x.go" [exampleAdHocView]
      = .error "context canceled" := by
  decide

/-- C7 (amended): when the go.mod lookup succeeds, the result of
`bestViewDefForURI` has kind `K` exactly when some view of kind `K` in the list
matches the file and no view of a kind that precedes `K` in the order
GoWork > GoMod > GOPATH > GoPackagesDriver > AdHoc matches it. -/
theorem bestViewDefForURI_precedence (env : ViewEnv) (uri modURI : DocumentURI)
    (views : List viewDefinition) (K : ViewType)
    (hmod : env.findRootPattern (env.Dir uri) "go.mod" = .ok modURI) :
    (∃ v, bestViewDefForURI env uri views = .ok (some v) ∧ v.typ = K) ↔
      ((∃ v ∈ views, v.typ = K ∧ viewMatches env uri modURI v) ∧
        ∀ w ∈ views, w.typ.rank < K.rank → ¬ viewMatches env uri modURI w) := by
  obtain ⟨r, hr, hpost⟩ := bestViewDefForURI_post env uri modURI views hmod
  rw [← hpost.kind_iff K, hr]
  simp

theorem bestViewDefForURI_precedence_witness :
    exampleViewEnv.findRootPattern (exampleViewEnv.Dir "file:///w/a/x.go") "go.mod"
      = .ok "file:///w/a/go.mod" ∧
    ((∃ v, bestViewDefForURI exampleViewEnv "file:///w/a/x.go"
        [exampleAdHocView, exampleGoModView, exampleGOPATHView "file:///w"] = .ok (some v) ∧
        v.typ = .GoModView) ↔
      ((∃ v ∈ [exampleAdHocView, exampleGoModView, exampleGOPATHView "file:///w"],
          v.typ = .GoModView ∧
          viewMatches exampleViewEnv "file:///w/a/x.go" "file:///w/a/go.mod" v) ∧
        ∀ w ∈ [exampleAdHocView, exampleGoModView, exampleGOPATHView "file:///w"],
          w.typ.rank < ViewType.GoModView.rank →
          ¬ viewMatches exampleViewEnv "file:///w/a/x.go" "file:///w/a/go.mod" w)) :=
  ⟨by decide,
   bestViewDefForURI_precedence exampleViewEnv "file:///w/a/x.go" "file:///w/a/go.mod"
    [exampleAdHocView, exampleGoModView, exampleGOPATHView "file:///w"] .GoModView
    (by decide)⟩

/-- C8: on a permutation of the list `bestViewDefForURI` fails with the same
error, or returns no view on both lists, or returns a view of the same kind on both. -/
theorem bestViewDefForURI_perm (env : ViewEnv) (uri : DocumentURI)
    (views views' : List viewDefinition) (hperm : views.Perm views') :
    resultKind (bestViewDefForURI env uri views) =
      resultKind (bestViewDefForURI env uri views') := by
  cases hmod : env.findRootPattern (env.Dir uri) "go.mod" with
  | error e =>
    have hlen := hperm.length_eq
    simp [bestViewDefForURI, hmod, hlen]
  | ok modURI =>
    obtain ⟨r, hr, hpost⟩ := bestViewDefForURI_post env uri modURI views hmod
    obtain ⟨r', hr', hpost'⟩ := bestViewDefForURI_post env uri modURI views' hmod
    have hk := hpost.kind_unique hpost' (fun w => hperm.mem_iff)
    rw [hr, hr']
    cases r <;> cases r' <;> simp [resultKind] at hk ⊢
    exact hk

theorem bestViewDefForURI_perm_witness :
    [exampleGOPATHView "file:///w", exampleGoModView].Perm
      [exampleGoModView, exampleGOPATHView "file:///w"] ∧
    resultKind (bestViewDefForURI exampleViewEnv "file:///w/a/x.go"
      [exampleGOPATHView "file:///w", exampleGoModView]) =
    resultKind (bestViewDefForURI exampleViewEnv "file:///w/a/x.go"
      [exampleGoModView, exampleGOPATHView "file:///w"]) :=
  ⟨List.Perm.swap _ _ _,
   bestViewDefForURI_perm exampleViewEnv "file:///w/a/x.go"
    [exampleGOPATHView "file:///w", exampleGoModView]
    [exampleGoModView, exampleGOPATHView "file:///w"] (List.Perm.swap _ _ _)⟩

/-- C9: a GOPATH view (or a go/packages driver view) returned by
`bestViewDefForURI` has a root that encloses the file's directory and that is at
least as long as the root of every view of the same kind in the list whose
root encloses the file's directory. -/
theorem bestViewDefForURI_longest_root (env : ViewEnv) (uri : DocumentURI)
    (views : List viewDefinition) (v : viewDefinition)
    (h : bestViewDefForURI env uri views = .ok (some v))
    (hK : v.typ = .GOPATHView ∨ v.typ = .GoPackagesDriverView) :
    env.Encloses v.root (env.Dir uri) = true ∧
    ∀ w ∈ views, w.typ = v.typ → env.Encloses w.root (env.Dir uri) = true →
      len w.root ≤ len v.root := by
  obtain ⟨modURI, hmod⟩ := bestViewDefForURI_some_lookup env uri views v h
  obtain ⟨r, hr, hpost⟩ := bestViewDefForURI_post env uri modURI views hmod
  rw [h] at hr
  cases hr
  have hv := (hpost.sound v rfl).2
  constructor
  · rcases hK with hK | hK <;> simpa [viewMatches, hK] using hv
  · intro w hw hwK hE
    refine hpost.longest v rfl hK w hw hwK ?_
    rcases hK with hK | hK <;> simpa [viewMatches, hwK, hK] using hE

theorem bestViewDefForURI_longest_root_witness :
    bestViewDefForURI exampleViewEnv "file:///w/a/x.go"
      [exampleGOPATHView "file:///w/a", exampleGOPATHView "file:///w", exampleAdHocView]
      = .ok (some (exampleGOPATHView "file:///w/a")) ∧
    exampleViewEnv.Encloses "file:///w/a" (exampleViewEnv.Dir "file:///w/a/x.go") = true ∧
    ∀ w ∈ [exampleGOPATHView "file:///w/a", exampleGOPATHView "file:///w", exampleAdHocView],
      w.typ = .GOPATHView →
      exampleViewEnv.Encloses w.root (exampleViewEnv.Dir "file:///w/a/x.go") = true →
      len w.root ≤ len "file:///w/a" :=
  ⟨by decide,
   bestViewDefForURI_longest_root exampleViewEnv "file:///w/a/x.go"
    [exampleGOPATHView "file:///w/a", exampleGOPATHView "file:///w", exampleAdHocView]
    (exampleGOPATHView "file:///w/a") (by decide) (Or.inl rfl)⟩

/-- C10: when the go.mod lookup succeeds, `bestViewDefForURI` returns without an
error, it returns `(nil, nil)` exactly when no view of the list matches the
file, and a view that it returns is an element of the list that matches the
file by the rule of its kind. -/
theorem bestViewDefForURI_none_iff_no_match (env : ViewEnv) (uri modURI : DocumentURI)
    (views : List viewDefinition)
    (hmod : env.findRootPattern (env.Dir uri) "go.mod" = .ok modURI) :
    (∃ r, bestViewDefForURI env uri views = .ok r) ∧
    (bestViewDefForURI env uri views = .ok none ↔
      ∀ w ∈ views, ¬ viewMatches env uri modURI w) ∧
    (∀ v, bestViewDefForURI env uri views = .ok (some v) →
      v ∈ views ∧ viewMatches env uri modURI v) := by
  obtain ⟨r, hr, hpost⟩ := bestViewDefForURI_post env uri modURI views hmod
  refine ⟨⟨r, hr⟩, ?_, ?_⟩
  · rw [hr]
    constructor
    · intro h
      simp only [Except.ok.injEq] at h
      exact hpost.complete h
    · intro h
      cases hr' : r with
      | none => rfl
      | some v => exact absurd (hpost.sound v hr').2 (h v (hpost.sound v hr').1)
  · intro v hv
    rw [hr] at hv
    simp only [Except.ok.injEq] at hv
    exact hpost.sound v hv

theorem bestViewDefForURI_none_iff_no_match_witness :
    exampleViewEnv.findRootPattern (exampleViewEnv.Dir "file:///w/b/y.go") "go.mod"
      = .ok "" ∧
    (∃ r, bestViewDefForURI exampleViewEnv "file:///w/b/y.go"
      [exampleAdHocView, exampleGoModView] = .ok r) ∧
    (bestViewDefForURI exampleViewEnv "file:///w/b/y.go" [exampleAdHocView, exampleGoModView]
        = .ok none ↔
      ∀ w ∈ [exampleAdHocView, exampleGoModView],
        ¬ viewMatches exampleViewEnv "file:///w/b/y.go" "" w) ∧
    (∀ v, bestViewDefForURI exampleViewEnv "file:///w/b/y.go"
        [exampleAdHocView, exampleGoModView] = .ok (some v) →
      v ∈ [exampleAdHocView, exampleGoModView] ∧
        viewMatches exampleViewEnv "file:///w/b/y.go" "" v) :=
  ⟨by decide,
   bestViewDefForURI_none_iff_no_match exampleViewEnv "file:///w/b/y.go" ""
    [exampleAdHocView, exampleGoModView] (by decide)⟩

/-! ## selectViews -/

/-- The result of the loop of `folderForFile` started from `init`. -/
theorem folderForFile_foldl (env : ViewEnv) (uri : DocumentURI) :
    ∀ (folders : List Folder) (init : Option Folder),
      (folders.foldl
          (fun longest folder =>
            if longerFolder longest folder ∧ env.Encloses folder.Dir uri = true then some folder
            else longest) init = none →
        init = none ∧ ∀ f ∈ folders, env.Encloses f.Dir uri = false) ∧
      (∀ g, folders.foldl
          (fun longest folder =>
            if longerFolder longest folder ∧ env.Encloses folder.Dir uri = true then some folder
            else longest) init = some g →
        (init = some g ∨ (g ∈ folders ∧ env.Encloses g.Dir uri = true)) ∧
        (∀ i, init = some i → len i.Dir ≤ len g.Dir) ∧
        ∀ f ∈ folders, env.Encloses f.Dir uri = true → len f.Dir ≤ len g.Dir)
  | [], init => by
    refine ⟨fun h => ⟨h, by simp⟩, fun g hg => ⟨Or.inl hg, ?_, by simp⟩⟩
    intro i hi
    simp only [List.foldl_nil] at hg
    rw [hg] at hi
    cases hi
    exact Nat.le_refl _
  | folder :: rest, init => by
    obtain ⟨ih1, ih2⟩ := folderForFile_foldl env uri rest
      (if longerFolder init folder ∧ env.Encloses folder.Dir uri = true then some folder
       else init)
    simp only [List.foldl_cons]
    by_cases hc : longerFolder init folder ∧ env.Encloses folder.Dir uri = true
    · rw [if_pos hc] at ih1 ih2 ⊢
      constructor
      · intro h
        exact absurd (ih1 h).1 (by simp)
      · intro g hg
        obtain ⟨h1, h2, h3⟩ := ih2 g hg
        have hfg : len folder.Dir ≤ len g.Dir := h2 folder rfl
        refine ⟨Or.inr ?_, ?_, ?_⟩
        · rcases h1 with h1 | h1
          · cases h1
            exact ⟨List.mem_cons_self _ _, hc.2⟩
          · exact ⟨List.mem_cons_of_mem _ h1.1, h1.2⟩
        · intro i hi
          have hl := hc.1
          rw [hi] at hl
          have hl' : len folder.Dir > len i.Dir := hl
          omega
        · intro f hf hE
          rcases List.mem_cons.1 hf with hf | hf
          · rw [hf]
            exact hfg
          · exact h3 f hf hE
    · rw [if_neg hc] at ih1 ih2 ⊢
      have hfolder : env.Encloses folder.Dir uri = true →
          ∃ i, init = some i ∧ len folder.Dir ≤ len i.Dir := by
        intro hE
        cases hinit : init with
        | none =>
          rw [hinit] at hc
          exact absurd ⟨trivial, hE⟩ hc
        | some i =>
          rw [hinit] at hc
          refine ⟨i, rfl, ?_⟩
          have : ¬ len folder.Dir > len i.Dir := fun hl => hc ⟨hl, hE⟩
          omega
      constructor
      · intro h
        obtain ⟨h1, h2⟩ := ih1 h
        refine ⟨h1, ?_⟩
        intro f hf
        rcases List.mem_cons.1 hf with hf | hf
        · rw [hf]
          cases hE : env.Encloses folder.Dir uri with
          | false => rfl
          | true =>
            obtain ⟨i, hi, _⟩ := hfolder hE
            rw [h1] at hi
            cases hi
        · exact h2 f hf
      · intro g hg
        obtain ⟨h1, h2, h3⟩ := ih2 g hg
        refine ⟨?_, h2, ?_⟩
        · rcases h1 with h1 | h1
          · exact Or.inl h1
          · exact Or.inr ⟨List.mem_cons_of_mem _ h1.1, h1.2⟩
        · intro f hf hE
          rcases List.mem_cons.1 hf with hf | hf
          · rw [hf] at hE ⊢
            obtain ⟨i, hi, hle⟩ := hfolder hE
            have := h2 i hi
            omega
          · exact h3 f hf hE

/-- The folder chosen by `folderForFile` is a folder of the list that encloses
the file and is at least as long as every folder of the list that encloses it. -/
theorem folderForFile_some (env : ViewEnv) (folders : List Folder) (uri : DocumentURI)
    (g : Folder) (h : folderForFile env folders uri = some g) :
    g ∈ folders ∧ env.Encloses g.Dir uri = true ∧
    ∀ f ∈ folders, env.Encloses f.Dir uri = true → len f.Dir ≤ len g.Dir := by
  obtain ⟨h1, _, h3⟩ := (folderForFile_foldl env uri folders none).2 g h
  rcases h1 with h1 | h1
  · cases h1
  · exact ⟨h1.1, h1.2, h3⟩

/-- The closure `folderForFile` returns `nil` exactly when no folder encloses the file. -/
theorem folderForFile_none_iff (env : ViewEnv) (folders : List Folder) (uri : DocumentURI) :
    folderForFile env folders uri = none ↔ ∀ f ∈ folders, env.Encloses f.Dir uri = false := by
  constructor
  · intro h
    exact ((folderForFile_foldl env uri folders none).1 h).2
  · intro h
    cases hr : folderForFile env folders uri with
    | none => rfl
    | some g =>
      obtain ⟨h1, h2, _⟩ := folderForFile_some env folders uri g hr
      rw [h g h1] at h2
      cases h2
/-- The first loop of `selectViews` appends to `views` one definition per
folder, the definition that `defineView(ctx, fs, folder, "")` returns. -/
theorem defineFolderViews_ok (env : SelectEnv) :
    ∀ (folders : List Folder) (views out : List viewDefinition),
      defineFolderViews env folders views = .ok out →
      ∃ defs, out = views ++ defs ∧
        List.Forall₂ (fun f d => env.defineView f "" = .ok d) folders defs
  | [], views, out, h => by
    simp only [defineFolderViews, Except.ok.injEq] at h
    exact ⟨[], by simp [h], List.Forall₂.nil⟩
  | folder :: rest, views, out, h => by
    rw [defineFolderViews] at h
    cases hd : env.defineView folder "" with
    | error e => simp [hd] at h
    | ok view =>
      simp only [hd] at h
      obtain ⟨defs, h1, h2⟩ := defineFolderViews_ok env rest (views ++ [view]) out h
      exact ⟨view :: defs, by simp [h1], List.Forall₂.cons hd h2⟩

/-- A result `(nil, nil)` on a non-empty list comes from a successful go.mod
lookup, and then no view of the list matches the file. -/
theorem bestViewDefForURI_none_no_match (env : ViewEnv) (uri : DocumentURI)
    (views : List viewDefinition) (hne : views ≠ [])
    (h : bestViewDefForURI env uri views = .ok none) :
    ∃ modURI, env.findRootPattern (env.Dir uri) "go.mod" = .ok modURI ∧
      ∀ w ∈ views, ¬ viewMatches env uri modURI w := by
  cases hmod : env.findRootPattern (env.Dir uri) "go.mod" with
  | error e =>
    cases views with
    | nil => exact absurd rfl hne
    | cons view rest => simp [bestViewDefForURI, hmod] at h
  | ok modURI =>
    obtain ⟨r, hr, hpost⟩ := bestViewDefForURI_post env uri modURI views hmod
    rw [h] at hr
    cases hr
    exact ⟨modURI, rfl, hpost.complete rfl⟩

/-- The loop `checkFiles` appends definitions to `views`. Each appended
definition is `defineView(ctx, fs, folder, uri)` for an open file `uri` with
`folderForFile(uri) = folder` for which `bestViewDefForURI` found no view among
the definitions before it, and it is `viewDefinitionsEqual` to none of them. -/
theorem checkFiles_ok (env : SelectEnv) (folders : List Folder) :
    ∀ (openFiles : List DocumentURI) (views out : List viewDefinition),
      checkFiles env folders openFiles views = .ok out →
      ∃ added, out = views ++ added ∧
        ∀ j d, added[j]? = some d →
          ∃ uri ∈ openFiles, ∃ folder,
            folderForFile env.toViewEnv folders uri = some folder ∧
            bestViewDefForURI env.toViewEnv uri (views ++ added.take j) = .ok none ∧
            env.defineView folder uri = .ok d ∧
            ∀ a ∈ views ++ added.take j, env.viewDefinitionsEqual a d = false
  | [], views, out, h => by
    simp only [checkFiles, Except.ok.injEq] at h
    exact ⟨[], by simp [h], by simp⟩
  | uri :: rest, views, out, h => by
    have weaken : ∀ (views' : List viewDefinition),
        checkFiles env folders rest views' = .ok out → views' = views →
        ∃ added, out = views ++ added ∧
          ∀ j d, added[j]? = some d →
            ∃ uri' ∈ uri :: rest, ∃ folder,
              folderForFile env.toViewEnv folders uri' = some folder ∧
              bestViewDefForURI env.toViewEnv uri' (views ++ added.take j) = .ok none ∧
              env.defineView folder uri' = .ok d ∧
              ∀ a ∈ views ++ added.take j, env.viewDefinitionsEqual a d = false := by
      intro views' h' hv
      subst hv
      obtain ⟨added, h1, h2⟩ := checkFiles_ok env folders rest views' out h'
      refine ⟨added, h1, ?_⟩
      intro j d hj
      obtain ⟨u, hu, rest'⟩ := h2 j d hj
      exact ⟨u, List.mem_cons_of_mem _ hu, rest'⟩
    rw [checkFiles] at h
    cases hf : folderForFile env.toViewEnv folders uri with
    | none =>
      simp only [hf] at h
      exact weaken views h rfl
    | some folder =>
      simp only [hf] at h
      cases hb : bestViewDefForURI env.toViewEnv uri views with
      | error e => simp [hb] at h
      | ok r =>
        cases r with
        | some v =>
          simp only [hb] at h
          exact weaken views h rfl
        | none =>
          simp only [hb] at h
          cases hd : env.defineView folder uri with
          | error e => simp [hd] at h
          | ok view =>
            simp only [hd] at h
            by_cases hany : views.any (fun alt => env.viewDefinitionsEqual alt view) = true
            · rw [if_pos hany] at h
              exact weaken views h rfl
            · rw [if_neg hany] at h
              obtain ⟨added, h1, h2⟩ := checkFiles_ok env folders rest (views ++ [view]) out h
              refine ⟨view :: added, by simp [h1], ?_⟩
              intro j d hj
              cases j with
              | zero =>
                simp only [List.getElem?_cons_zero, Option.some.injEq] at hj
                subst hj
                refine ⟨uri, List.mem_cons_self _ _, folder, hf, by simpa using hb, hd, ?_⟩
                intro a ha
                simp only [List.take_zero, List.append_nil] at ha
                simp only [List.any_eq_true, not_exists, not_and, Bool.not_eq_true] at hany
                exact hany a ha
              | succ j =>
                simp only [List.getElem?_cons_succ] at hj
                obtain ⟨u, hu, fo, hfo, hbo, hdo, heq⟩ := h2 j d hj
                refine ⟨u, List.mem_cons_of_mem _ hu, fo, hfo, ?_, hdo, ?_⟩
                · simpa using hbo
                · simpa using heq
theorem take_append_of_length_le {α : Type} (l₁ l₂ : List α) (j : Nat)
    (h : l₁.length ≤ j) : (l₁ ++ l₂).take j = l₁ ++ l₂.take (j - l₁.length) := by
  rw [List.take_append_eq_append_take, List.take_of_length_le h]

/-- C11 fails for the per-folder definitions: a folder listed twice gets two
definitions, which are equal under `viewDefinitionsEqual`. -/
theorem selectViews_duplicate_folder_definitions :
    selectViews exampleSelectEnv [exampleFolder "file:///a", exampleFolder "file:///a"] []
      = .ok [exampleModuleView "file:///a", exampleModuleView "file:///a"] ∧
    exampleSelectEnv.viewDefinitionsEqual (exampleModuleView "file:///a")
      (exampleModuleView "file:///a") = true := by
  decide

/-- C11 (amended): in the output of a successful `selectViews`, a definition
added for an open file (at a position from `len(folders)` on) is not
`viewDefinitionsEqual` to any definition at an earlier position. -/
theorem selectViews_added_not_equal (env : SelectEnv) (folders : List Folder)
    (openFiles : List DocumentURI) (out : List viewDefinition)
    (h : selectViews env folders openFiles = .ok out)
    (i j : Nat) (a b : viewDefinition) (hij : i < j) (hj : folders.length ≤ j)
    (ha : out[i]? = some a) (hb : out[j]? = some b) :
    env.viewDefinitionsEqual a b = false := by
  rw [selectViews] at h
  cases hd : defineFolderViews env folders [] with
  | error e => simp [hd] at h
  | ok defs =>
    simp only [hd] at h
    obtain ⟨defs', h1, h2⟩ := defineFolderViews_ok env folders [] defs hd
    obtain ⟨added, h3, h4⟩ := checkFiles_ok env folders openFiles defs out h
    have hlen : defs.length = folders.length := by
      rw [h1, List.nil_append]
      exact h2.length_eq.symm
    have hbj : added[j - defs.length]? = some b := by
      rw [h3, List.getElem?_append_right (by omega)] at hb
      exact hb
    obtain ⟨_, _, _, _, _, _, hne⟩ := h4 (j - defs.length) b hbj
    apply hne a
    have htake : defs ++ added.take (j - defs.length) = out.take j := by
      rw [h3]
      exact (take_append_of_length_le defs added j (by omega)).symm
    rw [htake]
    have hi : out[i]? = (out.take j)[i]? := by
      rw [List.getElem?_take_of_lt hij]
    rw [hi] at ha
    exact List.mem_iff_getElem?.2 ⟨i, ha⟩

theorem selectViews_added_not_equal_witness :
    selectViews exampleSelectEnv [exampleFolder "file:///a", exampleFolder "file:///c"]
        ["file:///a/sub/x", "file:///c/d/y"]
      = .ok [exampleModuleView "file:///a", exampleDirView "file:///c",
             exampleDirView "file:///c/d"] ∧
    exampleSelectEnv.viewDefinitionsEqual (exampleDirView "file:///c")
      (exampleDirView "file:///c/d") = false :=
  ⟨by decide,
   selectViews_added_not_equal exampleSelectEnv
    [exampleFolder "file:///a", exampleFolder "file:///c"]
    ["file:///a/sub/x", "file:///c/d/y"]
    [exampleModuleView "file:///a", exampleDirView "file:///c", exampleDirView "file:///c/d"]
    (by decide) 1 2 (exampleDirView "file:///c") (exampleDirView "file:///c/d")
    (by decide) (by decide) rfl rfl⟩

/-- C12: the output of a successful `selectViews` has at least `len(folders)`
entries; its `i`-th entry for `i < len(folders)` is `defineView` of the `i`-th
folder; every later entry is `defineView(folder, uri)` for an open file `uri`
whose longest enclosing folder `folderForFile(uri)` is `folder` and for which
`bestViewDefForURI` finds no view among the entries before it, none of which
matches the file. -/
theorem selectViews_structure (env : SelectEnv) (folders : List Folder)
    (openFiles : List DocumentURI) (out : List viewDefinition)
    (h : selectViews env folders openFiles = .ok out) :
    folders.length ≤ out.length ∧
    (∀ (i : Nat) (folder : Folder), folders[i]? = some folder →
      ∃ d, out[i]? = some d ∧ env.defineView folder "" = .ok d) ∧
    (∀ (j : Nat) (d : viewDefinition), folders.length ≤ j → out[j]? = some d →
      ∃ uri ∈ openFiles, ∃ folder ∈ folders,
        folderForFile env.toViewEnv folders uri = some folder ∧
        env.Encloses folder.Dir uri = true ∧
        (∀ g ∈ folders, env.Encloses g.Dir uri = true → len g.Dir ≤ len folder.Dir) ∧
        bestViewDefForURI env.toViewEnv uri (out.take j) = .ok none ∧
        (∃ modURI, env.findRootPattern (env.Dir uri) "go.mod" = .ok modURI ∧
          ∀ w ∈ out.take j, ¬ viewMatches env.toViewEnv uri modURI w) ∧
        env.defineView folder uri = .ok d) := by
  rw [selectViews] at h
  cases hd : defineFolderViews env folders [] with
  | error e => simp [hd] at h
  | ok defs =>
    simp only [hd] at h
    obtain ⟨defs', h1, h2⟩ := defineFolderViews_ok env folders [] defs hd
    rw [List.nil_append] at h1
    subst h1
    obtain ⟨added, h3, h4⟩ := checkFiles_ok env folders openFiles defs out h
    have hlen : defs.length = folders.length := h2.length_eq.symm
    refine ⟨by rw [h3, List.length_append]; omega, ?_, ?_⟩
    · intro i folder hi
      have hil : i < folders.length := (List.getElem?_eq_some.1 hi).1
      have hid : i < defs.length := by omega
      refine ⟨defs[i], ?_, ?_⟩
      · rw [h3, List.getElem?_append_left hid, List.getElem?_eq_getElem hid]
      · have hf : folders[i] = folder := by
          rw [List.getElem?_eq_getElem hil] at hi
          exact Option.some.inj hi
        have := List.Forall₂.get h2 hil hid
        simpa [hf] using this
    · intro j d hj hdj
      have hbj : added[j - defs.length]? = some d := by
        rw [h3, List.getElem?_append_right (by omega)] at hdj
        exact hdj
      obtain ⟨uri, hu, folder, hfo, hbest, hdef, _⟩ := h4 (j - defs.length) d hbj
      have htake : defs ++ added.take (j - defs.length) = out.take j := by
        rw [h3]
        exact (take_append_of_length_le defs added j (by omega)).symm
      rw [htake] at hbest
      obtain ⟨hmem, henc, hlong⟩ := folderForFile_some env.toViewEnv folders uri folder hfo
      have hne : out.take j ≠ [] := by
        rw [← htake]
        intro hnil
        have hdn : defs = [] := (List.append_eq_nil.1 hnil).1
        rw [hdn] at hlen
        have : folders = [] := List.length_eq_zero.1 hlen.symm
        rw [this] at hmem
        simp at hmem
      exact ⟨uri, hu, folder, hmem, hfo, henc, hlong, hbest,
        bestViewDefForURI_none_no_match env.toViewEnv uri (out.take j) hne hbest, hdef⟩

theorem selectViews_structure_witness :
    ∃ out,
    selectViews exampleSelectEnv [exampleFolder "file:///a", exampleFolder "file:///c"]
        ["file:///a/sub/x", "file:///c/d/y"] = .ok out ∧
    out = [exampleModuleView "file:///a", exampleDirView "file:///c",
           exampleDirView "file:///c/d"] ∧
    [exampleFolder "file:///a", exampleFolder "file:///c"].length ≤ out.length ∧
    (∀ (i : Nat) (folder : Folder), [exampleFolder "file:///a", exampleFolder "file:///c"][i]? = some folder →
      ∃ d, out[i]? = some d ∧ exampleSelectEnv.defineView folder "" = .ok d) ∧
    (∀ (j : Nat) (d : viewDefinition),
      [exampleFolder "file:///a", exampleFolder "file:///c"].length ≤ j →
      out[j]? = some d →
      ∃ uri ∈ ["file:///a/sub/x", "file:///c/d/y"],
      ∃ folder ∈ [exampleFolder "file:///a", exampleFolder "file:///c"],
        folderForFile exampleSelectEnv.toViewEnv
          [exampleFolder "file:///a", exampleFolder "file:///c"] uri = some folder ∧
        exampleSelectEnv.Encloses folder.Dir uri = true ∧
        (∀ g ∈ [exampleFolder "file:///a", exampleFolder "file:///c"],
          exampleSelectEnv.Encloses g.Dir uri = true → len g.Dir ≤ len folder.Dir) ∧
        bestViewDefForURI exampleSelectEnv.toViewEnv uri (out.take j) = .ok none ∧
        (∃ modURI,
          exampleSelectEnv.findRootPattern (exampleSelectEnv.Dir uri) "go.mod" = .ok modURI ∧
          ∀ w ∈ out.take j, ¬ viewMatches exampleSelectEnv.toViewEnv uri modURI w) ∧
        exampleSelectEnv.defineView folder uri = .ok d) :=
  ⟨[exampleModuleView "file:///a", exampleDirView "file:///c", exampleDirView "file:///c/d"],
   by decide, rfl,
   selectViews_structure exampleSelectEnv
    [exampleFolder "file:///a", exampleFolder "file:///c"]
    ["file:///a/sub/x", "file:///c/d/y"]
    [exampleModuleView "file:///a", exampleDirView "file:///c", exampleDirView "file:///c/d"]
    (by decide)⟩

/-- C13: when `defineView` succeeds on every folder and every open file is
either enclosed by no folder or given a view by `bestViewDefForURI` on the
per-folder definitions, `selectViews` returns the per-folder definitions and
nothing else, one per folder. -/
theorem selectViews_only_folder_views (env : SelectEnv) (folders : List Folder)
    (openFiles : List DocumentURI) (defs : List viewDefinition)
    (hdefs : defineFolderViews env folders [] = .ok defs)
    (hfiles : ∀ uri ∈ openFiles,
      (∀ f ∈ folders, env.Encloses f.Dir uri = false) ∨
      ∃ v, bestViewDefForURI env.toViewEnv uri defs = .ok (some v)) :
    selectViews env folders openFiles = .ok defs ∧ defs.length = folders.length ∧
    ∀ (i : Nat) (folder : Folder), folders[i]? = some folder →
      ∃ d, defs[i]? = some d ∧ env.defineView folder "" = .ok d := by
  have hsel : selectViews env folders openFiles = .ok defs := by
    rw [selectViews]
    simp only [hdefs]
    clear hdefs
    induction openFiles with
    | nil => rfl
    | cons uri rest ih =>
      have ih' := ih (fun u hu => hfiles u (List.mem_cons_of_mem _ hu))
      rw [checkFiles]
      rcases hfiles uri (List.mem_cons_self _ _) with hno | ⟨v, hv⟩
      · rw [(folderForFile_none_iff env.toViewEnv folders uri).2 hno]
        exact ih'
      · cases hf : folderForFile env.toViewEnv folders uri with
        | none => exact ih'
        | some folder =>
          simp only [hv]
          exact ih'
  obtain ⟨defs', h3, h4⟩ := defineFolderViews_ok env folders [] defs hdefs
  rw [List.nil_append] at h3
  subst h3
  refine ⟨hsel, h4.length_eq.symm, ?_⟩
  intro i folder hi
  have hil : i < folders.length := (List.getElem?_eq_some.1 hi).1
  have hid : i < defs.length := by rw [← h4.length_eq]; exact hil
  have hf : folders[i] = folder := by
    rw [List.getElem?_eq_getElem hil] at hi
    exact Option.some.inj hi
  refine ⟨defs[i], List.getElem?_eq_getElem hid, ?_⟩
  have := List.Forall₂.get h4 hil hid
  simpa [hf] using this

theorem selectViews_only_folder_views_witness :
    defineFolderViews exampleSelectEnv [exampleFolder "file:///a", exampleFolder "file:///b"] []
      = .ok [exampleModuleView "file:///a", exampleModuleView "file:///b"] ∧
    bestViewDefForURI exampleSelectEnv.toViewEnv "file:///a/sub/x"
        [exampleModuleView "file:///a", exampleModuleView "file:///b"]
      = .ok (some (exampleModuleView "file:///a")) ∧
    selectViews exampleSelectEnv [exampleFolder "file:///a", exampleFolder "file:///b"]
        ["file:///a/sub/x"]
      = .ok [exampleModuleView "file:///a", exampleModuleView "file:///b"] ∧
    [exampleModuleView "file:///a", exampleModuleView "file:///b"].length =
      [exampleFolder "file:///a", exampleFolder "file:///b"].length ∧
    ∀ (i : Nat) (folder : Folder), [exampleFolder "file:///a", exampleFolder "file:///b"][i]? = some folder →
      ∃ d, [exampleModuleView "file:///a", exampleModuleView "file:///b"][i]? = some d ∧
        exampleSelectEnv.defineView folder "" = .ok d :=
  ⟨by decide, by decide,
   selectViews_only_folder_views exampleSelectEnv
    [exampleFolder "file:///a", exampleFolder "file:///b"] ["file:///a/sub/x"]
    [exampleModuleView "file:///a", exampleModuleView "file:///b"] (by decide)
    (by
      intro uri hu
      rw [List.mem_singleton.1 hu]
      exact Or.inr ⟨exampleModuleView "file:///a", by decide⟩)⟩

/-! ## Session -/

theorem viewMapValid_of_empty (s : Session) (h : s.viewMap = emptyViewMap) : viewMapValid s := by
  intro m uri v hm hv
  rw [h, emptyViewMap] at hm
  cases hm
  cases hv

theorem dropView_viewMap (s : Session) (v : View) : (dropView s v).1.viewMap = emptyViewMap := by
  unfold dropView
  simp only []
  cases indexOfView v s.views <;> rfl

theorem updateViewLocked_viewMap (s : Session) (view : View) (d : viewDefinition)
    (folder : Folder) : (updateViewLocked s view d folder).1.viewMap = emptyViewMap := by
  unfold updateViewLocked
  have h := dropView_viewMap s view
  rcases hd : dropView s view with ⟨s₁, i⟩
  rw [hd] at h
  cases i with
  | none => exact h
  | some i => rfl

theorem NewView_create_viewMap (env : SessionEnv) (s s' : Session) (folder : Folder) (v : View)
    (h : NewView.create env s folder = (s', .ok v)) : s'.viewMap = emptyViewMap := by
  unfold NewView.create at h
  cases hd : env.defineView folder "" with
  | error e =>
    rw [hd] at h
    simp at h
  | ok d =>
    rw [hd] at h
    simp only [createView, Prod.mk.injEq] at h
    rw [← h.1]

/-- C14: a successful `NewView`, a `RemoveView` that removes a view, `dropView`
and `updateViewLocked` each leave `viewMap` equal to a new, empty map, so that
afterwards no entry of `viewMap` refers to a view that is not in `s.views`. -/
theorem viewMap_cleared (env : SessionEnv) (s : Session) (folder : Folder)
    (dir : DocumentURI) (view : View) (d : viewDefinition) :
    (∀ s' v, NewView env s folder = .ok (s', .ok v) →
      s'.viewMap = emptyViewMap ∧ viewMapValid s') ∧
    (∀ s', RemoveView s dir = .ok (s', true) →
      s'.viewMap = emptyViewMap ∧ viewMapValid s') ∧
    ((dropView s view).1.viewMap = emptyViewMap ∧ viewMapValid (dropView s view).1) ∧
    ((updateViewLocked s view d folder).1.viewMap = emptyViewMap ∧
      viewMapValid (updateViewLocked s view d folder).1) := by
  refine ⟨?_, ?_, ⟨dropView_viewMap s view, viewMapValid_of_empty _ (dropView_viewMap s view)⟩,
    ⟨updateViewLocked_viewMap s view d folder,
      viewMapValid_of_empty _ (updateViewLocked_viewMap s view d folder)⟩⟩
  · intro s' v h
    have hc : NewView.create env s folder = (s', .ok v) := by
      unfold NewView at h
      cases hs : env.Stat folder.Dir with
      | none =>
        rw [hs] at h
        simp only [Outcome.ok.injEq] at h
        exact h
      | some inode1 =>
        rw [hs] at h
        simp only [] at h
        cases he : viewExists env inode1 s.views with
        | panic =>
          rw [he] at h
          cases h
        | ok b =>
          rw [he] at h
          cases b with
          | true =>
            simp only [Outcome.ok.injEq, Prod.mk.injEq] at h
            cases h.2
          | false =>
            simp only [Outcome.ok.injEq] at h
            exact h
    have := NewView_create_viewMap env s s' folder v hc
    exact ⟨this, viewMapValid_of_empty _ this⟩
  · intro s' h
    have hm : s'.viewMap = emptyViewMap := by
      unfold RemoveView at h
      cases hf : findViewByDir dir s.views with
      | panic =>
        rw [hf] at h
        cases h
      | ok r =>
        rw [hf] at h
        cases r with
        | none =>
          simp only [Outcome.ok.injEq, Prod.mk.injEq] at h
          cases h.2
        | some w =>
          simp only [] at h
          have hdm := dropView_viewMap s w
          rcases hd : dropView s w with ⟨s₁, i⟩
          rw [hd] at h hdm
          cases i with
          | none =>
            simp only [Outcome.ok.injEq, Prod.mk.injEq] at h
            cases h.2
          | some i =>
            simp only [] at h
            cases hr : removeElement s₁.views i with
            | panic =>
              rw [hr] at h
              cases h
            | ok views =>
              rw [hr] at h
              simp only [Outcome.ok.injEq, Prod.mk.injEq, and_true] at h
              rw [← h]
              exact hdm
    exact ⟨hm, viewMapValid_of_empty _ hm⟩

theorem viewMap_cleared_witness :
    (∃ s' v, NewView exampleSessionEnv exampleSession (exampleFolder "file:///b")
        = .ok (s', .ok v)) ∧
    (∃ s', RemoveView exampleSession "file:///a" = .ok (s', true)) ∧
    (∀ s' v, NewView exampleSessionEnv exampleSession (exampleFolder "file:///b")
        = .ok (s', .ok v) → s'.viewMap = emptyViewMap ∧ viewMapValid s') ∧
    (∀ s', RemoveView exampleSession "file:///a" = .ok (s', true) →
      s'.viewMap = emptyViewMap ∧ viewMapValid s') ∧
    ((dropView exampleSession exampleViewA).1.viewMap = emptyViewMap ∧
      viewMapValid (dropView exampleSession exampleViewA).1) ∧
    ((updateViewLocked exampleSession exampleViewA (exampleModuleView "file:///a")
        (exampleFolder "file:///b")).1.viewMap = emptyViewMap ∧
      viewMapValid (updateViewLocked exampleSession exampleViewA (exampleModuleView "file:///a")
        (exampleFolder "file:///b")).1) :=
  ⟨⟨_, _, rfl⟩, ⟨_, rfl⟩,
   viewMap_cleared exampleSessionEnv exampleSession (exampleFolder "file:///b") "file:///a"
    exampleViewA (exampleModuleView "file:///a")⟩
theorem checkViews_foldl (env : SessionEnv) :
    ∀ (changes : List file.Modification) (init : Bool),
      changes.foldl
        (fun checkViews c =>
          let checkViews₁ :=
            if env.isGoWork c.URI = true ∧ (c.Action = .Save ∨ c.OnDisk = true) then true
            else checkViews
          if env.isGoMod c.URI = true ∧ c.Action ≠ .Change ∧ c.Action ≠ .Save then true
          else checkViews₁) init = true ↔
      (init = true ∨ ∃ c ∈ changes, triggersCheckViews env c)
  | [], init => by simp
  | c :: rest, init => by
    rw [List.foldl_cons, checkViews_foldl env rest]
    simp only [List.mem_cons, exists_eq_or_imp, triggersCheckViews]
    by_cases h1 : env.isGoMod c.URI = true ∧ c.Action ≠ .Change ∧ c.Action ≠ .Save
    · simp [h1]
    · by_cases h2 : env.isGoWork c.URI = true ∧ (c.Action = .Save ∨ c.OnDisk = true)
      · simp [h1, h2]
      · simp only [h1, h2, if_false, or_false, false_or]

/-- C16 fails for go.mod files: opening `file:///a/go.mod` in memory (not on
disk) sets `checkViews`, and `DidModifyFiles` then replaces the view of
`file:///a`, whose definition has changed; a Save of `file:///a/go.mod`
flagged on-disk does not set `checkViews`. -/
theorem checkViews_go_mod_open_in_memory :
    exampleSessionEnv.isGoMod "file:///a/go.mod" = true ∧
    checkViews exampleSessionEnv [exampleChangeOf "file:///a/go.mod" .Open false] = true ∧
    (∃ s' m, DidModifyFiles exampleSessionEnv exampleSession
        [exampleChangeOf "file:///a/go.mod" .Open false] = .ok (s', .ok m) ∧
      s'.views = [some { id := 3, folder := exampleFolder "file:///a",
                         viewDefinition := exampleModuleView "file:///a" },
                  some exampleViewC]) ∧
    checkViews exampleSessionEnv [exampleChangeOf "file:///a/go.mod" .Save true] = false :=
  ⟨by decide, by decide, ⟨_, _, rfl, by decide⟩, by decide⟩

/-- The first loop of `DidModifyFiles` sets `checkViews` exactly when some change
of the batch satisfies `triggersCheckViews`. -/
theorem checkViews_eq_true_iff (env : SessionEnv) (changes : List file.Modification) :
    checkViews env changes = true ↔ ∃ c ∈ changes, triggersCheckViews env c := by
  unfold checkViews
  rw [checkViews_foldl env changes false]
  simp

theorem collectDefinitions_ok (views : List (Option View)) (h : ∀ e ∈ views, e ≠ none) :
    ∃ defs, collectDefinitions views = .ok defs := by
  induction views with
  | nil => exact ⟨[], rfl⟩
  | cons e rest ih =>
    obtain ⟨defs, hd⟩ := ih (fun x hx => h x (List.mem_cons_of_mem _ hx))
    cases e with
    | none => exact absurd rfl (h none (List.mem_cons_self _ _))
    | some v => exact ⟨v.viewDefinition :: defs, by simp [collectDefinitions, hd]⟩

/-- When `collectDefinitions` returns, no view is `nil` and the definitions are
those of the views, in order. -/
theorem collectDefinitions_eq (views : List (Option View)) (defs : List viewDefinition)
    (h : collectDefinitions views = .ok defs) :
    (∀ e ∈ views, e ≠ none) ∧ defs = views.filterMap (Option.map (·.viewDefinition)) := by
  induction views generalizing defs with
  | nil =>
    simp only [collectDefinitions, Outcome.ok.injEq] at h
    simp [← h]
  | cons e rest ih =>
    cases e with
    | none => simp [collectDefinitions] at h
    | some v =>
      rw [collectDefinitions] at h
      cases hr : collectDefinitions rest with
      | panic =>
        rw [hr] at h
        cases h
      | ok defs' =>
        rw [hr] at h
        simp only [Outcome.ok.injEq] at h
        obtain ⟨h1, h2⟩ := ih defs' hr
        refine ⟨?_, ?_⟩
        · intro x hx
          rcases List.mem_cons.1 hx with hx | hx
          · rw [hx]
            simp
          · exact h1 x hx
        · rw [← h, h2]
          simp

/-- The last loop of `DidModifyFiles` calls `Invalidate` once on every view of
the list, in order; it changes nothing else in the session, and in the map it
only adds keys with an empty list. -/
theorem invalidateViews_ok (env : SessionEnv) (changed : Files) (check : Bool) :
    ∀ (views : List (Option View)) (s : Session) (m : ViewsToDiagnose),
      (∀ e ∈ views, e ≠ none) →
      ∃ s' m', invalidateViews env changed check views s m = .ok (s', m') ∧
        s'.views = s.views ∧ s'.viewMap = s.viewMap ∧ s'.overlays = s.overlays ∧
        s'.viewIndex = s.viewIndex ∧ s'.shutdowns = s.shutdowns ∧
        s'.invalidations = s.invalidations ++
          (views.filterMap id).map (fun v => (v, changed)) ∧
        ∀ key, (m' key).getD [] = (m key).getD []
  | [], s, m, _ => ⟨s, m, rfl, rfl, rfl, rfl, rfl, rfl, by simp, fun _ => rfl⟩
  | none :: _, _, _, h => absurd rfl (h none (List.mem_cons_self _ _))
  | some v :: rest, s, m, h => by
    rw [invalidateViews]
    obtain ⟨s', m', h1, h2, h3, h4, h5, h6, h7, h8⟩ :=
      invalidateViews_ok env changed check rest
        { s with invalidations := s.invalidations ++ [(v, changed)] }
        (if env.needsDiagnosis v changed = true ∨ check = true then
          fun key => if key = some v then some ((m (some v)).getD []) else m key
         else m)
        (fun x hx => h x (List.mem_cons_of_mem _ hx))
    refine ⟨s', m', h1, h2, h3, h4, h5, h6, ?_, ?_⟩
    · rw [h7]
      simp
    · intro key
      rw [h8 key]
      split
      · by_cases hk : key = some v
        · simp [hk]
        · simp [hk]
      · rfl
theorem indexOfView_of_nodup (v : View) :
    ∀ (l : List (Option View)) (k : Nat), l.Nodup → l[k]? = some (some v) →
      indexOfView v l = some k
  | [], k, _, h => by simp at h
  | x :: xs, 0, _, h => by
    simp only [List.getElem?_cons_zero, Option.some.injEq] at h
    simp [indexOfView, h]
  | x :: xs, k + 1, hn, h => by
    simp only [List.getElem?_cons_succ] at h
    have hmem : some v ∈ xs := List.mem_iff_getElem?.2 ⟨k, h⟩
    have hx : x ≠ some v := by
      intro hx
      rw [hx] at hn
      exact (List.nodup_cons.1 hn).1 hmem
    simp [indexOfView, hx, indexOfView_of_nodup v xs k (List.nodup_cons.1 hn).2 h]

/-- On a session without repeated views, `updateViewLocked` of the view at
index `k` shuts it down and puts a newly created view in its slot. -/
theorem updateViewLocked_eq (s : Session) (k : Nat) (view : View) (d : viewDefinition)
    (folder : Folder) (hn : s.views.Nodup) (hk : s.views[k]? = some (some view)) :
    updateViewLocked s view d folder =
      ({ views := s.views.set k (some { id := s.viewIndex + 1, folder := folder,
                                        viewDefinition := d }),
         viewMap := emptyViewMap, overlays := s.overlays, viewIndex := s.viewIndex + 1,
         shutdowns := s.shutdowns ++ [view], invalidations := s.invalidations },
       .ok { id := s.viewIndex + 1, folder := folder, viewDefinition := d }) := by
  simp [updateViewLocked, dropView, createView, indexOfView_of_nodup view s.views k hn hk,
    List.set_set]

theorem Session.WF.set_new {s : Session} (h : s.WF) (k : Nat) (d : viewDefinition)
    (folder : Folder) (m : Option (DocumentURI → Option (Option View))) (sh : List View) :
    Session.WF
      { views := s.views.set k (some { id := s.viewIndex + 1, folder := folder,
                                       viewDefinition := d }),
        viewMap := m, overlays := s.overlays, viewIndex := s.viewIndex + 1,
        shutdowns := sh, invalidations := s.invalidations } := by
  obtain ⟨h1, h2⟩ := h
  have hnew : (some { id := s.viewIndex + 1, folder := folder, viewDefinition := d } :
      Option View) ∉ s.views := by
    intro hmem
    obtain ⟨v, hv, hid⟩ := h1 _ hmem
    cases hv
    simp at hid
  refine ⟨?_, h2.set hnew⟩
  intro e he
  rcases List.mem_or_eq_of_mem_set he with he | he
  · obtain ⟨v, hv, hid⟩ := h1 e he
    exact ⟨v, hv, Nat.le_succ_of_le hid⟩
  · exact ⟨_, he, Nat.le_refl _⟩

theorem RecreateInv.at_start (env : SessionEnv) (s₀ : Session) (h : s₀.WF) :
    RecreateInv env s₀ 0 s₀ :=
  ⟨h, rfl, fun _ _ => rfl, fun _ _ hi => absurd hi (Nat.not_lt_zero _), Nat.le_refl _, rfl, rfl⟩

/-- One iteration of the re-evaluation loop keeps the invariant. -/
theorem RecreateInv.step {env : SessionEnv} {s₀ : Session} {k : Nat} {cur : Session}
    (h : RecreateInv env s₀ k cur) (hk : k < s₀.views.length) :
    ∃ view, cur.views[k]? = some (some view) ∧ s₀.views[k]? = some (some view) ∧
      RecreateInv env s₀ (k + 1)
        (match env.defineView view.folder "" with
         | .error _ => cur
         | .ok info =>
           if env.viewDefinitionsEqual view.viewDefinition info = false then
             (updateViewLocked cur view info view.folder).1
           else cur) := by
  have hcur : cur.views[k]? = s₀.views[k]? := h.rest k (Nat.le_refl _)
  have hk' : k < cur.views.length := by rw [h.length]; exact hk
  obtain ⟨view, hview, _⟩ := h.wf.1 (cur.views[k]) (List.getElem_mem _)
  have hcv : cur.views[k]? = some (some view) := by
    rw [List.getElem?_eq_getElem hk', hview]
  refine ⟨view, hcv, hcur ▸ hcv, ?_⟩
  have keep : (recreated env s₀.viewIndex view (some view)) → RecreateInv env s₀ (k + 1) cur := by
    intro hrec
    refine ⟨h.wf, h.length, fun i hi => h.rest i (by omega), ?_, h.index, h.overlays,
      h.invalidations⟩
    intro i v hi hv
    by_cases hik : i = k
    · rw [hik] at hv ⊢
      have hv' : v = view := by
        rw [← hcur, hcv] at hv
        simpa using hv.symm
      rw [hv']
      exact ⟨some view, hcv, hrec⟩
    · exact h.done i v (by omega) hv
  cases hd : env.defineView view.folder "" with
  | error e =>
    simp only []
    exact keep (by simp [recreated, hd])
  | ok info =>
    simp only []
    by_cases heq : env.viewDefinitionsEqual view.viewDefinition info = false
    · rw [if_pos heq, updateViewLocked_eq cur k view info view.folder h.wf.2 hcv]
      simp only []
      refine ⟨h.wf.set_new k info view.folder _ _, ?_, ?_, ?_, ?_, h.overlays, h.invalidations⟩
      · simp only [List.length_set]
        exact h.length
      · intro i hi
        simp only []
        rw [List.getElem?_set_ne (by omega)]
        exact h.rest i (by omega)
      · intro i v hi hv
        by_cases hik : i = k
        · rw [hik] at hv ⊢
          have hv' : v = view := by
            rw [← hcur, hcv] at hv
            simpa using hv.symm
          rw [hv']
          refine ⟨_, List.getElem?_set_self hk', ?_⟩
          simp only [recreated, hd, heq, Bool.false_eq_true, if_false]
          exact ⟨_, rfl, rfl, rfl, Nat.lt_succ_of_le h.index⟩
        · simp only []
          rw [List.getElem?_set_ne (fun hki => hik hki.symm)]
          exact h.done i v (by omega) hv
      · exact Nat.le_succ_of_le h.index
    · rw [if_neg heq]
      have heq' : env.viewDefinitionsEqual view.viewDefinition info = true := by
        cases hb : env.viewDefinitionsEqual view.viewDefinition info with
        | true => rfl
        | false => exact absurd hb heq
      exact keep (by simp [recreated, hd, heq'])

/-- On a well-formed session the re-evaluation loop returns, and the invariant
holds at the end of the list of views. -/
theorem recreateViews_ok (env : SessionEnv) (s₀ : Session) :
    ∀ (n k : Nat) (cur : Session), k + n = s₀.views.length → RecreateInv env s₀ k cur →
      ∃ s', recreateViews env (List.range' k n) cur = .ok s' ∧
        RecreateInv env s₀ s₀.views.length s'
  | 0, k, cur, hk, h => by
    have : k = s₀.views.length := by omega
    subst this
    exact ⟨cur, rfl, h⟩
  | n + 1, k, cur, hk, h => by
    obtain ⟨view, hcv, _, hstep⟩ := h.step (by omega)
    rw [List.range'_succ, recreateViews, hcv]
    simp only []
    cases hd : env.defineView view.folder "" with
    | error e =>
      rw [hd] at hstep
      exact recreateViews_ok env s₀ n (k + 1) cur (by omega) hstep
    | ok info =>
      rw [hd] at hstep
      simp only [] at hstep ⊢
      by_cases heq : env.viewDefinitionsEqual view.viewDefinition info = false
      · rw [if_pos heq] at hstep ⊢
        exact recreateViews_ok env s₀ n (k + 1) _ (by omega) hstep
      · rw [if_neg heq] at hstep ⊢
        exact recreateViews_ok env s₀ n (k + 1) cur (by omega) hstep
/-- In every case `updateViewLocked` keeps the overlays, the recorded
invalidations and the number of views, and it leaves no `nil` view behind when
there was none. -/
theorem updateViewLocked_fields (s : Session) (view : View) (d : viewDefinition)
    (folder : Folder) :
    (updateViewLocked s view d folder).1.overlays = s.overlays ∧
    (updateViewLocked s view d folder).1.invalidations = s.invalidations ∧
    (updateViewLocked s view d folder).1.views.length = s.views.length ∧
    ((∀ e ∈ s.views, e ≠ none) → ∀ e ∈ (updateViewLocked s view d folder).1.views, e ≠ none) := by
  unfold updateViewLocked dropView
  cases hi : indexOfView view s.views with
  | none => simp [hi]
  | some i =>
    simp only [hi, createView, List.set_set, List.length_set, true_and]
    intro h e he
    rcases List.mem_or_eq_of_mem_set he with he | he
    · exact h e he
    · rw [he]
      simp

/-- When the re-evaluation loop returns, it has kept the overlays, the recorded
invalidations and the number of views. -/
theorem recreateViews_fields (env : SessionEnv) :
    ∀ (ks : List Nat) (cur s' : Session), recreateViews env ks cur = .ok s' →
      s'.overlays = cur.overlays ∧ s'.invalidations = cur.invalidations ∧
      s'.views.length = cur.views.length
  | [], cur, s', h => by
    simp only [recreateViews, Outcome.ok.injEq] at h
    rw [← h]
    exact ⟨rfl, rfl, rfl⟩
  | k :: ks, cur, s', h => by
    rw [recreateViews] at h
    cases hk : cur.views[k]? with
    | none =>
      rw [hk] at h
      cases h
    | some e =>
      cases e with
      | none =>
        rw [hk] at h
        cases h
      | some view =>
        rw [hk] at h
        simp only [] at h
        cases hd : env.defineView view.folder "" with
        | error err =>
          rw [hd] at h
          exact recreateViews_fields env ks cur s' h
        | ok info =>
          rw [hd] at h
          simp only [] at h
          by_cases heq : env.viewDefinitionsEqual view.viewDefinition info = false
          · rw [if_pos heq] at h
            obtain ⟨h1, h2, h3⟩ := recreateViews_fields env ks _ s' h
            obtain ⟨u1, u2, u3, _⟩ := updateViewLocked_fields cur view info view.folder
            exact ⟨h1.trans u1, h2.trans u2, h3.trans u3⟩
          · rw [if_neg heq] at h
            exact recreateViews_fields env ks cur s' h

/-- On a session without `nil` view the re-evaluation loop returns and leaves
no `nil` view. -/
theorem recreateViews_no_nil (env : SessionEnv) :
    ∀ (ks : List Nat) (cur : Session), (∀ e ∈ cur.views, e ≠ none) →
      (∀ k ∈ ks, k < cur.views.length) →
      ∃ s', recreateViews env ks cur = .ok s' ∧ ∀ e ∈ s'.views, e ≠ none
  | [], cur, h, _ => ⟨cur, rfl, h⟩
  | k :: ks, cur, h, hks => by
    have hk : k < cur.views.length := hks k (List.mem_cons_self _ _)
    have hks' : ∀ j ∈ ks, j < cur.views.length := fun j hj => hks j (List.mem_cons_of_mem _ hj)
    rw [recreateViews, List.getElem?_eq_getElem hk]
    cases he : cur.views[k] with
    | none => exact absurd he (h _ (List.getElem_mem _))
    | some view =>
      simp only []
      cases hd : env.defineView view.folder "" with
      | error err => exact recreateViews_no_nil env ks cur h hks'
      | ok info =>
        simp only []
        by_cases heq : env.viewDefinitionsEqual view.viewDefinition info = false
        · rw [if_pos heq]
          obtain ⟨_, _, u3, u4⟩ := updateViewLocked_fields cur view info view.folder
          exact recreateViews_no_nil env ks _ (u4 h) (fun j hj => by rw [u3]; exact hks' j hj)
        · rw [if_neg heq]
          exact recreateViews_no_nil env ks cur h hks'

/-- The steps of a call of `DidModifyFiles` that returns a map. -/
theorem DidModifyFiles_steps (env : SessionEnv) (s s' : Session)
    (changes : List file.Modification) (m : ViewsToDiagnose)
    (h : DidModifyFiles env s changes = .ok (s', .ok m)) :
    ∃ overlays s₂ defs,
      updateOverlays env.toOverlayEnv s.overlays changes = (overlays, none) ∧
      (if checkViews env changes = true then
          recreateViews env (List.range s.views.length) { s with overlays := overlays }
        else .ok { s with overlays := overlays }) = .ok s₂ ∧
      collectDefinitions s₂.views = .ok defs ∧
      invalidateViews env (changedFiles env overlays changes) (checkViews env changes)
        s₂.views s₂ (collectBestViews env s₂.views defs changes (fun _ => none)) = .ok (s', m) := by
  unfold DidModifyFiles at h
  rcases hu : updateOverlays env.toOverlayEnv s.overlays changes with ⟨overlays, err⟩
  rw [hu] at h
  cases err with
  | some e => simp at h
  | none =>
    simp only [] at h
    refine ⟨overlays, ?_⟩
    cases hr : (if checkViews env changes = true then
        recreateViews env (List.range s.views.length) { s with overlays := overlays }
      else .ok { s with overlays := overlays }) with
    | panic =>
      rw [hr] at h
      cases h
    | ok s₂ =>
      rw [hr] at h
      simp only [] at h
      cases hc : collectDefinitions s₂.views with
      | panic =>
        rw [hc] at h
        cases h
      | ok defs =>
        rw [hc] at h
        simp only [] at h
        refine ⟨s₂, defs, rfl, rfl, hc, ?_⟩
        cases hi : invalidateViews env (changedFiles env overlays changes)
            (checkViews env changes) s₂.views s₂
            (collectBestViews env s₂.views defs changes (fun _ => none)) with
        | panic =>
          rw [hi] at h
          cases h
        | ok r =>
          rw [hi] at h
          obtain ⟨s₃, m₃⟩ := r
          simp only [Outcome.ok.injEq, Prod.mk.injEq, Except.ok.injEq] at h
          rw [h.1, h.2]

/-- The facts about a call of `DidModifyFiles` that returns a map: the overlays
are those that `updateOverlays` leaves, no view is `nil`, every view is
invalidated once, in order, and the lists of the map are those of the best views. -/
theorem DidModifyFiles_result (env : SessionEnv) (s s' : Session)
    (changes : List file.Modification) (m : ViewsToDiagnose)
    (h : DidModifyFiles env s changes = .ok (s', .ok m)) :
    updateOverlays env.toOverlayEnv s.overlays changes = (s'.overlays, none) ∧
    (if checkViews env changes = true then
        recreateViews env (List.range s.views.length) { s with overlays := s'.overlays }
      else .ok { s with overlays := s'.overlays }) =
      .ok { s' with invalidations := s.invalidations } ∧
    (∀ e ∈ s'.views, e ≠ none) ∧
    s'.invalidations = s.invalidations ++
      (s'.views.filterMap id).map (fun v => (v, changedFiles env s'.overlays changes)) ∧
    ∀ key, (m key).getD [] =
      ((collectBestViews env s'.views (s'.views.filterMap (Option.map (·.viewDefinition)))
        changes (fun _ => none)) key).getD [] := by
  obtain ⟨overlays, s₂, defs, h1, h2, h3, h4⟩ := DidModifyFiles_steps env s s' changes m h
  obtain ⟨hnil, hdefs⟩ := collectDefinitions_eq s₂.views defs h3
  obtain ⟨s₃, m₃, g1, g2, g3, g4, g5, g6, g7, g8⟩ :=
    invalidateViews_ok env (changedFiles env overlays changes) (checkViews env changes)
      s₂.views s₂ (collectBestViews env s₂.views defs changes (fun _ => none)) hnil
  rw [h4] at g1
  simp only [Outcome.ok.injEq, Prod.mk.injEq] at g1
  obtain ⟨e1, e2⟩ := g1
  subst e1 e2
  have hov : s₂.overlays = overlays ∧ s₂.invalidations = s.invalidations := by
    by_cases hc : checkViews env changes = true
    · rw [if_pos hc] at h2
      obtain ⟨f1, f2, _⟩ := recreateViews_fields env _ _ _ h2
      exact ⟨f1, f2⟩
    · rw [if_neg hc] at h2
      simp only [Outcome.ok.injEq] at h2
      rw [← h2]
      exact ⟨rfl, rfl⟩
  have hov' : s'.overlays = overlays := g4.trans hov.1
  have hs₂ : s₂ = { s' with invalidations := s.invalidations } := by
    rcases s₂ with ⟨a, b, c, d, e, f⟩
    rcases s' with ⟨a', b', c', d', e', f'⟩
    simp only [] at g2 g3 g4 g5 g6 hov
    simp only [Session.mk.injEq]
    exact ⟨g2.symm, g3.symm, g4.symm, g5.symm, g6.symm, hov.2⟩
  refine ⟨by rw [hov']; exact h1, by rw [hov', h2, hs₂, hov'], by rw [g2]; exact hnil, ?_, ?_⟩
  · rw [g7, hov.2, g2, hov']
  · intro key
    rw [g8 key, hdefs, g2]
/-- On a session without `nil` view, `DidModifyFiles` returns a map whenever
`updateOverlays` succeeds. -/
theorem DidModifyFiles_returns (env : SessionEnv) (s : Session)
    (changes : List file.Modification) (hnil : ∀ e ∈ s.views, e ≠ none)
    (hu : (updateOverlays env.toOverlayEnv s.overlays changes).2 = none) :
    ∃ s' m, DidModifyFiles env s changes = .ok (s', .ok m) := by
  unfold DidModifyFiles
  rcases hu' : updateOverlays env.toOverlayEnv s.overlays changes with ⟨overlays, err⟩
  rw [hu'] at hu
  simp only [] at hu
  subst hu
  simp only []
  have hrec : ∃ s₂, (if checkViews env changes = true then
        recreateViews env (List.range s.views.length) { s with overlays := overlays }
      else .ok { s with overlays := overlays }) = .ok s₂ ∧ ∀ e ∈ s₂.views, e ≠ none := by
    by_cases hc : checkViews env changes = true
    · rw [if_pos hc]
      exact recreateViews_no_nil env _ { s with overlays := overlays } hnil
        (fun k hk => List.mem_range.1 hk)
    · rw [if_neg hc]
      exact ⟨_, rfl, hnil⟩
  obtain ⟨s₂, h2, hnil₂⟩ := hrec
  rw [h2]
  simp only []
  obtain ⟨defs, h3⟩ := collectDefinitions_ok s₂.views hnil₂
  rw [h3]
  simp only []
  obtain ⟨s₃, m₃, h4, _⟩ :=
    invalidateViews_ok env (changedFiles env overlays changes) (checkViews env changes)
      s₂.views s₂ (collectBestViews env s₂.views defs changes (fun _ => none)) hnil₂
  rw [h4]
  exact ⟨s₃, m₃, rfl⟩

/-- A call of `DidModifyFiles` returns an error exactly when `updateOverlays`
returns it, and then the session is the one before the call with the overlays
that `updateOverlays` left. -/
theorem DidModifyFiles_error_iff (env : SessionEnv) (s s' : Session)
    (changes : List file.Modification) (e : UpdateError) :
    DidModifyFiles env s changes = .ok (s', .error e) ↔
      ((updateOverlays env.toOverlayEnv s.overlays changes).2 = some e ∧
        s' = { s with overlays := (updateOverlays env.toOverlayEnv s.overlays changes).1 }) := by
  unfold DidModifyFiles
  rcases hu : updateOverlays env.toOverlayEnv s.overlays changes with ⟨overlays, err⟩
  cases err with
  | some e' =>
    simp only [Outcome.ok.injEq, Prod.mk.injEq, Except.error.injEq, Option.some.injEq]
    constructor
    · rintro ⟨h1, h2⟩
      exact ⟨h2, h1.symm⟩
    · rintro ⟨h1, h2⟩
      exact ⟨h2.symm, h1⟩
  | none =>
    simp only []
    constructor
    · intro h
      split at h
      · cases h
      · split at h
        · cases h
        · split at h
          · cases h
          · simp at h
    · rintro ⟨h1, _⟩
      cases h1

/-- The session with no view is well-formed. -/
theorem Session.WF.empty (m : Option (DocumentURI → Option (Option View))) (overlays : Overlays)
    (index : Nat) (sh : List View) (inv : List (View × Files)) :
    Session.WF { views := [], viewMap := m, overlays := overlays, viewIndex := index,
                 shutdowns := sh, invalidations := inv } :=
  ⟨fun _ he => absurd he (List.not_mem_nil _), List.nodup_nil⟩

/-- A call of `NewView` keeps the session well-formed. -/
theorem NewView_wf (env : SessionEnv) (s s' : Session) (folder : Folder)
    (r : Except NewViewError View) (hwf : s.WF) (h : NewView env s folder = .ok (s', r)) :
    s'.WF := by
  have hcreate : ∀ s₁ r₁, NewView.create env s folder = (s₁, r₁) → s₁.WF := by
    intro s₁ r₁ hc
    unfold NewView.create at hc
    cases hd : env.defineView folder "" with
    | error e =>
      rw [hd] at hc
      simp only [Prod.mk.injEq] at hc
      rw [← hc.1]
      exact hwf
    | ok d =>
      rw [hd] at hc
      simp only [createView, Prod.mk.injEq] at hc
      rw [← hc.1]
      obtain ⟨h1, h2⟩ := hwf
      have hnew : (some { id := s.viewIndex + 1, folder := folder, viewDefinition := d } :
          Option View) ∉ s.views := by
        intro hmem
        obtain ⟨v, hv, hid⟩ := h1 _ hmem
        cases hv
        simp at hid
      refine ⟨?_, ?_⟩
      · intro e he
        simp only [List.mem_append, List.mem_singleton] at he
        rcases he with he | he
        · obtain ⟨v, hv, hid⟩ := h1 e he
          exact ⟨v, hv, Nat.le_succ_of_le hid⟩
        · exact ⟨_, he, Nat.le_refl _⟩
      · exact List.Nodup.append h2 (List.nodup_singleton _)
          (by
            intro a ha hb
            rw [List.mem_singleton.1 hb] at ha
            exact hnew ha)
  unfold NewView at h
  cases hs : env.Stat folder.Dir with
  | none =>
    rw [hs] at h
    simp only [Outcome.ok.injEq] at h
    exact hcreate s' r h
  | some inode1 =>
    rw [hs] at h
    simp only [] at h
    cases he : viewExists env inode1 s.views with
    | panic =>
      rw [he] at h
      cases h
    | ok b =>
      rw [he] at h
      cases b with
      | true =>
        simp only [Outcome.ok.injEq, Prod.mk.injEq] at h
        rw [← h.1]
        exact hwf
      | false =>
        simp only [Outcome.ok.injEq] at h
        exact hcreate s' r h

/-- A call of `DidModifyFiles` keeps the session well-formed. -/
theorem DidModifyFiles_wf (env : SessionEnv) (s s' : Session)
    (changes : List file.Modification) (r : Except UpdateError ViewsToDiagnose)
    (hwf : s.WF) (h : DidModifyFiles env s changes = .ok (s', r)) : s'.WF := by
  cases r with
  | error e =>
    rw [((DidModifyFiles_error_iff env s s' changes e).1 h).2]
    exact hwf
  | ok m =>
    have h2 := (DidModifyFiles_result env s s' changes m h).2.1
    by_cases hc : checkViews env changes = true
    · rw [if_pos hc] at h2
      have hwf' : Session.WF { s with overlays := s'.overlays } := hwf
      obtain ⟨s₂, g1, g2⟩ := recreateViews_ok env { s with overlays := s'.overlays }
        s.views.length 0 _ (by simp) (RecreateInv.at_start env _ hwf')
      rw [← List.range_eq_range'] at g1
      have g1' : recreateViews env (List.range s.views.length)
          { s with overlays := s'.overlays } = .ok s₂ := g1
      rw [h2] at g1'
      simp only [Outcome.ok.injEq] at g1'
      rw [← g1'] at g2
      exact g2.wf
    · rw [if_neg hc] at h2
      simp only [Outcome.ok.injEq, Session.mk.injEq] at h2
      refine ⟨?_, ?_⟩
      · rw [← h2.1, ← h2.2.2.2.1]
        exact hwf.1
      · rw [← h2.1]
        exact hwf.2

theorem updateOverlays_error_kinds (env : OverlayEnv) :
    ∀ (changes : List file.Modification) (overlays : Overlays) (e : UpdateError),
      (updateOverlays env overlays changes).2 = some e →
      ∃ c ∈ changes, e = .modifyingUnopened c.URI ∨ e = .changedOnSave c.URI
  | [], overlays, e, h => by simp [updateOverlays] at h
  | c :: rest, overlays, e, h => by
    rw [updateOverlays] at h
    cases hs : updateOverlay env overlays c with
    | error e' =>
      rw [hs] at h
      simp only [Option.some.injEq] at h
      subst h
      exact ⟨c, List.mem_cons_self _ _, updateOverlay_error_kinds env overlays c e' hs⟩
    | ok overlays' =>
      rw [hs] at h
      obtain ⟨c', hc', hk⟩ := updateOverlays_error_kinds env rest overlays' e h
      exact ⟨c', List.mem_cons_of_mem _ hc', hk⟩

theorem changedFiles_foldl (env : SessionEnv) (overlays : Overlays) (u : DocumentURI) :
    ∀ (changes : List file.Modification) (init : Files),
      (changes.foldl
        (fun changed c => fun u' =>
          if u' = c.URI then some (env.ReadFile overlays c.URI) else changed u')
        init u).isSome = true ↔ ((init u).isSome = true ∨ ∃ c ∈ changes, c.URI = u)
  | [], init => by simp
  | c :: rest, init => by
    rw [List.foldl_cons, changedFiles_foldl env overlays u rest]
    by_cases hu : u = c.URI
    · simp [hu]
    · have hu' : ¬ c.URI = u := fun h => hu h.symm
      simp [hu, hu']

/-- The keys of the map `changed` are the URIs of the batch. -/
theorem changedFiles_keys (env : SessionEnv) (overlays : Overlays)
    (changes : List file.Modification) (u : DocumentURI) :
    (changedFiles env overlays changes u).isSome = true ↔ ∃ c ∈ changes, c.URI = u := by
  unfold changedFiles
  rw [changedFiles_foldl env overlays u changes]
  simp

/-- C16 (amended): the first loop of `DidModifyFiles` sets `checkViews` exactly
when the batch contains a change of a go.work file that is a Save or is flagged
on-disk, or a change of a go.mod file whose action is neither Change nor Save;
a call that returns a map has run the re-evaluation loop over the views when
`checkViews` is set, and has left the views untouched before invalidating them
when it is not. -/
theorem checkViews_iff (env : SessionEnv) (changes : List file.Modification) :
    (checkViews env changes = true ↔
      ∃ c ∈ changes,
        (env.isGoWork c.URI = true ∧ (c.Action = .Save ∨ c.OnDisk = true)) ∨
        (env.isGoMod c.URI = true ∧ c.Action ≠ .Change ∧ c.Action ≠ .Save)) ∧
    (∀ s s' m, DidModifyFiles env s changes = .ok (s', .ok m) →
      (if checkViews env changes = true then
          recreateViews env (List.range s.views.length) { s with overlays := s'.overlays }
        else .ok { s with overlays := s'.overlays }) =
        .ok { s' with invalidations := s.invalidations }) :=
  ⟨checkViews_eq_true_iff env changes,
   fun s s' m h => (DidModifyFiles_result env s s' changes m h).2.1⟩

theorem checkViews_iff_witness :
    (checkViews exampleSessionEnv [exampleChangeOf "file:///a/go.work" .Change true] = true ↔
      ∃ c ∈ [exampleChangeOf "file:///a/go.work" .Change true],
        (exampleSessionEnv.isGoWork c.URI = true ∧ (c.Action = .Save ∨ c.OnDisk = true)) ∨
        (exampleSessionEnv.isGoMod c.URI = true ∧ c.Action ≠ .Change ∧ c.Action ≠ .Save)) ∧
    (∀ s s' m, DidModifyFiles exampleSessionEnv s
        [exampleChangeOf "file:///a/go.work" .Change true] = .ok (s', .ok m) →
      (if checkViews exampleSessionEnv [exampleChangeOf "file:///a/go.work" .Change true] = true
        then recreateViews exampleSessionEnv (List.range s.views.length)
          { s with overlays := s'.overlays }
        else .ok { s with overlays := s'.overlays }) =
        .ok { s' with invalidations := s.invalidations }) :=
  checkViews_iff exampleSessionEnv [exampleChangeOf "file:///a/go.work" .Change true]

theorem checkViews_false_of_no_go_files (env : SessionEnv) (changes : List file.Modification)
    (hno : ∀ c ∈ changes, env.isGoWork c.URI = false ∧ env.isGoMod c.URI = false) :
    checkViews env changes = false := by
  cases hc : checkViews env changes with
  | false => rfl
  | true =>
    obtain ⟨c, hmem, ht⟩ := (checkViews_eq_true_iff env changes).1 hc
    obtain ⟨h1, h2⟩ := hno c hmem
    unfold triggersCheckViews at ht
    rw [h1, h2] at ht
    simp at ht

/-- C15: when no URI of the batch is a go.work or go.mod file, `DidModifyFiles`
leaves `s.views` as it was, whether it returns a map or an error; and on a
session without `nil` view it does return. -/
theorem DidModifyFiles_views_unchanged (env : SessionEnv) (s : Session)
    (changes : List file.Modification)
    (hno : ∀ c ∈ changes, env.isGoWork c.URI = false ∧ env.isGoMod c.URI = false) :
    (∀ s' r, DidModifyFiles env s changes = .ok (s', r) → s'.views = s.views) ∧
    ((∀ e ∈ s.views, e ≠ none) → ∃ s' r, DidModifyFiles env s changes = .ok (s', r)) := by
  have hc := checkViews_false_of_no_go_files env changes hno
  constructor
  · intro s' r h
    cases r with
    | error e =>
      rw [((DidModifyFiles_error_iff env s s' changes e).1 h).2]
    | ok m =>
      have h2 := (DidModifyFiles_result env s s' changes m h).2.1
      rw [hc] at h2
      simp only [Bool.false_eq_true, if_false, Outcome.ok.injEq, Session.mk.injEq] at h2
      exact h2.1.symm
  · intro hnil
    cases hu : (updateOverlays env.toOverlayEnv s.overlays changes).2 with
    | none =>
      obtain ⟨s', m, h⟩ := DidModifyFiles_returns env s changes hnil hu
      exact ⟨s', .ok m, h⟩
    | some e =>
      exact ⟨_, .error e, (DidModifyFiles_error_iff env s _ changes e).2 ⟨hu, rfl⟩⟩

theorem DidModifyFiles_views_unchanged_witness :
    (∀ c ∈ [exampleChangeOf "file:///c/y" .Open false, exampleChangeOf "file:///c/d/y" .Open true],
      exampleSessionEnv.isGoWork c.URI = false ∧ exampleSessionEnv.isGoMod c.URI = false) ∧
    (∀ s' r, DidModifyFiles exampleSessionEnv exampleSession
        [exampleChangeOf "file:///c/y" .Open false, exampleChangeOf "file:///c/d/y" .Open true]
        = .ok (s', r) → s'.views = exampleSession.views) ∧
    ((∀ e ∈ exampleSession.views, e ≠ none) →
      ∃ s' r, DidModifyFiles exampleSessionEnv exampleSession
        [exampleChangeOf "file:///c/y" .Open false, exampleChangeOf "file:///c/d/y" .Open true]
        = .ok (s', r)) :=
  ⟨by decide,
   DidModifyFiles_views_unchanged exampleSessionEnv exampleSession
    [exampleChangeOf "file:///c/y" .Open false, exampleChangeOf "file:///c/d/y" .Open true]
    (by decide)⟩

/-- C20 fails for a change of a file that was never opened: `DidModifyFiles`
returns the error of `updateOverlays` although the session has views, and the
Open that follows in the batch is not processed. -/
theorem DidModifyFiles_unopened_change_returns_error :
    exampleSession.views = [some exampleViewA, some exampleViewC] ∧
    ∃ s', DidModifyFiles exampleSessionEnv exampleSession
        [exampleChangeOf "file:///c/y" .Change false, exampleChangeOf "file:///c/z" .Open false]
        = .ok (s', .error (.modifyingUnopened "file:///c/y")) ∧
      s'.overlays "file:///c/z" = none :=
  ⟨rfl, _, rfl, by decide⟩

/-- C20 (amended): `DidModifyFiles` returns an error exactly when
`updateOverlays` returns one, and it returns that error: a change other than
an Open of a URI without overlay, or a Save whose text differs from the
overlay. The session is then left as it was but for the overlays, which keep
the changes made before the failing one. When `updateOverlays` succeeds on a
session without `nil` view, `DidModifyFiles` returns a map, also when the
session has no view at all. -/
theorem DidModifyFiles_error_iff_updateOverlays (env : SessionEnv) (s : Session)
    (changes : List file.Modification) :
    (∀ e, (∃ s', DidModifyFiles env s changes = .ok (s', .error e)) ↔
      (updateOverlays env.toOverlayEnv s.overlays changes).2 = some e) ∧
    (∀ s' e, DidModifyFiles env s changes = .ok (s', .error e) →
      s' = { s with overlays := (updateOverlays env.toOverlayEnv s.overlays changes).1 } ∧
      ∃ c ∈ changes, e = .modifyingUnopened c.URI ∨ e = .changedOnSave c.URI) ∧
    ((updateOverlays env.toOverlayEnv s.overlays changes).2 = none →
      (∀ e ∈ s.views, e ≠ none) →
      ∃ s' m, DidModifyFiles env s changes = .ok (s', .ok m)) := by
  refine ⟨?_, ?_, ?_⟩
  · intro e
    constructor
    · rintro ⟨s', h⟩
      exact ((DidModifyFiles_error_iff env s s' changes e).1 h).1
    · intro h
      exact ⟨_, (DidModifyFiles_error_iff env s _ changes e).2 ⟨h, rfl⟩⟩
  · intro s' e h
    obtain ⟨h1, h2⟩ := (DidModifyFiles_error_iff env s s' changes e).1 h
    exact ⟨h2, updateOverlays_error_kinds env.toOverlayEnv changes s.overlays e h1⟩
  · intro hu hnil
    exact DidModifyFiles_returns env s changes hnil hu

theorem DidModifyFiles_error_iff_updateOverlays_witness :
    (∀ e, (∃ s', DidModifyFiles exampleSessionEnv { exampleSession with views := [] }
        [exampleChangeOf "file:///c/y" .Open false] = .ok (s', .error e)) ↔
      (updateOverlays exampleSessionEnv.toOverlayEnv Overlays.empty
        [exampleChangeOf "file:///c/y" .Open false]).2 = some e) ∧
    (∀ s' e, DidModifyFiles exampleSessionEnv { exampleSession with views := [] }
        [exampleChangeOf "file:///c/y" .Open false] = .ok (s', .error e) →
      s' = { exampleSession with
             views := [],
             overlays := (updateOverlays exampleSessionEnv.toOverlayEnv Overlays.empty
               [exampleChangeOf "file:///c/y" .Open false]).1 } ∧
      ∃ c ∈ [exampleChangeOf "file:///c/y" .Open false],
        e = .modifyingUnopened c.URI ∨ e = .changedOnSave c.URI) ∧
    ((updateOverlays exampleSessionEnv.toOverlayEnv Overlays.empty
        [exampleChangeOf "file:///c/y" .Open false]).2 = none →
      (∀ e ∈ ([] : List (Option View)), e ≠ none) →
      ∃ s' m, DidModifyFiles exampleSessionEnv { exampleSession with views := [] }
        [exampleChangeOf "file:///c/y" .Open false] = .ok (s', .ok m)) :=
  DidModifyFiles_error_iff_updateOverlays exampleSessionEnv { exampleSession with views := [] }
    [exampleChangeOf "file:///c/y" .Open false]

/-- C17: when `DidModifyFiles` returns a map, no view of `s.views` is `nil` and
the calls of `Invalidate` made by the call are one for each entry of `s.views`
as it is after the re-evaluation, in order, each with the map `changed`, whose
keys are exactly the URIs of the batch; on a well-formed session no view is
listed twice, so that each view is invalidated exactly once. -/
theorem DidModifyFiles_invalidates_every_view (env : SessionEnv) (s s' : Session)
    (changes : List file.Modification) (m : ViewsToDiagnose)
    (h : DidModifyFiles env s changes = .ok (s', .ok m)) :
    (∀ e ∈ s'.views, e ≠ none) ∧
    s'.invalidations = s.invalidations ++
      (s'.views.filterMap id).map (fun v => (v, changedFiles env s'.overlays changes)) ∧
    (∀ u, (changedFiles env s'.overlays changes u).isSome = true ↔ ∃ c ∈ changes, c.URI = u) ∧
    (s.WF → s'.views.Nodup) := by
  obtain ⟨h1, h2, h3, h4, _⟩ := DidModifyFiles_result env s s' changes m h
  refine ⟨h3, h4, changedFiles_keys env s'.overlays changes, ?_⟩
  intro hwf
  by_cases hc : checkViews env changes = true
  · rw [if_pos hc] at h2
    have hwf' : Session.WF { s with overlays := s'.overlays } := hwf
    obtain ⟨s₂, g1, g2⟩ := recreateViews_ok env { s with overlays := s'.overlays }
      s.views.length 0 _ (by simp) (RecreateInv.at_start env _ hwf')
    rw [List.range_eq_range', h2] at *
    simp only [Outcome.ok.injEq] at g1
    rw [← g1] at g2
    exact g2.wf.2
  · rw [if_neg hc] at h2
    simp only [Outcome.ok.injEq, Session.mk.injEq] at h2
    rw [← h2.1]
    exact hwf.2

theorem DidModifyFiles_invalidates_every_view_witness :
    ∃ s' m,
    DidModifyFiles exampleSessionEnv exampleSession
      [exampleChangeOf "file:///a/go.mod" .Create true] = .ok (s', .ok m) ∧
    s'.views = [some { id := 3, folder := exampleFolder "file:///a",
                       viewDefinition := exampleModuleView "file:///a" },
                some exampleViewC] ∧
    (∀ e ∈ s'.views, e ≠ none) ∧
    s'.invalidations = exampleSession.invalidations ++
      (s'.views.filterMap id).map
        (fun v => (v, changedFiles exampleSessionEnv s'.overlays
          [exampleChangeOf "file:///a/go.mod" .Create true])) ∧
    (∀ u, (changedFiles exampleSessionEnv s'.overlays
        [exampleChangeOf "file:///a/go.mod" .Create true] u).isSome = true ↔
      ∃ c ∈ [exampleChangeOf "file:///a/go.mod" .Create true], c.URI = u) ∧
    (exampleSession.WF → s'.views.Nodup) :=
  ⟨_, _, rfl, by decide,
   DidModifyFiles_invalidates_every_view exampleSessionEnv exampleSession _
    [exampleChangeOf "file:///a/go.mod" .Create true] _ rfl⟩

/-- The lists that the loop over the changes adds to the map: under each key,
in the order of the batch, the URIs of the changes collected under that key. -/
theorem collectBestViews_getD (env : SessionEnv) (views : List (Option View))
    (defs : List viewDefinition) (key : Option View) :
    ∀ (changes : List file.Modification) (m : ViewsToDiagnose),
      ((collectBestViews env views defs changes m) key).getD [] =
        (m key).getD [] ++
          (changes.filter
            (fun c => decide (bestViewKey env views defs c.URI = some key))).map (·.URI)
  | [], m => by simp [collectBestViews]
  | c :: rest, m => by
    rw [collectBestViews]
    cases hb : bestViewKey env views defs c.URI with
    | none =>
      simp only []
      rw [collectBestViews_getD env views defs key rest m]
      simp [hb]
    | some v =>
      simp only []
      rw [collectBestViews_getD env views defs key rest (m.append v c.URI)]
      by_cases hk : key = v
      · subst hk
        simp [ViewsToDiagnose.append, hb]
      · have hk' : ¬ v = key := fun h => hk h.symm
        simp [ViewsToDiagnose.append, hb, hk, hk']

/-- A definition returned by `bestViewDefForURI` is an element of the list. -/
theorem bestViewDefForURI_mem (env : ViewEnv) (uri : DocumentURI)
    (views : List viewDefinition) (v : viewDefinition)
    (h : bestViewDefForURI env uri views = .ok (some v)) : v ∈ views := by
  obtain ⟨modURI, hmod⟩ := bestViewDefForURI_some_lookup env uri views v h
  obtain ⟨r, hr, hpost⟩ := bestViewDefForURI_post env uri modURI views hmod
  rw [h] at hr
  cases hr
  exact (hpost.sound v rfl).1

/-- The definitions that the pointers of the slice refer to are the
definitions that the slice was collected from. -/
theorem pointersFrom_target : ∀ (defs : List viewDefinition) (i₀ : Nat),
    (pointersFrom i₀ defs).map (·.target) = defs
  | [], _ => rfl
  | d :: defs, i₀ => by
    rw [pointersFrom, List.map_cons, pointersFrom_target defs (i₀ + 1)]

/-- The pointers of the slice are those of the indices from `i₀` on, in order. -/
theorem pointersFrom_index : ∀ (defs : List viewDefinition) (i₀ : Nat),
    (pointersFrom i₀ defs).map (·.index) = List.range' i₀ defs.length
  | [], _ => rfl
  | d :: defs, i₀ => by
    rw [pointersFrom, List.map_cons, pointersFrom_index defs (i₀ + 1)]
    rfl

/-- The loop on pointers returns a pointer to the definition that the loop on
definitions returns. -/
theorem bestViewPtrLoop_target (env : ViewEnv) (uri dir modURI : DocumentURI) :
    ∀ (views : List viewDefinitionPtr) (b : BestViewPtrs),
      (bestViewPtrLoop env uri dir modURI views b).map (·.target) =
        bestViewLoop env uri dir modURI (views.map (·.target)) b.targets
  | [], b => by
    obtain ⟨g, p, a, m⟩ := b
    cases m <;> cases p <;> cases g <;> cases a <;> rfl
  | view :: views, b => by
    have ih := bestViewPtrLoop_target env uri dir modURI views
    have hg : b.targets.goPackagesView = b.goPackagesView.map (·.target) := rfl
    have hp : b.targets.gopathView = b.gopathView.map (·.target) := rfl
    rw [List.map_cons, bestViewPtrLoop, bestViewLoop]
    cases view.target.typ <;> simp only [hg, hp] <;> split_ifs <;>
      first
        | rfl
        | exact ih b
        | exact ih { b with goPackagesView := some view }
        | exact ih { b with gopathView := some view }
        | exact ih { b with adHocView := some view }
        | exact ih { b with modView := some view }

/-- The function `bestViewDefForURI` on pointers returns a pointer to the
definition that `bestViewDefForURI` returns on the definitions, with the same
error. -/
theorem bestViewDefPtrForURI_target (env : ViewEnv) (uri : DocumentURI)
    (views : List viewDefinitionPtr) :
    (match bestViewDefPtrForURI env uri views with
     | .error err => .error err
     | .ok p => .ok (p.map (·.target))) =
      bestViewDefForURI env uri (views.map (·.target)) := by
  unfold bestViewDefPtrForURI bestViewDefForURI
  rw [List.length_map]
  split_ifs
  · rfl
  · simp only []
    cases env.findRootPattern (env.Dir uri) "go.mod" with
    | error err => rfl
    | ok modURI =>
      simp only []
      rw [bestViewPtrLoop_target]
      rfl

/-- The pointer that `bestViewDefForURI` returns is an element of the slice. -/
theorem bestViewPtrLoop_mem (env : ViewEnv) (uri dir modURI : DocumentURI) :
    ∀ (views : List viewDefinitionPtr) (b : BestViewPtrs) (p : viewDefinitionPtr),
      bestViewPtrLoop env uri dir modURI views b = some p →
      p ∈ views ∨ b.goPackagesView = some p ∨ b.gopathView = some p ∨
        b.adHocView = some p ∨ b.modView = some p
  | [], b, p, h => by
    obtain ⟨g, q, a, m⟩ := b
    right
    simp only [bestViewPtrLoop, BestViewPtrs.result] at h
    cases m <;> cases q <;> cases g <;> simp_all
  | view :: views, b, p, h => by
    rw [bestViewPtrLoop] at h
    have ih := bestViewPtrLoop_mem env uri dir modURI views
    have hb : ∀ q : viewDefinitionPtr, some view = some q → q ∈ view :: views := by
      intro q hq
      cases hq
      exact List.mem_cons_self _ _
    have keep : bestViewPtrLoop env uri dir modURI views b = some p →
        p ∈ view :: views ∨ b.goPackagesView = some p ∨ b.gopathView = some p ∨
          b.adHocView = some p ∨ b.modView = some p := by
      intro h'
      rcases ih b p h' with h1 | h1
      · exact Or.inl (List.mem_cons_of_mem _ h1)
      · exact Or.inr h1
    cases ht : view.target.typ <;> rw [ht] at h <;> simp only [] at h <;> split_ifs at h
    all_goals first
      | exact keep h
      | (left; exact hb p h)
      | (rcases ih _ p h with h1 | h1 | h1 | h1 | h1
         · exact Or.inl (List.mem_cons_of_mem _ h1)
         all_goals first
           | exact Or.inl (hb p h1)
           | exact Or.inr (Or.inl h1)
           | exact Or.inr (Or.inr (Or.inl h1))
           | exact Or.inr (Or.inr (Or.inr (Or.inl h1)))
           | exact Or.inr (Or.inr (Or.inr (Or.inr h1))))

/-- Two views with equal go.work definitions have two pointers: for a file of
the workspace `bestViewDefForURI` returns the pointer of the first of them,
and `viewLookup` gives the first view, not the second. -/
theorem bestViewKey_first_of_equal_definitions :
    bestViewKey exampleSessionEnv
      [some { id := 1, folder := exampleFolder "file:///a", viewDefinition := exampleWorkView },
       some { id := 2, folder := exampleFolder "file:///b", viewDefinition := exampleWorkView }]
      [exampleWorkView, exampleWorkView] "file:///w/go.work"
    = some (some { id := 1, folder := exampleFolder "file:///a",
                   viewDefinition := exampleWorkView }) := by
  decide

/-- C18 fails on the code: for a batch that names `file:///c/y` twice, an Open
and then a Change, the loop over the changes appends the URI to the list of
its best view once for each of the two changes, so that the list of the view
holds the URI twice and not exactly once. -/
theorem DidModifyFiles_uri_listed_twice :
    ∃ s' m, DidModifyFiles exampleSessionEnv exampleSession
        [exampleChangeOf "file:///c/y" .Open false, exampleChangeOf "file:///c/y" .Change false]
        = .ok (s', .ok m) ∧
      bestViewKey exampleSessionEnv s'.views
        (s'.views.filterMap (Option.map (·.viewDefinition))) "file:///c/y"
        = some (some exampleViewC) ∧
      m (some exampleViewC) = some ["file:///c/y", "file:///c/y"] ∧
      m (some exampleViewA) = none :=
  ⟨_, _, rfl, by decide, by decide, by decide⟩

/-- C19: on a well-formed session, when `updateOverlays` succeeds and
`checkViews` is set, `DidModifyFiles` returns and leaves as many views as
before; a view whose recomputed definition is `viewDefinitionsEqual` to its
own stays at its index, as does a view whose definition cannot be recomputed;
a view whose recomputed definition differs is replaced at its index by a view
with the recomputed definition and the same folder, created by this call. -/
theorem DidModifyFiles_recreates_changed_views (env : SessionEnv) (s : Session)
    (changes : List file.Modification) (hwf : s.WF)
    (hu : (updateOverlays env.toOverlayEnv s.overlays changes).2 = none)
    (hcheck : checkViews env changes = true) :
    ∃ s' m, DidModifyFiles env s changes = .ok (s', .ok m) ∧
      s'.views.length = s.views.length ∧
      ∀ (k : Nat) (v : View), s.views[k]? = some (some v) →
        (∀ info, env.defineView v.folder "" = .ok info →
          env.viewDefinitionsEqual v.viewDefinition info = true →
          s'.views[k]? = some (some v)) ∧
        (∀ info, env.defineView v.folder "" = .ok info →
          env.viewDefinitionsEqual v.viewDefinition info = false →
          ∃ v', s'.views[k]? = some (some v') ∧ v'.viewDefinition = info ∧
            v'.folder = v.folder ∧ s.viewIndex < v'.id ∧ some v' ∉ s.views) ∧
        (∀ err, env.defineView v.folder "" = .error err → s'.views[k]? = some (some v)) := by
  have hnil : ∀ e ∈ s.views, e ≠ none := by
    intro e he
    obtain ⟨v, hv, _⟩ := hwf.1 e he
    rw [hv]
    simp
  obtain ⟨s', m, h⟩ := DidModifyFiles_returns env s changes hnil hu
  refine ⟨s', m, h, ?_⟩
  have h2 := (DidModifyFiles_result env s s' changes m h).2.1
  rw [if_pos hcheck] at h2
  have hwf' : Session.WF { s with overlays := s'.overlays } := hwf
  obtain ⟨s₂, g1, g2⟩ := recreateViews_ok env { s with overlays := s'.overlays }
    s.views.length 0 _ (by simp) (RecreateInv.at_start env _ hwf')
  rw [← List.range_eq_range'] at g1
  have g1' : recreateViews env (List.range s.views.length) { s with overlays := s'.overlays }
      = .ok s₂ := g1
  rw [h2] at g1'
  simp only [Outcome.ok.injEq] at g1'
  rw [← g1'] at g2
  have hlen : s'.views.length = s.views.length := g2.length
  refine ⟨hlen, ?_⟩
  intro k v hk
  have hklt : k < s.views.length := (List.getElem?_eq_some.1 hk).1
  obtain ⟨e, he, hrec⟩ := g2.done k v hklt hk
  have he' : s'.views[k]? = some e := he
  have hrec' : recreated env s.viewIndex v e := hrec
  unfold recreated at hrec'
  refine ⟨?_, ?_, ?_⟩
  · intro info hd heq
    rw [hd] at hrec'
    simp only [heq, if_true] at hrec'
    rw [he', hrec']
  · intro info hd heq
    rw [hd] at hrec'
    simp only [heq, Bool.false_eq_true, if_false] at hrec'
    obtain ⟨v', h1, h2', h3, h4⟩ := hrec'
    refine ⟨v', by rw [he', h1], h2', h3, h4, ?_⟩
    intro hmem
    obtain ⟨w, hw, hid⟩ := hwf.1 _ hmem
    cases hw
    omega
  · intro err hd
    rw [hd] at hrec'
    rw [he', hrec']

theorem DidModifyFiles_recreates_changed_views_witness :
    exampleSession.WF ∧
    (updateOverlays exampleSessionEnv.toOverlayEnv exampleSession.overlays
      [exampleChangeOf "file:///a/go.mod" .Create true]).2 = none ∧
    checkViews exampleSessionEnv [exampleChangeOf "file:///a/go.mod" .Create true] = true ∧
    ∃ s' m, DidModifyFiles exampleSessionEnv exampleSession
        [exampleChangeOf "file:///a/go.mod" .Create true] = .ok (s', .ok m) ∧
      s'.views.length = exampleSession.views.length ∧
      ∀ (k : Nat) (v : View), exampleSession.views[k]? = some (some v) →
        (∀ info, exampleSessionEnv.defineView v.folder "" = .ok info →
          exampleSessionEnv.viewDefinitionsEqual v.viewDefinition info = true →
          s'.views[k]? = some (some v)) ∧
        (∀ info, exampleSessionEnv.defineView v.folder "" = .ok info →
          exampleSessionEnv.viewDefinitionsEqual v.viewDefinition info = false →
          ∃ v', s'.views[k]? = some (some v') ∧ v'.viewDefinition = info ∧
            v'.folder = v.folder ∧ exampleSession.viewIndex < v'.id ∧
            some v' ∉ exampleSession.views) ∧
        (∀ err, exampleSessionEnv.defineView v.folder "" = .error err →
          s'.views[k]? = some (some v)) :=
  ⟨⟨by decide, by decide⟩, by decide, by decide,
   DidModifyFiles_recreates_changed_views exampleSessionEnv exampleSession
    [exampleChangeOf "file:///a/go.mod" .Create true] ⟨by decide, by decide⟩
    (by decide) (by decide)⟩

/-! ## The remaining session operations -/

theorem updateOverlays_append (env : OverlayEnv) :
    ∀ (pre : List file.Modification) (overlays overlays' : Overlays)
      (rest : List file.Modification),
      updateOverlays env overlays pre = (overlays', none) →
      updateOverlays env overlays (pre ++ rest) = updateOverlays env overlays' rest
  | [], overlays, overlays', rest, h => by
    simp only [updateOverlays, Prod.mk.injEq, and_true] at h
    rw [List.nil_append, h]
  | c :: pre, overlays, overlays', rest, h => by
    rw [updateOverlays] at h
    rw [List.cons_append, updateOverlays]
    cases hs : updateOverlay env overlays c with
    | error e =>
      rw [hs] at h
      simp at h
    | ok o₁ =>
      rw [hs] at h
      exact updateOverlays_append env pre o₁ overlays' rest h

theorem updateOverlays_error_split (env : OverlayEnv) :
    ∀ (changes : List file.Modification) (overlays overlays' : Overlays) (e : UpdateError),
      updateOverlays env overlays changes = (overlays', some e) →
      ∃ pre c post, changes = pre ++ c :: post ∧
        updateOverlays env overlays pre = (overlays', none) ∧
        updateOverlay env overlays' c = .error e
  | [], overlays, overlays', e, h => by simp [updateOverlays] at h
  | c :: rest, overlays, overlays', e, h => by
    rw [updateOverlays] at h
    cases hs : updateOverlay env overlays c with
    | error e' =>
      rw [hs] at h
      simp only [Prod.mk.injEq, Option.some.injEq] at h
      refine ⟨[], c, rest, rfl, ?_, ?_⟩
      · rw [← h.1]
        rfl
      · rw [← h.1, ← h.2]
        exact hs
    | ok o₁ =>
      rw [hs] at h
      obtain ⟨pre, c', post, h1, h2, h3⟩ := updateOverlays_error_split env rest o₁ overlays' e h
      refine ⟨c :: pre, c', post, by rw [h1]; rfl, ?_, h3⟩
      rw [updateOverlays, hs]
      exact h2

/-- C28: `updateOverlays` returns an error exactly when the batch splits into
changes that are all applied, a change at which one iteration fails with that
error, and the changes after it; the overlay map it leaves is the one after
the changes before the failing one, whatever the later changes are. -/
theorem updateOverlays_applies_prefix (env : OverlayEnv) (overlays overlays' : Overlays)
    (changes : List file.Modification) (e : UpdateError) :
    updateOverlays env overlays changes = (overlays', some e) ↔
      ∃ pre c post, changes = pre ++ c :: post ∧
        updateOverlays env overlays pre = (overlays', none) ∧
        updateOverlay env overlays' c = .error e := by
  constructor
  · exact updateOverlays_error_split env changes overlays overlays' e
  · rintro ⟨pre, c, post, h1, h2, h3⟩
    rw [h1, updateOverlays_append env pre overlays overlays' (c :: post) h2, updateOverlays, h3]

/-- The loop of `NewView` over the views returns `true` only for a view whose
folder has the same file as `inode1`. -/
theorem viewExists_true (env : SessionEnv) (inode1 : Nat) :
    ∀ (views : List (Option View)), viewExists env inode1 views = .ok true →
      ∃ v, some v ∈ views ∧ ∃ inode2, env.Stat v.folder.Dir = some inode2 ∧
        env.SameFile inode1 inode2 = true
  | [], h => by simp [viewExists] at h
  | none :: _, h => by simp [viewExists] at h
  | some v :: rest, h => by
    rw [viewExists] at h
    cases hs : env.Stat v.folder.Dir with
    | none =>
      rw [hs] at h
      obtain ⟨w, hw, hrest⟩ := viewExists_true env inode1 rest h
      exact ⟨w, List.mem_cons_of_mem _ hw, hrest⟩
    | some inode2 =>
      rw [hs] at h
      simp only [] at h
      by_cases hf : env.SameFile inode1 inode2 = true
      · exact ⟨v, List.mem_cons_self _ _, inode2, hs, hf⟩
      · rw [if_neg hf] at h
        obtain ⟨w, hw, hrest⟩ := viewExists_true env inode1 rest h
        exact ⟨w, List.mem_cons_of_mem _ hw, hrest⟩

/-- On a list without `nil` view the loop of `NewView` returns, and it returns
`true` when some view has a folder with the same file as `inode1`. -/
theorem viewExists_ok (env : SessionEnv) (inode1 : Nat) :
    ∀ (views : List (Option View)), (∀ e ∈ views, e ≠ none) →
      ∃ b, viewExists env inode1 views = .ok b ∧
        ((∃ v, some v ∈ views ∧ ∃ inode2, env.Stat v.folder.Dir = some inode2 ∧
          env.SameFile inode1 inode2 = true) → b = true)
  | [], _ => ⟨false, rfl, by simp⟩
  | none :: _, h => absurd rfl (h none (List.mem_cons_self _ _))
  | some v :: rest, h => by
    obtain ⟨b, hb, hrest⟩ := viewExists_ok env inode1 rest
      (fun x hx => h x (List.mem_cons_of_mem _ hx))
    have hskip : (¬ ∃ inode2, env.Stat v.folder.Dir = some inode2 ∧
        env.SameFile inode1 inode2 = true) →
        viewExists env inode1 rest = viewExists env inode1 (some v :: rest) →
        ∃ b, viewExists env inode1 (some v :: rest) = .ok b ∧
          ((∃ w, some w ∈ some v :: rest ∧ ∃ inode2, env.Stat w.folder.Dir = some inode2 ∧
            env.SameFile inode1 inode2 = true) → b = true) := by
      intro hno heq
      refine ⟨b, by rw [← heq]; exact hb, ?_⟩
      rintro ⟨w, hw, hw2⟩
      rcases List.mem_cons.1 hw with hw | hw
      · simp only [Option.some.injEq] at hw
        rw [hw] at hw2
        exact absurd hw2 hno
      · exact hrest ⟨w, hw, hw2⟩
    cases hs : env.Stat v.folder.Dir with
    | none =>
      apply hskip
      · rintro ⟨i, hi, _⟩
        rw [hs] at hi
        cases hi
      · rw [viewExists, hs]
    | some inode2 =>
      by_cases hf : env.SameFile inode1 inode2 = true
      · exact ⟨true, by simp [viewExists, hs, hf], fun _ => rfl⟩
      · apply hskip
        · rintro ⟨i, hi, hi2⟩
          rw [hs] at hi
          simp only [Option.some.injEq] at hi
          rw [← hi] at hi2
          exact hf hi2
        · rw [viewExists, hs]
          simp [hf]

theorem NewView_create_not_exists (env : SessionEnv) (s s' : Session) (folder : Folder) :
    NewView.create env s folder ≠ (s', .error .ErrViewExists) := by
  unfold NewView.create
  cases env.defineView folder "" <;> simp [createView]

/-- C22: on a session without `nil` view, `NewView` returns `ErrViewExists`
exactly when `os.Stat` succeeds on the new folder and on the folder of some
existing view and `os.SameFile` holds of the two results; whenever it returns
`ErrViewExists` the session, and so `s.views` and `viewMap`, is as before. -/
theorem NewView_exists_iff (env : SessionEnv) (s : Session) (folder : Folder)
    (hnil : ∀ e ∈ s.views, e ≠ none) :
    (NewView env s folder = .ok (s, .error .ErrViewExists) ↔
      ∃ inode1, env.Stat folder.Dir = some inode1 ∧
        ∃ v, some v ∈ s.views ∧ ∃ inode2, env.Stat v.folder.Dir = some inode2 ∧
          env.SameFile inode1 inode2 = true) ∧
    (∀ s', NewView env s folder = .ok (s', .error .ErrViewExists) → s' = s) := by
  have hinv : ∀ s', NewView env s folder = .ok (s', .error .ErrViewExists) →
      s' = s ∧ ∃ inode1, env.Stat folder.Dir = some inode1 ∧
        viewExists env inode1 s.views = .ok true := by
    intro s' h
    unfold NewView at h
    cases hs : env.Stat folder.Dir with
    | none =>
      rw [hs] at h
      simp only [Outcome.ok.injEq] at h
      exact absurd h (NewView_create_not_exists env s s' folder)
    | some inode1 =>
      rw [hs] at h
      simp only [] at h
      cases he : viewExists env inode1 s.views with
      | panic =>
        rw [he] at h
        cases h
      | ok b =>
        rw [he] at h
        cases b with
        | true =>
          simp only [Outcome.ok.injEq, Prod.mk.injEq, and_true] at h
          exact ⟨h.symm, inode1, rfl, he⟩
        | false =>
          simp only [Outcome.ok.injEq] at h
          exact absurd h (NewView_create_not_exists env s s' folder)
  refine ⟨⟨?_, ?_⟩, fun s' h => (hinv s' h).1⟩
  · intro h
    obtain ⟨_, inode1, h1, h2⟩ := hinv s h
    exact ⟨inode1, h1, viewExists_true env inode1 s.views h2⟩
  · rintro ⟨inode1, h1, hex⟩
    obtain ⟨b, hb, hb2⟩ := viewExists_ok env inode1 s.views hnil
    have := hb2 hex
    subst this
    simp [NewView, h1, hb]

theorem NewView_exists_iff_witness :
    (∀ e ∈ exampleSession.views, e ≠ none) ∧
    (NewView exampleSessionEnv exampleSession (exampleFolder "file:///a-link")
        = .ok (exampleSession, .error .ErrViewExists) ↔
      ∃ inode1, exampleSessionEnv.Stat (exampleFolder "file:///a-link").Dir = some inode1 ∧
        ∃ v, some v ∈ exampleSession.views ∧
          ∃ inode2, exampleSessionEnv.Stat v.folder.Dir = some inode2 ∧
            exampleSessionEnv.SameFile inode1 inode2 = true) ∧
    (∀ s', NewView exampleSessionEnv exampleSession (exampleFolder "file:///a-link")
        = .ok (s', .error .ErrViewExists) → s' = exampleSession) ∧
    NewView exampleSessionEnv exampleSession (exampleFolder "file:///a-link")
      = .ok (exampleSession, .error .ErrViewExists) ∧
    (∃ s' v, NewView exampleSessionEnv exampleSession (exampleFolder "file:///missing")
      = .ok (s', .ok v)) :=
  ⟨by decide,
   (NewView_exists_iff exampleSessionEnv exampleSession (exampleFolder "file:///a-link")
    (by decide)).1,
   (NewView_exists_iff exampleSessionEnv exampleSession (exampleFolder "file:///a-link")
    (by decide)).2,
   rfl, ⟨_, _, rfl⟩⟩
/-- On a list without `nil` view, the loop of `RemoveView` finds nothing when no
view has the folder `dir`, and otherwise finds the first view with that folder. -/
theorem findViewByDir_ok (dir : DocumentURI) :
    ∀ (views : List (Option View)), (∀ e ∈ views, e ≠ none) →
      (findViewByDir dir views = .ok none ∧ ∀ v, some v ∈ views → v.folder.Dir ≠ dir) ∨
      (∃ pre v post, views = pre ++ some v :: post ∧ v.folder.Dir = dir ∧
        (∀ w, some w ∈ pre → w.folder.Dir ≠ dir) ∧ findViewByDir dir views = .ok (some v))
  | [], _ => Or.inl ⟨rfl, by simp⟩
  | none :: _, h => absurd rfl (h none (List.mem_cons_self _ _))
  | some v :: rest, h => by
    by_cases hd : v.folder.Dir = dir
    · exact Or.inr ⟨[], v, rest, rfl, hd, by simp, by simp [findViewByDir, hd]⟩
    · rcases findViewByDir_ok dir rest (fun x hx => h x (List.mem_cons_of_mem _ hx)) with
        ⟨h1, h2⟩ | ⟨pre, w, post, h1, h2, h3, h4⟩
      · refine Or.inl ⟨by simp [findViewByDir, hd, h1], ?_⟩
        intro u hu
        rcases List.mem_cons.1 hu with hu | hu
        · simp only [Option.some.injEq] at hu
          rw [hu]
          exact hd
        · exact h2 u hu
      · refine Or.inr ⟨some v :: pre, w, post, by rw [h1]; rfl, h2, ?_,
          by simp [findViewByDir, hd, h4]⟩
        intro u hu
        rcases List.mem_cons.1 hu with hu | hu
        · simp only [Option.some.injEq] at hu
          rw [hu]
          exact hd
        · exact h3 u hu

theorem indexOfView_append (v : View) :
    ∀ (pre post : List (Option View)), some v ∉ pre →
      indexOfView v (pre ++ some v :: post) = some pre.length
  | [], post, _ => by simp [indexOfView]
  | x :: pre, post, h => by
    have hx : x ≠ some v := fun hx => h (hx ▸ List.mem_cons_self _ _)
    have hpre : some v ∉ pre := fun hm => h (List.mem_cons_of_mem _ hm)
    simp [indexOfView, hx, indexOfView_append v pre post hpre]

/-- The function `removeElement` at the index of `x` in `pre ++ x :: post`
leaves the elements of `pre` and `post`: the last element takes the place of `x`. -/
theorem removeElement_append (pre post : List (Option View)) (x : Option View) :
    ∃ r, removeElement (pre ++ x :: post) pre.length = .ok r ∧ r.Perm (pre ++ post) := by
  rcases List.eq_nil_or_concat post with hp | ⟨init, z, hp⟩
  · subst hp
    refine ⟨pre, ?_, by simp⟩
    simp [removeElement]
  · rw [List.concat_eq_append] at hp
    subst hp
    refine ⟨pre ++ z :: init, ?_, ?_⟩
    · have hlen : (pre ++ x :: (init ++ [z])).length - 1 = (pre ++ x :: init).length := by
        simp only [List.length_append, List.length_cons, List.length_nil]
        omega
      have hl : pre ++ x :: (init ++ [z]) = (pre ++ x :: init) ++ [z] := by simp
      unfold removeElement
      rw [hlen]
      rw [hl, List.getElem?_concat_length]
      simp only []
      have hlt : pre.length < ((pre ++ x :: init) ++ [z]).length := by
        simp only [List.length_append, List.length_cons, List.length_nil]
        omega
      rw [if_pos hlt]
      have hset : ((pre ++ x :: init) ++ [z]).set pre.length z = (pre ++ z :: init) ++ [z] := by
        simp [List.set_append]
      rw [hset]
      have : (pre ++ x :: init).length = (pre ++ z :: init).length := by simp
      rw [this, List.take_left']
      rfl
    · have : pre ++ z :: init = pre ++ ([z] ++ init) := by simp
      rw [this]
      exact List.Perm.append_left pre List.perm_append_comm

/-- On a session without `nil` view, `RemoveView` returns `false` and leaves
the session as it is when no view has the folder `dir`; otherwise it shuts the
first such view down, returns `true` and leaves the other views. -/
theorem RemoveView_eq (s : Session) (dir : DocumentURI) (hnil : ∀ e ∈ s.views, e ≠ none) :
    (RemoveView s dir = .ok (s, false) ∧ ∀ v, some v ∈ s.views → v.folder.Dir ≠ dir) ∨
    (∃ pre v post r, s.views = pre ++ some v :: post ∧ v.folder.Dir = dir ∧
      (∀ w, some w ∈ pre → w.folder.Dir ≠ dir) ∧ r.Perm (pre ++ post) ∧
      RemoveView s dir =
        .ok ({ views := r, viewMap := emptyViewMap, overlays := s.overlays,
               viewIndex := s.viewIndex, shutdowns := s.shutdowns ++ [v],
               invalidations := s.invalidations }, true)) := by
  rcases findViewByDir_ok dir s.views hnil with ⟨h1, h2⟩ | ⟨pre, v, post, h1, h2, h3, h4⟩
  · exact Or.inl ⟨by simp [RemoveView, h1], h2⟩
  · have hpre : some v ∉ pre := fun hm => h3 v hm h2
    obtain ⟨r, hr, hperm⟩ := removeElement_append pre post none
    refine Or.inr ⟨pre, v, post, r, h1, h2, h3, hperm, ?_⟩
    have hidx : indexOfView v s.views = some pre.length := by
      rw [h1]
      exact indexOfView_append v pre post hpre
    have hset : s.views.set pre.length none = pre ++ none :: post := by
      rw [h1]
      simp
    simp [RemoveView, h4, dropView, hidx, hset, hr]

/-- C23: on a session without `nil` view, `RemoveView(dir)` returns, and it
returns `true` exactly when some view of `s.views` has the folder `dir`; when
it returns `true`, the first view with that folder is shut down, and only
that one, and `s.views` holds the views before and after it, and no other;
when it returns `false` the session is as before. -/
theorem RemoveView_removes_first (s : Session) (dir : DocumentURI)
    (hnil : ∀ e ∈ s.views, e ≠ none) :
    (∃ s' b, RemoveView s dir = .ok (s', b)) ∧
    ((∃ s', RemoveView s dir = .ok (s', true)) ↔
      ∃ v, some v ∈ s.views ∧ v.folder.Dir = dir) ∧
    (∀ s', RemoveView s dir = .ok (s', true) →
      ∃ pre v post, s.views = pre ++ some v :: post ∧ v.folder.Dir = dir ∧
        (∀ w, some w ∈ pre → w.folder.Dir ≠ dir) ∧
        s'.shutdowns = s.shutdowns ++ [v] ∧ s'.views.Perm (pre ++ post)) ∧
    (∀ s', RemoveView s dir = .ok (s', false) → s' = s) := by
  rcases RemoveView_eq s dir hnil with ⟨h1, h2⟩ | ⟨pre, v, post, r, h1, h2, h3, h4, h5⟩
  · refine ⟨⟨_, _, h1⟩, ⟨?_, ?_⟩, ?_, ?_⟩
    · rintro ⟨s', h⟩
      rw [h1] at h
      simp at h
    · rintro ⟨v, hv, hd⟩
      exact absurd hd (h2 v hv)
    · intro s' h
      rw [h1] at h
      simp at h
    · intro s' h
      rw [h1] at h
      simp only [Outcome.ok.injEq, Prod.mk.injEq, and_true] at h
      exact h.symm
  · refine ⟨⟨_, _, h5⟩, ⟨fun _ => ⟨v, by rw [h1]; simp, h2⟩, fun _ => ⟨_, h5⟩⟩, ?_, ?_⟩
    · intro s' h
      rw [h5] at h
      simp only [Outcome.ok.injEq, Prod.mk.injEq, and_true] at h
      rw [← h]
      exact ⟨pre, v, post, h1, h2, h3, rfl, h4⟩
    · intro s' h
      rw [h5] at h
      simp at h

theorem RemoveView_removes_first_witness :
    (∀ e ∈ exampleSession.views, e ≠ none) ∧
    (∃ s', RemoveView exampleSession "file:///a" = .ok (s', true) ∧
      s'.views = [some exampleViewC] ∧ s'.shutdowns = [exampleViewA]) ∧
    (∃ s' b, RemoveView exampleSession "file:///a" = .ok (s', b)) ∧
    ((∃ s', RemoveView exampleSession "file:///a" = .ok (s', true)) ↔
      ∃ v, some v ∈ exampleSession.views ∧ v.folder.Dir = "file:///a") ∧
    (∀ s', RemoveView exampleSession "file:///a" = .ok (s', true) →
      ∃ pre v post, exampleSession.views = pre ++ some v :: post ∧ v.folder.Dir = "file:///a" ∧
        (∀ w, some w ∈ pre → w.folder.Dir ≠ "file:///a") ∧
        s'.shutdowns = exampleSession.shutdowns ++ [v] ∧ s'.views.Perm (pre ++ post)) ∧
    (∀ s', RemoveView exampleSession "file:///a" = .ok (s', false) → s' = exampleSession) :=
  ⟨by decide, ⟨_, rfl, rfl, rfl⟩,
   RemoveView_removes_first exampleSession "file:///a" (by decide)⟩
theorem indexOfView_lt (v : View) :
    ∀ (l : List (Option View)) (i : Nat), indexOfView v l = some i → i < l.length
  | [], i, h => by simp [indexOfView] at h
  | x :: xs, i, h => by
    rw [indexOfView] at h
    by_cases hx : x = some v
    · rw [if_pos hx] at h
      simp only [Option.some.injEq] at h
      rw [← h]
      simp
    · rw [if_neg hx] at h
      cases hr : indexOfView v xs with
      | none =>
        rw [hr] at h
        simp at h
      | some j =>
        rw [hr] at h
        simp only [Option.map_some', Option.some.injEq] at h
        have := indexOfView_lt v xs j hr
        rw [← h]
        simp only [List.length_cons]
        omega

/-- The views that a call of `NewView` leaves are those before it, with the new
view appended when one is created. -/
theorem NewView_views (env : SessionEnv) (s s' : Session) (folder : Folder)
    (r : Except NewViewError View) (h : NewView env s folder = .ok (s', r)) :
    s'.views = s.views ∨ ∃ v, s'.views = s.views ++ [some v] := by
  have hcreate : ∀ s₁ r₁, NewView.create env s folder = (s₁, r₁) →
      s₁.views = s.views ∨ ∃ v, s₁.views = s.views ++ [some v] := by
    intro s₁ r₁ hc
    unfold NewView.create at hc
    cases hd : env.defineView folder "" with
    | error e =>
      rw [hd] at hc
      simp only [Prod.mk.injEq] at hc
      rw [← hc.1]
      exact Or.inl rfl
    | ok d =>
      rw [hd] at hc
      simp only [createView, Prod.mk.injEq] at hc
      rw [← hc.1]
      exact Or.inr ⟨_, rfl⟩
  unfold NewView at h
  cases hs : env.Stat folder.Dir with
  | none =>
    rw [hs] at h
    simp only [Outcome.ok.injEq] at h
    exact hcreate s' r h
  | some inode1 =>
    rw [hs] at h
    simp only [] at h
    cases he : viewExists env inode1 s.views with
    | panic =>
      rw [he] at h
      cases h
    | ok b =>
      rw [he] at h
      cases b with
      | true =>
        simp only [Outcome.ok.injEq, Prod.mk.injEq] at h
        rw [← h.1]
        exact Or.inl rfl
      | false =>
        simp only [Outcome.ok.injEq] at h
        exact hcreate s' r h

/-- On a session without `nil` view, `NewView` returns. -/
theorem NewView_returns (env : SessionEnv) (s : Session) (folder : Folder)
    (hnil : ∀ e ∈ s.views, e ≠ none) : ∃ s' r, NewView env s folder = .ok (s', r) := by
  unfold NewView
  cases hs : env.Stat folder.Dir with
  | none => exact ⟨_, _, rfl⟩
  | some inode1 =>
    obtain ⟨b, hb, _⟩ := viewExists_ok env inode1 s.views hnil
    simp only [hb]
    cases b
    · exact ⟨_, _, rfl⟩
    · exact ⟨_, _, rfl⟩

/-- C30: when `s.views` holds no `nil` view, `NewView`, `RemoveView` and
`DidModifyFiles` return and leave no `nil` view, and `updateViewLocked` leaves
none either; the slot that `dropView` sets to `nil` holds the new view when
`updateViewLocked` is done, and `RemoveView` passes it to `removeElement`. -/
theorem views_without_nil (env : SessionEnv) (s : Session) (folder : Folder)
    (dir : DocumentURI) (view : View) (d : viewDefinition)
    (changes : List file.Modification) (hnil : ∀ e ∈ s.views, e ≠ none) :
    ((∃ s' r, NewView env s folder = .ok (s', r)) ∧
      ∀ s' r, NewView env s folder = .ok (s', r) → ∀ e ∈ s'.views, e ≠ none) ∧
    ((∃ s' b, RemoveView s dir = .ok (s', b)) ∧
      ∀ s' b, RemoveView s dir = .ok (s', b) → ∀ e ∈ s'.views, e ≠ none) ∧
    (∀ e ∈ (updateViewLocked s view d folder).1.views, e ≠ none) ∧
    (∀ i, (dropView s view).2 = some i →
      (dropView s view).1.views[i]? = some none ∧
      (updateViewLocked s view d folder).1.views[i]? =
        some (some { id := s.viewIndex + 1, folder := folder, viewDefinition := d })) ∧
    ((∃ s' r, DidModifyFiles env s changes = .ok (s', r)) ∧
      ∀ s' r, DidModifyFiles env s changes = .ok (s', r) → ∀ e ∈ s'.views, e ≠ none) := by
  refine ⟨⟨NewView_returns env s folder hnil, ?_⟩, ⟨?_, ?_⟩,
    (updateViewLocked_fields s view d folder).2.2.2 hnil, ?_, ⟨?_, ?_⟩⟩
  · intro s' r h e he
    rcases NewView_views env s s' folder r h with hv | ⟨v, hv⟩
    · rw [hv] at he
      exact hnil e he
    · rw [hv] at he
      rcases List.mem_append.1 he with he | he
      · exact hnil e he
      · rw [List.mem_singleton.1 he]
        simp
  · rcases RemoveView_eq s dir hnil with ⟨h1, _⟩ | ⟨_, _, _, _, _, _, _, _, h5⟩
    · exact ⟨_, _, h1⟩
    · exact ⟨_, _, h5⟩
  · intro s' b h e he
    rcases RemoveView_eq s dir hnil with ⟨h1, _⟩ | ⟨pre, v, post, r, h1, _, _, h4, h5⟩
    · rw [h1] at h
      simp only [Outcome.ok.injEq, Prod.mk.injEq] at h
      rw [← h.1] at he
      exact hnil e he
    · rw [h5] at h
      simp only [Outcome.ok.injEq, Prod.mk.injEq] at h
      rw [← h.1] at he
      have hmem : e ∈ pre ++ post := h4.subset he
      apply hnil e
      rw [h1]
      rcases List.mem_append.1 hmem with hm | hm
      · exact List.mem_append_left _ hm
      · exact List.mem_append_right _ (List.mem_cons_of_mem _ hm)
  · intro i hi
    cases hidx : indexOfView view s.views with
    | none =>
      simp [dropView, hidx] at hi
    | some j =>
      simp only [dropView, hidx, Option.some.injEq] at hi
      subst hi
      have hlt := indexOfView_lt view s.views j hidx
      constructor
      · simp only [dropView, hidx]
        exact List.getElem?_set_self hlt
      · simp only [updateViewLocked, dropView, hidx, createView, List.set_set]
        exact List.getElem?_set_self hlt
  · cases hu : (updateOverlays env.toOverlayEnv s.overlays changes).2 with
    | none =>
      obtain ⟨s', m, h⟩ := DidModifyFiles_returns env s changes hnil hu
      exact ⟨s', .ok m, h⟩
    | some e =>
      exact ⟨_, .error e, (DidModifyFiles_error_iff env s _ changes e).2 ⟨hu, rfl⟩⟩
  · intro s' r h
    cases r with
    | error e =>
      rw [((DidModifyFiles_error_iff env s s' changes e).1 h).2]
      exact hnil
    | ok m => exact (DidModifyFiles_result env s s' changes m h).2.2.1

theorem views_without_nil_witness :
    (∀ e ∈ exampleSession.views, e ≠ none) ∧
    ((∃ s' r, NewView exampleSessionEnv exampleSession (exampleFolder "file:///b")
        = .ok (s', r)) ∧
      ∀ s' r, NewView exampleSessionEnv exampleSession (exampleFolder "file:///b")
        = .ok (s', r) → ∀ e ∈ s'.views, e ≠ none) ∧
    ((∃ s' b, RemoveView exampleSession "file:///a" = .ok (s', b)) ∧
      ∀ s' b, RemoveView exampleSession "file:///a" = .ok (s', b) →
        ∀ e ∈ s'.views, e ≠ none) ∧
    (∀ e ∈ (updateViewLocked exampleSession exampleViewA (exampleModuleView "file:///a")
        (exampleFolder "file:///b")).1.views, e ≠ none) ∧
    (∀ i, (dropView exampleSession exampleViewA).2 = some i →
      (dropView exampleSession exampleViewA).1.views[i]? = some none ∧
      (updateViewLocked exampleSession exampleViewA (exampleModuleView "file:///a")
          (exampleFolder "file:///b")).1.views[i]? =
        some (some { id := exampleSession.viewIndex + 1, folder := exampleFolder "file:///b",
                     viewDefinition := exampleModuleView "file:///a" })) ∧
    ((∃ s' r, DidModifyFiles exampleSessionEnv exampleSession
        [exampleChangeOf "file:///a/go.mod" .Create true] = .ok (s', r)) ∧
      ∀ s' r, DidModifyFiles exampleSessionEnv exampleSession
        [exampleChangeOf "file:///a/go.mod" .Create true] = .ok (s', r) →
        ∀ e ∈ s'.views, e ≠ none) :=
  ⟨by decide,
   views_without_nil exampleSessionEnv exampleSession (exampleFolder "file:///b") "file:///a"
    exampleViewA (exampleModuleView "file:///a")
    [exampleChangeOf "file:///a/go.mod" .Create true] (by decide)⟩

/-- When `viewOfLocked` returns `(nil, nil)`, `ResetView` dereferences the `nil` view. -/
theorem ResetView_of_nil_view (env : SessionEnv) (s s₁ : Session) (uri : DocumentURI)
    (h : viewOfLocked env s uri = .ok (s₁, .ok none)) : ResetView env s uri = .panic := by
  simp [ResetView, h]

/-- C29 fails: in the session without views `viewOfLocked` finds no view for
`file:///c/y` and returns `(nil, nil)`, and `ResetView` then evaluates
`v.viewDefinition` on the `nil` view, which panics; it returns no error. -/
theorem ResetView_nil_view_panics :
    (∃ s₁, viewOfLocked exampleSessionEnv exampleEmptySession "file:///c/y"
      = .ok (s₁, .ok none)) ∧
    ResetView exampleSessionEnv exampleEmptySession "file:///c/y" = .panic :=
  ⟨⟨_, rfl⟩, rfl⟩

/-- A call of `viewOfLocked` changes nothing in the session but `viewMap`. -/
theorem viewOfLocked_fields (env : SessionEnv) (s s₁ : Session) (uri : DocumentURI)
    (r : Except String (Option View)) (h : viewOfLocked env s uri = .ok (s₁, r)) :
    s₁.views = s.views ∧ s₁.shutdowns = s.shutdowns := by
  unfold viewOfLocked at h
  split at h
  · simp only [Outcome.ok.injEq, Prod.mk.injEq] at h
    rw [← h.1]
    exact ⟨rfl, rfl⟩
  · split at h
    · cases h
    · split at h
      · simp only [Outcome.ok.injEq, Prod.mk.injEq] at h
        rw [← h.1]
        exact ⟨rfl, rfl⟩
      · simp only [] at h
        split at h
        · simp only [Outcome.ok.injEq, Prod.mk.injEq] at h
          rw [← h.1]
          exact ⟨rfl, rfl⟩
        · simp only [Outcome.ok.injEq, Prod.mk.injEq] at h
          rw [← h.1]
          exact ⟨rfl, rfl⟩

/-- The first loop of the fall-back ends without a `return` when the context is
not cancelled and, for every view that is not shut down, the file is not the
builtin file and all its packages are command-line-arguments packages that are
not standalone. -/
theorem firstLoadedView_none (env : SnapshotEnv) (s : Session) (uri : DocumentURI)
    (hctx : env.ctxErr = none) :
    ∀ (views : List (Option View)), (∀ e ∈ views, e ≠ none) →
      (∀ v, some v ∈ views → ¬ s.isShutDown v →
        env.IsBuiltin v uri = false ∧
        ∀ id ∈ env.packageIDs v uri,
          env.IsCommandLineArguments id = true ∧ env.Standalone v id = false) →
      firstLoadedView env s uri views = .ok none
  | [], _, _ => rfl
  | none :: _, h, _ => absurd rfl (h none (List.mem_cons_self _ _))
  | some v :: rest, h, hreal => by
    have ih := firstLoadedView_none env s uri hctx rest
      (fun x hx => h x (List.mem_cons_of_mem _ hx))
      (fun w hw => hreal w (List.mem_cons_of_mem _ hw))
    rw [firstLoadedView]
    by_cases hs : s.isShutDown v
    · rw [if_pos hs]
      exact ih
    · rw [if_neg hs, hctx]
      obtain ⟨hb, hp⟩ := hreal v (List.mem_cons_self _ _) hs
      have hl : loadedRealPackage env v uri = false := by
        unfold loadedRealPackage
        rw [List.any_eq_false]
        intro id hid
        obtain ⟨h1, h2⟩ := hp id hid
        simp [h1, h2]
      simp only [hb, hl, Bool.false_eq_true, if_false]
      exact ih

/-- The second loop of the fall-back returns the first view that is not shut down. -/
theorem firstValidView_append (s : Session) (v : View) (post : List (Option View))
    (hv : ¬ s.isShutDown v) :
    ∀ (pre : List (Option View)), (∀ e ∈ pre, e ≠ none) →
      (∀ w, some w ∈ pre → s.isShutDown w) →
      firstValidView s (pre ++ some v :: post) = .ok (some v)
  | [], _, _ => by simp [firstValidView, hv]
  | none :: _, h, _ => absurd rfl (h none (List.mem_cons_self _ _))
  | some w :: pre, h, hs => by
    have hw : s.isShutDown w := hs w (List.mem_cons_self _ _)
    rw [List.cons_append, firstValidView, if_pos hw]
    exact firstValidView_append s v post hv pre
      (fun x hx => h x (List.mem_cons_of_mem _ hx))
      (fun u hu => hs u (List.mem_cons_of_mem _ hu))

/-- A list without `nil` view either holds only views that are shut down, and
then the second loop of the fall-back finds none, or it has a first view that
is not shut down. -/
theorem firstValidView_cases (s : Session) :
    ∀ (views : List (Option View)), (∀ e ∈ views, e ≠ none) →
      ((∀ w, some w ∈ views → s.isShutDown w) ∧ firstValidView s views = .ok none) ∨
      (∃ pre v post, views = pre ++ some v :: post ∧ (∀ e ∈ pre, e ≠ none) ∧
        (∀ w, some w ∈ pre → s.isShutDown w) ∧ ¬ s.isShutDown v)
  | [], _ => Or.inl ⟨by simp, rfl⟩
  | none :: _, h => absurd rfl (h none (List.mem_cons_self _ _))
  | some v :: rest, h => by
    by_cases hv : s.isShutDown v
    · rcases firstValidView_cases s rest (fun x hx => h x (List.mem_cons_of_mem _ hx)) with
        ⟨h1, h2⟩ | ⟨pre, w, post, h1, h2, h3, h4⟩
      · refine Or.inl ⟨?_, by rw [firstValidView, if_pos hv]; exact h2⟩
        intro u hu
        rcases List.mem_cons.1 hu with hu | hu
        · simp only [Option.some.injEq] at hu
          rw [hu]
          exact hv
        · exact h1 u hu
      · refine Or.inr ⟨some v :: pre, w, post, by rw [h1]; rfl, ?_, ?_, h4⟩
        · intro e he
          rcases List.mem_cons.1 he with he | he
          · rw [he]
            simp
          · exact h2 e he
        · intro u hu
          rcases List.mem_cons.1 hu with hu | hu
          · simp only [Option.some.injEq] at hu
            rw [hu]
            exact hv
          · exact h3 u hu
    · exact Or.inr ⟨[], v, rest, rfl, by simp, by simp, hv⟩

/-- C21 fails on the code: no view is associated with `file:///x/main.go`, the
context is not cancelled and every package loaded for the file is a
command-line-arguments package, so that no view has loaded a real package for
it; yet `SnapshotOf` returns the snapshot of the second view, for which the
package is standalone, and not that of the first view that is not shut down. -/
theorem SnapshotOf_standalone_package_view :
    exampleSnapshotEnv.ctxErr = none ∧
    (∃ s₁, viewOfLocked exampleSnapshotEnv.toSessionEnv exampleSession "file:///x/main.go"
      = .ok (s₁, .ok none)) ∧
    (∀ v, ∀ id ∈ exampleSnapshotEnv.packageIDs v "file:///x/main.go",
      exampleSnapshotEnv.IsCommandLineArguments id = true) ∧
    firstValidView exampleSession exampleSession.views = .ok (some exampleViewA) ∧
    (∃ s', SnapshotOf exampleSnapshotEnv exampleSession "file:///x/main.go"
      = .ok (s', .ok exampleViewC)) := by
  refine ⟨rfl, ⟨_, rfl⟩, ?_, rfl, ⟨_, rfl⟩⟩
  intro v id hid
  simp only [exampleSnapshotEnv] at hid ⊢
  split at hid
  · simp only [List.mem_singleton] at hid
    rw [hid]
    decide
  · simp at hid

/-- The second loop of the fall-back of `SnapshotOf`: when the context is not
cancelled, `s.views` holds no `nil` view, `viewOfLocked` returns `(nil, nil)`
and the first loop returns for no view (for every view that is not shut down,
the file is not the builtin file and every package loaded for it is a
command-line-arguments package that is not standalone), `SnapshotOf` returns
the current snapshot of the first view of `s.views` that is not shut down, and
it returns `errNoViews` exactly when every view of `s.views` is shut down. -/
theorem SnapshotOf_first_valid_view (env : SnapshotEnv) (s s₁ : Session) (uri : DocumentURI)
    (hnil : ∀ e ∈ s.views, e ≠ none) (hctx : env.ctxErr = none)
    (hview : viewOfLocked env.toSessionEnv s uri = .ok (s₁, .ok none))
    (hreal : ∀ v, some v ∈ s.views → ¬ s.isShutDown v →
      env.IsBuiltin v uri = false ∧
      ∀ id ∈ env.packageIDs v uri,
        env.IsCommandLineArguments id = true ∧ env.Standalone v id = false) :
    (∀ pre v post, s.views = pre ++ some v :: post → (∀ w, some w ∈ pre → s.isShutDown w) →
      ¬ s.isShutDown v → SnapshotOf env s uri = .ok (s₁, .ok v)) ∧
    (SnapshotOf env s uri = .ok (s₁, .error .errNoViews) ↔
      ∀ w, some w ∈ s.views → s.isShutDown w) := by
  obtain ⟨hviews, hshut⟩ := viewOfLocked_fields env.toSessionEnv s s₁ uri _ hview
  have hsd : ∀ w, s₁.isShutDown w ↔ s.isShutDown w := by
    intro w
    unfold Session.isShutDown
    rw [hshut]
  have hnil₁ : ∀ e ∈ s₁.views, e ≠ none := by rw [hviews]; exact hnil
  have hloaded : firstLoadedView env s₁ uri s₁.views = .ok none := by
    apply firstLoadedView_none env s₁ uri hctx s₁.views hnil₁
    intro v hv hns
    rw [hviews] at hv
    exact hreal v hv (fun h => hns ((hsd v).2 h))
  have hsnap : SnapshotOf env s uri =
      (match firstValidView s₁ s₁.views with
       | .panic => .panic
       | .ok (some v) => .ok (s₁, .ok v)
       | .ok none => .ok (s₁, .error .errNoViews)) := by
    simp only [SnapshotOf, hview, SnapshotOf.fallback, hloaded]
  have hfirst : ∀ pre v post, s.views = pre ++ some v :: post →
      (∀ w, some w ∈ pre → s.isShutDown w) → ¬ s.isShutDown v →
      SnapshotOf env s uri = .ok (s₁, .ok v) := by
    intro pre v post hsplit hpre hv
    have hpn : ∀ e ∈ pre, e ≠ none := by
      intro e he
      apply hnil e
      rw [hsplit]
      exact List.mem_append_left _ he
    have := firstValidView_append s₁ v post (fun h => hv ((hsd v).1 h)) pre hpn
      (fun w hw => (hsd w).2 (hpre w hw))
    rw [hsnap, hviews, hsplit, this]
  refine ⟨hfirst, ?_⟩
  rcases firstValidView_cases s s.views hnil with ⟨h1, _⟩ | ⟨pre, v, post, h1, _, h3, h4⟩
  · constructor
    · intro _
      exact h1
    · intro _
      rcases firstValidView_cases s₁ s₁.views hnil₁ with ⟨_, g2⟩ | ⟨pre, v, post, g1, _, _, g4⟩
      · rw [hsnap, g2]
      · have hv : some v ∈ s.views := by
          rw [← hviews, g1]
          simp
        exact absurd ((hsd v).2 (h1 v hv)) g4
  · constructor
    · intro h
      rw [hfirst pre v post h1 h3 h4] at h
      simp at h
    · intro h
      have hv : some v ∈ s.views := by
        rw [h1]
        simp
      exact absurd (h v hv) h4

end cache

/-! ## Method stubs: parameter names and `lastSection` -/

namespace stubmethods

/-- C24 fails on the code: for the call `r.Missing(param2, param2)`, whose
arguments are identifiers of a valid type, `collectParams` names both
parameters `param2` and the loop of `Emit` writes `param2` twice: the name
`param2` that replaces the second, conflicting name is not looked up in `seen`. -/
theorem Emit_writes_duplicate_param_names :
    (collectParams exampleParamEnv ["param2", "param2"]).map (fun p => p.name)
      = ["param2", "param2"] ∧
    Emit.paramNames exampleParamEnv "r" ["param2", "param2"] = ["param2", "param2"] ∧
    ¬ (Emit.paramNames exampleParamEnv "r" ["param2", "param2"]).Nodup := by
  decide

/-- The loop of `lastSection` keeps the value found before when no rune of
the rest is upper case. -/
theorem lastUpperIndex_no_upper (IsUpper : Char → Bool) :
    ∀ (l : List Char) (i : Nat) (last : Int), (∀ x ∈ l, IsUpper x = false) →
      lastUpperIndex IsUpper l i last = last
  | [], _, _, _ => rfl
  | r :: rest, i, last, h => by
    rw [lastUpperIndex, h r (List.mem_cons_self _ _)]
    simp only [Bool.false_eq_true, if_false]
    exact lastUpperIndex_no_upper IsUpper rest (i + 1) last
      (fun x hx => h x (List.mem_cons_of_mem _ hx))

/-- The loop of `lastSection` ends with the position of an upper-case rune
after which no rune is upper case. -/
theorem lastUpperIndex_append (IsUpper : Char → Bool) (c : Char) (suf : List Char)
    (hc : IsUpper c = true) (hsuf : ∀ x ∈ suf, IsUpper x = false) :
    ∀ (pre : List Char) (i : Nat) (last : Int),
      lastUpperIndex IsUpper (pre ++ c :: suf) i last = ((i + pre.length : Nat) : Int)
  | [], i, last => by
    rw [List.nil_append, lastUpperIndex, if_pos hc,
      lastUpperIndex_no_upper IsUpper suf (i + 1) _ hsuf]
    simp
  | r :: pre, i, last => by
    rw [List.cons_append, lastUpperIndex, lastUpperIndex_append IsUpper c suf hc hsuf pre (i + 1)]
    simp only [List.length_cons]
    congr 1
    omega

/-- C27: `lastSection` returns the lower-cased suffix of the identifier that
starts at its last upper-case rune, and the identifier itself when it has no
upper-case rune. -/
theorem lastSection_last_upper (IsUpper : Char → Bool) (ToLower : String → String)
    (identName : String) :
    (∀ (pre : List Char) (c : Char) (suf : List Char), identName.data = pre ++ c :: suf →
      IsUpper c = true → (∀ x ∈ suf, IsUpper x = false) →
      lastSection IsUpper ToLower identName = ToLower ⟨c :: suf⟩) ∧
    ((∀ x ∈ identName.data, IsUpper x = false) →
      lastSection IsUpper ToLower identName = identName) := by
  constructor
  · intro pre c suf hsplit hc hsuf
    unfold lastSection
    simp only [hsplit, lastUpperIndex_append IsUpper c suf hc hsuf pre 0 (-1)]
    rw [if_pos (by omega)]
    simp
  · intro h
    unfold lastSection
    simp only [lastUpperIndex_no_upper IsUpper identName.data 0 (-1) h]
    simp

theorem lastSection_last_upper_witness :
    lastSection Char.isUpper exampleToLower "registryManagerFactory" = "factory" ∧
    lastSection Char.isUpper exampleToLower "registry" = "registry" :=
  ⟨(lastSection_last_upper Char.isUpper exampleToLower "registryManagerFactory").1
      "registryManager".data 'F' "actory".data rfl rfl (by decide),
   (lastSection_last_upper Char.isUpper exampleToLower "registry").2 (by decide)⟩

end stubmethods

/-! ## The string functions -/

namespace strings

/-- A string has the prefix exactly when it is the prefix followed by a rest. -/
theorem HasPrefix_iff (s pre : String) :
    HasPrefix s pre = true ↔ ∃ rest, s.data = pre.data ++ rest := by
  unfold HasPrefix
  rw [List.isPrefixOf_iff_prefix]
  constructor
  · rintro ⟨t, ht⟩
    exact ⟨t, ht.symm⟩
  · rintro ⟨t, ht⟩
    exact ⟨t, ht.symm⟩

/-- On a string with the prefix, `TrimPrefix` gives `x` exactly when the
string is the prefix followed by `x`. -/
theorem TrimPrefix_eq_iff (s pre x : String) (h : HasPrefix s pre = true) :
    TrimPrefix s pre = x ↔ s = pre ++ x := by
  obtain ⟨rest, hr⟩ := (HasPrefix_iff s pre).1 h
  unfold TrimPrefix
  rw [if_pos h, hr, List.drop_left]
  constructor
  · intro hx
    apply String.ext
    rw [String.data_append, hr, ← hx]
  · intro hx
    apply String.ext
    have hd := congrArg String.data hx
    rw [String.data_append, hr] at hd
    exact List.append_cancel_left hd

/-- A string without the prefix is not the prefix followed by a text. -/
theorem ne_append_of_not_HasPrefix (s pre x : String) (h : ¬ HasPrefix s pre = true) :
    s ≠ pre ++ x := by
  intro hx
  apply h
  rw [HasPrefix_iff]
  exact ⟨x.data, by rw [hx, String.data_append]⟩

/-- Two texts that differ at a position they share stay different however
they are continued. -/
theorem append_ne_of_differ : ∀ (p q r₁ r₂ : List Char),
    (p.zip q).any (fun ab => ab.1 != ab.2) = true → p ++ r₁ ≠ q ++ r₂
  | [], _, _, _, h => by simp at h
  | _ :: _, [], _, _, h => by simp at h
  | a :: p, b :: q, r₁, r₂, h => by
    intro heq
    simp only [List.cons_append, List.cons.injEq] at heq
    simp only [List.zip_cons_cons, List.any_cons, Bool.or_eq_true, bne_iff_ne, ne_eq] at h
    rcases h with h | h
    · exact h heq.1
    · exact append_ne_of_differ p q r₁ r₂ h heq.2

/-- The search of `Index` either finds no instance of `substr`, and there is
none, or stops at the first instance. -/
theorem indexFrom_spec (substr : List Char) : ∀ (l : List Char) (i : Nat),
    (indexFrom substr l i = -1 ∧ ∀ pre post : List Char, l ≠ pre ++ substr ++ post) ∨
    (∃ pre post : List Char, l = pre ++ substr ++ post ∧
      indexFrom substr l i = ((i + pre.length : Nat) : Int) ∧
      ∀ pre' post' : List Char, l = pre' ++ substr ++ post' → pre.length ≤ pre'.length)
  | [], i => by
    by_cases h : substr.isPrefixOf [] = true
    · right
      have hs : substr = [] := List.prefix_nil.1 (List.isPrefixOf_iff_prefix.1 h)
      refine ⟨[], [], by simp [hs], ?_, fun _ _ _ => Nat.zero_le _⟩
      rw [indexFrom, if_pos h]
      simp
    · left
      refine ⟨by rw [indexFrom, if_neg h], ?_⟩
      intro pre post heq
      apply h
      have hs : substr = [] := by
        have hl := congrArg List.length heq
        simp only [List.length_nil, List.length_append] at hl
        exact List.length_eq_zero.1 (by omega)
      rw [hs]
      rfl
  | c :: cs, i => by
    by_cases h : substr.isPrefixOf (c :: cs) = true
    · right
      obtain ⟨t, ht⟩ := List.isPrefixOf_iff_prefix.1 h
      refine ⟨[], t, by simp [ht], ?_, fun _ _ _ => Nat.zero_le _⟩
      rw [indexFrom, if_pos h]
      simp
    · have hnil : ∀ post : List Char, c :: cs ≠ [] ++ substr ++ post := by
        intro post heq
        apply h
        rw [List.isPrefixOf_iff_prefix]
        exact ⟨post, by rw [heq, List.nil_append]⟩
      rcases indexFrom_spec substr cs (i + 1) with ⟨h1, h2⟩ | ⟨pre, post, h1, h2, h3⟩
      · left
        refine ⟨by rw [indexFrom, if_neg h]; exact h1, ?_⟩
        intro pre post heq
        cases pre with
        | nil => exact hnil post heq
        | cons a pre =>
          simp only [List.cons_append, List.cons.injEq] at heq
          exact h2 pre post heq.2
      · right
        refine ⟨c :: pre, post, by rw [h1]; simp, ?_, ?_⟩
        · rw [indexFrom, if_neg h, h2]
          simp only [List.length_cons]
          congr 1
          omega
        · intro pre' post' heq
          cases pre' with
          | nil => exact absurd heq (hnil post')
          | cons a pre' =>
            simp only [List.cons_append, List.cons.injEq] at heq
            have := h3 pre' post' heq.2
            simp only [List.length_cons]
            omega

/-- The functions `Contains` and `Index` on a string: either `substr` does not
occur in it, or `Index` is the length of the text before its first occurrence. -/
theorem Index_cases (s substr : String) :
    (Contains s substr = false ∧
      ∀ pre post : List Char, s.data ≠ pre ++ substr.data ++ post) ∨
    (∃ pre post : List Char, s.data = pre ++ substr.data ++ post ∧
      Contains s substr = true ∧ s.data.take (Index s substr).toNat = pre ∧
      ∀ pre' post' : List Char, s.data = pre' ++ substr.data ++ post' →
        pre.length ≤ pre'.length) := by
  rcases indexFrom_spec substr.data s.data 0 with ⟨h1, h2⟩ | ⟨pre, post, h1, h2, h3⟩
  · left
    refine ⟨?_, h2⟩
    unfold Contains Index
    rw [h1]
    decide
  · right
    refine ⟨pre, post, h1, ?_, ?_, h3⟩
    · unfold Contains Index
      rw [h2]
      simp
    · unfold Index
      rw [h2, h1]
      simp

end strings

/-! ## Code actions: the producers and `fixedByImportFix` -/

namespace golang

/-- C25 fails on the code: `goTest` evaluates `req.pkg` and its entry in the
table `codeActionProducers` does not set `needPkg`, so that, when only the
kind `GoTest` is enabled, `CodeActions` loads no package and calls `goTest`
with `req.pkg = nil`. -/
theorem CodeActions_calls_goTest_without_package :
    readsPkg .goTest = true ∧
    codeActionProducers.filter (fun p => decide (p.fn = .goTest))
      = [{ kind := .GoTest, fn := .goTest, needPkg := false }] ∧
    CodeActions exampleCodeActionsEnv (fun k => decide (k = .GoTest))
      = ([{ fn := .goTest, kind := .GoTest, pkg := none }], none) := by
  decide

/-- The loop of `fixedByImportFix` keeps the diagnostics that its `switch`
accepts, in their order. -/
theorem fixedByImportFix_eq_filter (escape : String → String) (fix : ImportFix)
    (diagnostics : List Diagnostic) :
    fixedByImportFix escape fix diagnostics = diagnostics.filter (fixedBy escape fix) := by
  have h : ∀ (l acc : List Diagnostic),
      l.foldl (fun results diagnostic =>
        if fixedBy escape fix diagnostic = true then results ++ [diagnostic] else results) acc
      = acc ++ l.filter (fixedBy escape fix) := by
    intro l
    induction l with
    | nil => intro acc; simp
    | cons d l ih =>
      intro acc
      rw [List.foldl_cons, ih]
      by_cases hd : fixedBy escape fix d = true
      · simp [hd]
      · simp [hd]
  unfold fixedByImportFix
  rw [h]
  simp

/-- The quoted import path starts with a double quote. -/
theorem quoted_data (escape : String → String) (path : String) :
    (quoted escape path).data = ['"'] ++ ((escape path).data ++ ['"']) := by
  unfold quoted
  rw [String.data_append, String.data_append, List.append_assoc]

/-- A message with one of the three prefixes of `fixedByImportFix` has no
quoted import path before " imported but not used". -/
theorem not_TextBeforeFirst_of_HasPrefix (escape : String → String) (path msg pre sub : String)
    (h : strings.HasPrefix msg pre = true)
    (hd : (pre.data.zip ['"']).any (fun ab => ab.1 != ab.2) = true) :
    ¬ TextBeforeFirst msg (quoted escape path) sub := by
  rintro ⟨⟨post, hpost⟩, _⟩
  obtain ⟨rest, hr⟩ := (strings.HasPrefix_iff msg pre).1 h
  rw [hr, quoted_data, List.append_assoc, List.append_assoc] at hpost
  exact strings.append_ne_of_differ _ _ _ _ hd hpost

/-- A message with one prefix is not another prefix, which differs from the
first at a position they share, followed by a text. -/
theorem ne_append_of_HasPrefix (msg pre other x : String)
    (h : strings.HasPrefix msg pre = true)
    (hd : (pre.data.zip other.data).any (fun ab => ab.1 != ab.2) = true) :
    msg ≠ other ++ x := by
  intro hx
  obtain ⟨rest, hr⟩ := (strings.HasPrefix_iff msg pre).1 h
  have hdat := congrArg String.data hx
  rw [String.data_append, hr] at hdat
  exact strings.append_ne_of_differ _ _ _ _ hd hdat

/-- The `switch` of `fixedByImportFix` accepts a diagnostic exactly when its
message is one that the import fix fixes. -/
theorem fixedBy_iff (escape : String → String) (fix : ImportFix) (d : Diagnostic) :
    fixedBy escape fix d = true ↔ FixedByImport escape fix d.Message := by
  unfold fixedBy FixedByImport
  by_cases h1 : strings.HasPrefix d.Message "undeclared name: " = true
  · rw [if_pos h1, decide_eq_true_iff, strings.TrimPrefix_eq_iff _ _ _ h1]
    constructor
    · exact Or.inl
    · rintro (h | h | h | h)
      · exact h
      · exact absurd h (ne_append_of_HasPrefix _ _ _ _ h1 (by decide))
      · exact absurd h (ne_append_of_HasPrefix _ _ _ _ h1 (by decide))
      · exact absurd h (not_TextBeforeFirst_of_HasPrefix _ _ _ _ _ h1 (by decide))
  rw [if_neg h1]
  by_cases h2 : strings.HasPrefix d.Message "undefined: " = true
  · rw [if_pos h2, decide_eq_true_iff, strings.TrimPrefix_eq_iff _ _ _ h2]
    constructor
    · exact fun h => Or.inr (Or.inl h)
    · rintro (h | h | h | h)
      · exact absurd h (strings.ne_append_of_not_HasPrefix _ _ _ h1)
      · exact h
      · exact absurd h (ne_append_of_HasPrefix _ _ _ _ h2 (by decide))
      · exact absurd h (not_TextBeforeFirst_of_HasPrefix _ _ _ _ _ h2 (by decide))
  rw [if_neg h2]
  by_cases h3 : strings.HasPrefix d.Message "could not import: " = true
  · rw [if_pos h3, decide_eq_true_iff, strings.TrimPrefix_eq_iff _ _ _ h3]
    constructor
    · exact fun h => Or.inr (Or.inr (Or.inl h))
    · rintro (h | h | h | h)
      · exact absurd h (strings.ne_append_of_not_HasPrefix _ _ _ h1)
      · exact absurd h (strings.ne_append_of_not_HasPrefix _ _ _ h2)
      · exact h
      · exact absurd h (not_TextBeforeFirst_of_HasPrefix _ _ _ _ _ h3 (by decide))
  rw [if_neg h3]
  have hrest : ∀ P : Prop, (P ↔ TextBeforeFirst d.Message (quoted escape fix.ImportPath)
      " imported but not used") →
      (P ↔ (d.Message = "undeclared name: " ++ fix.IdentName ∨
        d.Message = "undefined: " ++ fix.IdentName ∨
        d.Message = "could not import: " ++ fix.IdentName ∨
        TextBeforeFirst d.Message (quoted escape fix.ImportPath)
          " imported but not used")) := by
    intro P hP
    rw [hP]
    constructor
    · exact fun h => Or.inr (Or.inr (Or.inr h))
    · rintro (h | h | h | h)
      · exact absurd h (strings.ne_append_of_not_HasPrefix _ _ _ h1)
      · exact absurd h (strings.ne_append_of_not_HasPrefix _ _ _ h2)
      · exact absurd h (strings.ne_append_of_not_HasPrefix _ _ _ h3)
      · exact h
  apply hrest
  rcases strings.Index_cases d.Message " imported but not used" with
    ⟨hc, hno⟩ | ⟨pre, post, hsplit, hc, htake, hmin⟩
  · rw [hc]
    simp only [Bool.false_eq_true, if_false, false_iff]
    rintro ⟨⟨post, hpost⟩, _⟩
    exact hno _ post hpost
  · rw [if_pos hc]
    simp only [htake, decide_eq_true_iff]
    constructor
    · intro hq
      have hq' : (quoted escape fix.ImportPath).data = pre := by rw [← hq]
      refine ⟨⟨post, by rw [hq']; exact hsplit⟩, ?_⟩
      intro pre' post' h'
      rw [hq']
      exact hmin pre' post' h'
    · rintro ⟨⟨post', hpost'⟩, hmin'⟩
      apply String.ext
      have hle : pre.length ≤ (quoted escape fix.ImportPath).data.length := hmin _ post' hpost'
      have hge : (quoted escape fix.ImportPath).data.length ≤ pre.length := hmin' pre post hsplit
      rw [hsplit, List.append_assoc, List.append_assoc] at hpost'
      exact (List.append_inj hpost' (by omega)).1

/-- C26: `fixedByImportFix` returns, in their original order, exactly the
diagnostics whose message is "undeclared name: X", "undefined: X" or
"could not import: X" with X the identifier of the fix, or has the quoted path
of the import of the fix as the text before its first " imported but not used". -/
theorem fixedByImportFix_spec (escape : String → String) (fix : ImportFix)
    (diagnostics : List Diagnostic) :
    ∃ keep : Diagnostic → Bool,
      fixedByImportFix escape fix diagnostics = diagnostics.filter keep ∧
      ∀ d, keep d = true ↔ FixedByImport escape fix d.Message :=
  ⟨fixedBy escape fix, fixedByImportFix_eq_filter escape fix diagnostics,
    fixedBy_iff escape fix⟩

end golang
